import Mathlib

/-!
# SPiCT evaluator (`inst/TMB/spict.cpp`): shallow embedding and checked properties

The C++ templates are generic in the scalar `Type`; the embedding is generic in a
linearly ordered field `α` together with the transcendental functions the code calls.
A computed scalar is a `Val α`: either a finite number, or `nan`, the non-finite
result of an operation taken outside its real domain (division by zero, logarithm
of a non-positive number, square root of a negative number).  `nan` is absorbing: an
operation with a non-finite operand is non-finite, as a NaN flows on through the source's
arithmetic.  Rounding and overflow are not modelled.  `Val` does not tell an infinity from a
NaN; `XVal` does, for the properties that need it.
-/

set_option linter.unusedSectionVars false

namespace Spict

/-- A computed scalar: a finite value or the non-finite outcome of a domain failure. -/
inductive Val (α : Type) where
  | fin (x : α)
  | nan
  deriving DecidableEq, Repr

/-- The functions of `<cmath>` and of the TMB library the evaluator calls, on finite
arguments inside their domain.  `dnorm x mean sd` is TMB's `dnorm(x, mean, sd, 1)`,
the normal log-density; it is library code, so the evaluator is parametric in it. -/
class Transc (α : Type) where
  exp : α → α
  log : α → α
  sqrt : α → α
  dnorm : α → α → α → Val α

namespace Val

variable {α : Type}

/-- Lift of a unary total operation. -/
def map (f : α → α) : Val α → Val α
  | fin x => fin (f x)
  | nan => nan

/-- Lift of a binary total operation; a non-finite operand gives a non-finite result. -/
def map2 (f : α → α → α) : Val α → Val α → Val α
  | fin x, fin y => fin (f x y)
  | _, _ => nan

/-- The finite value, `0` for `nan`; used only to state properties of finite results. -/
def toFin [Zero α] : Val α → α
  | fin x => x
  | nan => 0

instance : Coe α (Val α) := ⟨fin⟩

instance (n : Nat) [OfNat α n] : OfNat (Val α) n := ⟨fin (OfNat.ofNat n)⟩

instance [OfScientific α] : OfScientific (Val α) :=
  ⟨fun m s e => fin (OfScientific.ofScientific m s e)⟩

instance [Add α] : Add (Val α) := ⟨map2 (· + ·)⟩

instance [Sub α] : Sub (Val α) := ⟨map2 (· - ·)⟩

instance [Mul α] : Mul (Val α) := ⟨map2 (· * ·)⟩

instance [Neg α] : Neg (Val α) := ⟨map (- ·)⟩

/-- Division: a zero divisor gives a non-finite result. -/
def div [Div α] [Zero α] [DecidableEq α] : Val α → Val α → Val α
  | fin x, fin y => if y = 0 then nan else fin (x / y)
  | _, _ => nan

instance [Div α] [Zero α] [DecidableEq α] : Div (Val α) := ⟨div⟩

/-- The `exp` of the source: total. -/
def exp [Transc α] : Val α → Val α := map Transc.exp

/-- The `log` of the source: non-finite at a non-positive argument. -/
def log [Transc α] [Zero α] [LT α] [DecidableRel (fun (a b : α) => a < b)] : Val α → Val α
  | fin x => if 0 < x then fin (Transc.log x) else nan
  | nan => nan

/-- The `sqrt` of the source: non-finite at a negative argument. -/
def sqrt [Transc α] [Zero α] [LE α] [DecidableRel (fun (a b : α) => a ≤ b)] : Val α → Val α
  | fin x => if 0 ≤ x then fin (Transc.sqrt x) else nan
  | nan => nan

/-- TMB's `dnorm(x, mean, sd, 1)` on computed scalars. -/
def dnorm [Transc α] : Val α → Val α → Val α → Val α
  | fin x, fin m, fin s => Transc.dnorm x m s
  | _, _, _ => nan

end Val

open Val

section Functions

variable {α : Type} [LinearOrderedField α] [Transc α]

/-- Source: `predictlogF` (lines 7-11). -/
def predictlogF (phi1 logF1 phi2 logF2 : Val α) : Val α :=
  phi1 * logF1 + phi2 * logF2

/-- Source: `calculateBinf` (lines 14-22). -/
def calculateBinf (K F r sdb2 : Val α) (lamperti : Int) : Val α :=
  if lamperti ≠ 0 then
    K * (1 - F / r - 0.5 * sdb2 / r)
  else
    K * (1 - F / r)

/-- Source: `predictB` (lines 25-40). -/
def predictB (B0 Binf F r K dt sdb2 : Val α) (lamperti euler : Int) : Val α :=
  let lamperti := if euler ≠ 0 then 1 else lamperti
  let rate := if lamperti ≠ 0 then r - F - 0.5 * sdb2 else r - F
  if euler ≠ 0 then
    exp (log B0 + (rate - r / K * B0) * dt)
  else
    1 / (1 / Binf + (1 / B0 - 1 / Binf) * exp (-rate * dt))

/-- Source: `predictC` (lines 43-58). -/
def predictC (F K r B0 Binf dt sdb2 : Val α) (lamperti euler : Int) : Val α :=
  let lamperti := if euler ≠ 0 then 1 else lamperti
  let rate := if lamperti ≠ 0 then r - F - 0.5 * sdb2 else r - F
  if euler ≠ 0 then
    F * B0 * dt
  else
    K / r * F * log (1 - B0 / Binf * (1 - exp (rate * dt)))

end Functions

/-! ## The evaluator `objective_function<Type>::operator()` -/

/-- An evaluation that yields no number at all.  The source performs no checks: each of
these is undefined behaviour (or an allocation failure) in C++. -/
inductive Fault where
  | badAlloc
  | outOfBounds
  | unassigned
  deriving DecidableEq, Repr

/-- Data block of the source (lines 66-77).  `DATA_VECTOR`s hold scalars of the
template type, also `ic`, `nc`, `ii` and `isum`. -/
structure Data (α : Type) where
  delay : Int
  dt : List α
  dtpred : α
  Cobs : List α
  ic : List α
  nc : List α
  I : List α
  ii : List α
  isum : List α
  lamperti : Int
  euler : Int
  dbg : α

/-- Parameter block of the source (lines 78-89). -/
structure Params (α : Type) where
  phi1 : α
  phi2 : α
  alpha : α
  beta : α
  loggamma : α
  logr : α
  logK : α
  logq : α
  logsdf : α
  logsdb : α
  logF : List α
  logB : List α

/-- Everything the evaluation computes: the returned `ans`, the quantities handed to
`ADREPORT`/`REPORT`, and the local vectors and forecasts the claims speak about.  A vector
element that the source allocates but never assigns is `none`. -/
structure Report (α : Type) where
  ans : Val α
  r : Val α
  K : Val α
  q : Val α
  sdf : Val α
  sdc : Val α
  sdi : Val α
  Bmsy : Val α
  MSY : Val α
  Fmsy : Val α
  logBmsy : Val α
  logFmsy : Val α
  rvec : List (Val α)
  Binf : List (Val α)
  logBinf : List (Val α)
  Bpred : List (Option (Val α))
  Cpredsub : List (Option (Val α))
  P : List (Val α)
  Cpred : List (Val α)
  logCpred : List (Val α)
  logIpred : List (Option (Val α))
  logFp : Val α
  Fp : Val α
  Binfp : Val α
  Bp : Val α
  Cp : Val α
  logIp : Val α
  Cinfp : Val α
  Binfpmsy : Val α
  Bpmsy : Val α
  Cpmsy : Val α
  logBp : Val α
  logBpmsy : Val α

section Evaluator

variable {α : Type} [LinearOrderedField α] [FloorRing α] [Transc α]

/-- Conversion to `int` by truncation toward zero, as `CppAD::Integer` does. -/
def Integer (x : α) : Int := if 0 ≤ x then ⌊x⌋ else ⌈x⌉

/-- Element read `v(i)` with an `int` index. -/
def rd {β : Type} (v : List β) (i : Int) : Except Fault β :=
  if 0 ≤ i then
    match v[i.toNat]? with
    | some x => .ok x
    | none => .error Fault.outOfBounds
  else .error Fault.outOfBounds

/-- Element read of a vector that may hold elements never assigned. -/
def rdCell {β : Type} (v : List (Option β)) (i : Int) : Except Fault β :=
  match rd v i with
  | .ok (some x) => .ok x
  | .ok none => .error Fault.unassigned
  | .error e => .error e

/-- The loop `for(int i = lo; i < lo + n; i++) s = body(i, s)`. -/
def forLoop {σ : Type} (body : Int → σ → Except Fault σ) : Nat → Int → σ → Except Fault σ
  | 0, _, s => .ok s
  | n + 1, i, s =>
    match body i s with
    | .ok s' => forLoop body n (i + 1) s'
    | .error e => .error e

/-- The loop `for(int i = lo; i < lo + n; i++) v(i) = f(i)`: the assigned elements. -/
def fillLoop {β : Type} (f : Int → Except Fault β) : Nat → Int → Except Fault (List β)
  | 0, _ => .ok []
  | n + 1, i =>
    match f i with
    | .ok x =>
      match fillLoop f n (i + 1) with
      | .ok xs => .ok (x :: xs)
      | .error e => .error e
    | .error e => .error e

/-- Lines 141-150: `rvec`. -/
def rvecLoop (isum : List α) (gamma r : Val α) (ns : Nat) : Except Fault (List (Val α)) :=
  fillLoop (fun i => do
    let s ← rd isum i
    pure (if s = 1 then gamma * r else r)) ns 0

/-- One pass of the fishing-mortality loop (lines 174-175): `likval`. -/
def fishingStep (delay : Int) (dt logF : List α) (phi1 phi2 sdf : Val α) (i : Int) :
    Except Fault (Val α) := do
  let a ← rd logF (i - 1)
  let b ← rd logF (i - delay)
  let logFpred := predictlogF phi1 (fin a) phi2 (fin b)
  let x ← rd logF i
  let t ← rd dt (i - 1)
  pure (dnorm (fin x) logFpred (sqrt (fin t) * sdf))

/-- Lines 172-181: `for(int i=delay; i<ns; i++)`. -/
def fishingLoop (delay : Int) (dt logF : List α) (phi1 phi2 sdf : Val α) (ns : Nat)
    (ans : Val α) : Except Fault (Val α) :=
  forLoop (fun i ans => do
    let likval ← fishingStep delay dt logF phi1 phi2 sdf i
    pure (ans - likval)) ((ns : Int) - delay).toNat delay ans

/-- Line 185: `Binf`. -/
def binfLoop (F rvec : List (Val α)) (K sdb2 : Val α) (lamperti : Int) (ns : Nat) :
    Except Fault (List (Val α)) :=
  fillLoop (fun i => do
    let f ← rd F i
    let rv ← rd rvec i
    pure (calculateBinf K f rv sdb2 lamperti)) ns 0

/-- One pass of the biomass loop (lines 191-192): `Bpred(i+1)` and `likval`. -/
def biomassStep (dt logB : List α) (B Binf F rvec : List (Val α)) (K sdb sdb2 : Val α)
    (lamperti euler : Int) (i : Int) : Except Fault (Val α × Val α) := do
  let b ← rd B i
  let binf ← rd Binf (i + 1)
  let f ← rd F (i + 1)
  let rv ← rd rvec (i + 1)
  let t ← rd dt i
  let bp := predictB b binf f rv K (fin t) sdb2 lamperti euler
  let lb ← rd logB (i + 1)
  pure (bp, dnorm (log bp) (fin lb) (sqrt (fin t) * sdb))

/-- Lines 188-198: the state is `ans` and the assigned elements `Bpred(1), Bpred(2), ...`. -/
def biomassLoop (dt logB : List α) (B Binf F rvec : List (Val α)) (K sdb sdb2 : Val α)
    (lamperti euler : Int) (ns : Nat) (ans : Val α) :
    Except Fault (Val α × List (Val α)) :=
  forLoop (fun i s => do
    let o ← biomassStep dt logB B Binf F rvec K sdb sdb2 lamperti euler i
    pure (s.1 - o.2, s.2 ++ [o.1])) (ns - 1) 0 (ans, [])

/-- Lines 201-204: the assigned elements `Cpredsub(0) .. Cpredsub(ns-2)`. -/
def catchPredLoop (dt : List α) (B Binf F rvec : List (Val α)) (K sdb2 : Val α)
    (lamperti euler : Int) (ns : Nat) : Except Fault (List (Val α)) :=
  fillLoop (fun i => do
    let f ← rd F i
    let rv ← rd rvec i
    let b ← rd B i
    let binf ← rd Binf i
    let t ← rd dt i
    pure (predictC f K rv b binf (fin t) sdb2 lamperti euler)) (ns - 1) 0

/-- Line 208: `P`. -/
def productionLoop (B : List (Val α)) (Cpredsub : List (Option (Val α))) (ns : Nat) :
    Except Fault (List (Val α)) :=
  fillLoop (fun i => do
    let b1 ← rd B (i + 1)
    let b0 ← rd B i
    let c ← rdCell Cpredsub i
    pure (b1 - b0 + c)) (ns - 1) 0

/-- Lines 227-230: the inner loop `for(int j=0; j<nc(i); j++)`, started from `Cpred(i) = 0`
(line 111).  `j` runs over the integers below the scalar `nc(i)`, so there are
`max(0, ceil(nc(i)))` passes. -/
def catchSum (ic : List α) (Cpredsub : List (Option (Val α))) (i : Int) (n : α) :
    Except Fault (Val α) :=
  forLoop (fun j c => do
    let icv ← rd ic i
    let x ← rdCell Cpredsub (Integer (icv - 1) + j)
    pure (c + x)) (Int.toNat ⌈n⌉) 0 0

/-- One pass of the catch-observation loop (lines 227-232): `Cpred(i)` and `likval`. -/
def catchStep (Cobs ic nc : List α) (Cpredsub : List (Option (Val α))) (sdc : Val α)
    (i : Int) : Except Fault (Val α × Val α) := do
  let n ← rd nc i
  let c ← catchSum ic Cpredsub i n
  let co ← rd Cobs i
  pure (c, dnorm (log c) (log (fin co)) sdc)

/-- Lines 225-238: the state is `ans`, `Cpred` and `logCpred`. -/
def catchLoop (Cobs ic nc : List α) (Cpredsub : List (Option (Val α))) (sdc : Val α)
    (ans : Val α) : Except Fault (Val α × List (Val α) × List (Val α)) :=
  forLoop (fun i s => do
    let o ← catchStep Cobs ic nc Cpredsub sdc i
    pure (s.1 - o.2, s.2.1 ++ [o.1], s.2.2 ++ [log o.1])) Cobs.length 0 (ans, [], [])

/-- One pass of the abundance-index loop (lines 245-249): `logIpred(i)` and `likval`,
or nothing when `I(i) > 0` fails. -/
def indexStep (I ii : List α) (B : List (Val α)) (logq sdi : Val α) (i : Int) :
    Except Fault (Option (Val α × Val α)) := do
  let x ← rd I i
  if 0 < x then
    let iv ← rd ii i
    let b ← rd B (Integer (iv - 1))
    let logIpred := logq + log b
    pure (some (logIpred, dnorm (log (fin x)) logIpred sdi))
  else
    pure none

/-- Lines 244-255: the state is `ans` and `logIpred`. -/
def indexLoop (I ii : List α) (B : List (Val α)) (logq sdi : Val α) (ans : Val α) :
    Except Fault (Val α × List (Option (Val α))) :=
  forLoop (fun i s => do
    let o ← indexStep I ii B logq sdi i
    match o with
    | some (lip, likval) => pure (s.1 - likval, s.2 ++ [some lip])
    | none => pure (s.1, s.2 ++ [none])) I.length 0 (ans, [])

/-- Lines 115-122: `(Bmsy, Fmsy, MSY)`. -/
def referencePoints (r K sdb2 : Val α) (lamperti : Int) : Val α × Val α × Val α :=
  let Bmsy := K / 2
  let Fmsy := if lamperti ≠ 0 then r / 2 - 0.5 * sdb2 else r / 2
  let MSY := Bmsy * Fmsy
  (Bmsy, Fmsy, MSY)

/-- Source: `objective_function<Type>::operator()` (lines 61-308).  Diagnostic printing
(`dbg`, the `F(i)==r` warning) is left out: it assigns nothing. -/
def objective_function (d : Data α) (p : Params α) : Except Fault (Report α) := do
  let ans : Val α := 0
  let r := exp (fin p.logr)
  let K := exp (fin p.logK)
  let q := exp (fin p.logq)
  let sdf := exp (fin p.logsdf)
  let sdb := exp (fin p.logsdb)
  let sdb2 := sdb * sdb
  let sdi := fin p.alpha * sdb
  let sdc := fin p.beta * sdf
  let gamma := exp (fin p.loggamma)
  let ns := p.logF.length
  let F : List (Val α) := p.logF.map (fun x => exp (fin x))
  -- line 104: `vector<Type> P(ns-1)`
  if ns = 0 then throw Fault.badAlloc
  let B : List (Val α) := p.logB.map (fun x => exp (fin x))
  let (Bmsy, Fmsy, MSY) := referencePoints r K sdb2 d.lamperti
  let logBmsy := log Bmsy
  let logFmsy := log Fmsy
  let rvec ← rvecLoop d.isum gamma r ns
  -- process equations
  let ans ← fishingLoop d.delay d.dt p.logF (fin p.phi1) (fin p.phi2) sdf ns ans
  let Binf ← binfLoop F rvec K sdb2 d.lamperti ns
  let (ans, Bpred) ← biomassLoop d.dt p.logB B Binf F rvec K sdb sdb2 d.lamperti d.euler ns ans
  let Cpredsub0 ← catchPredLoop d.dt B Binf F rvec K sdb2 d.lamperti d.euler ns
  let Cpredsub : List (Option (Val α)) := Cpredsub0.map some ++ [none]
  let P ← productionLoop B Cpredsub ns
  -- observation equations
  let (ans, Cpred, logCpred) ← catchLoop d.Cobs d.ic d.nc Cpredsub sdc ans
  let (ans, logIpred) ← indexLoop d.I d.ii B (fin p.logq) sdi ans
  -- one-step-ahead predictions
  let l1 ← rd p.logF ((ns : Int) - 1)
  let l2 ← rd p.logF ((ns : Int) - d.delay)
  let logFp := predictlogF (fin p.phi1) (fin l1) (fin p.phi2) (fin l2)
  let Fp := exp logFp
  let rvl ← rd rvec ((ns : Int) - 1)
  let Bl ← rd B ((ns : Int) - 1)
  let Binfp := calculateBinf K Fp rvl sdb2 d.lamperti
  let Bp := predictB Bl Binfp Fp rvl K (fin d.dtpred) sdb2 d.lamperti d.euler
  let Cp := predictC Fp K rvl Bp Binfp (fin d.dtpred) sdb2 d.lamperti d.euler
  let logIp := fin p.logq + log Bp
  let Cinfp := predictC Fp K rvl Binfp Binfp (fin d.dtpred) sdb2 d.lamperti d.euler
  -- MSY predictions
  let Binfpmsy := calculateBinf K Fmsy rvl sdb2 d.lamperti
  let Bpmsy := predictB Bl Binfpmsy Fmsy rvl K (fin d.dtpred) sdb2 d.lamperti d.euler
  let Cpmsy := predictC Fmsy K rvl Bpmsy Binfpmsy (fin d.dtpred) sdb2 d.lamperti d.euler
  pure {
    ans := ans, r := r, K := K, q := q, sdf := sdf, sdc := sdc, sdi := sdi,
    Bmsy := Bmsy, MSY := MSY, Fmsy := Fmsy, logBmsy := logBmsy, logFmsy := logFmsy,
    rvec := rvec, Binf := Binf, logBinf := Binf.map log,
    Bpred := none :: Bpred.map some, Cpredsub := Cpredsub, P := P,
    Cpred := Cpred, logCpred := logCpred, logIpred := logIpred,
    logFp := logFp, Fp := Fp, Binfp := Binfp, Bp := Bp, Cp := Cp, logIp := logIp,
    Cinfp := Cinfp, Binfpmsy := Binfpmsy, Bpmsy := Bpmsy, Cpmsy := Cpmsy,
    logBp := log Bp, logBpmsy := log Bpmsy }

end Evaluator

/-- The real numbers with the real exponential, logarithm and square root, and the
normal log-density `-log(sqrt(2π)) - log(sd) - ((x-mean)/sd)²/2` for `sd > 0`. -/
noncomputable instance : Transc ℝ where
  exp := Real.exp
  log := Real.log
  sqrt := Real.sqrt
  dnorm := fun x m s =>
    if 0 < s then
      fin (-(Real.log (Real.sqrt (2 * Real.pi))) - Real.log s - 0.5 * ((x - m) / s) * ((x - m) / s))
    else nan

/-! ## Definitions used to state the properties -/

/-- Sum of a list of computed scalars. -/
def vsum {α : Type} [Add α] [Zero α] : List (Val α) → Val α
  | [] => fin 0
  | x :: xs => x + vsum xs

/-- A small well-formed input: three knots, one catch observation spanning both
sub-intervals, three index observations of which the second is missing. -/
def exampleData (α : Type) [LinearOrderedField α] : Data α where
  delay := 1
  dt := [1, 1]
  dtpred := 1
  Cobs := [10]
  ic := [1]
  nc := [2]
  I := [5, 0, 4]
  ii := [1, 2, 3]
  isum := [0, 1, 0]
  lamperti := 1
  euler := 0
  dbg := 0

/-- Parameters and latent states for `exampleData`. -/
def exampleParams (α : Type) [LinearOrderedField α] : Params α where
  phi1 := 1
  phi2 := 0
  alpha := 1
  beta := 1
  loggamma := 0
  logr := 0
  logK := 1
  logq := 0
  logsdf := -1
  logsdb := -1
  logF := [-1, -1, -1]
  logB := [0, 0, 0]

/-- The likelihood contribution of one pass of the abundance-index loop; `0` when the
observation is skipped. -/
def indexLik {α : Type} [Zero α] : Option (Val α × Val α) → Val α
  | some o => o.2
  | none => fin 0

/-- The stage results of one evaluation: every loop of the source and the four reads of
the forecast stage returned the listed values. -/
def StagesOk {α : Type} [LinearOrderedField α] [FloorRing α] [Transc α]
    (d : Data α) (p : Params α) (rvec : List (Val α)) (ansF : Val α) (Binf : List (Val α))
    (sB : Val α × List (Val α)) (Cps P : List (Val α))
    (sC : Val α × List (Val α) × List (Val α)) (sI : Val α × List (Option (Val α)))
    (l1 l2 : α) (rvl Bl : Val α) : Prop :=
  p.logF.length ≠ 0 ∧
  rvecLoop d.isum (exp (fin p.loggamma)) (exp (fin p.logr)) p.logF.length = .ok rvec ∧
  fishingLoop d.delay d.dt p.logF (fin p.phi1) (fin p.phi2) (exp (fin p.logsdf))
    p.logF.length 0 = .ok ansF ∧
  binfLoop (p.logF.map (fun x => exp (fin x))) rvec (exp (fin p.logK))
    (exp (fin p.logsdb) * exp (fin p.logsdb)) d.lamperti p.logF.length = .ok Binf ∧
  biomassLoop d.dt p.logB (p.logB.map (fun x => exp (fin x))) Binf
    (p.logF.map (fun x => exp (fin x))) rvec (exp (fin p.logK)) (exp (fin p.logsdb))
    (exp (fin p.logsdb) * exp (fin p.logsdb)) d.lamperti d.euler p.logF.length ansF = .ok sB ∧
  catchPredLoop d.dt (p.logB.map (fun x => exp (fin x))) Binf
    (p.logF.map (fun x => exp (fin x))) rvec (exp (fin p.logK))
    (exp (fin p.logsdb) * exp (fin p.logsdb)) d.lamperti d.euler p.logF.length = .ok Cps ∧
  productionLoop (p.logB.map (fun x => exp (fin x))) (Cps.map some ++ [none])
    p.logF.length = .ok P ∧
  catchLoop d.Cobs d.ic d.nc (Cps.map some ++ [none]) (fin p.beta * exp (fin p.logsdf)) sB.1
    = .ok sC ∧
  indexLoop d.I d.ii (p.logB.map (fun x => exp (fin x))) (fin p.logq)
    (fin p.alpha * exp (fin p.logsdb)) sC.1 = .ok sI ∧
  rd p.logF ((p.logF.length : Int) - 1) = .ok l1 ∧
  rd p.logF ((p.logF.length : Int) - d.delay) = .ok l2 ∧
  rd rvec ((p.logF.length : Int) - 1) = .ok rvl ∧
  rd (p.logB.map (fun x => exp (fin x))) ((p.logF.length : Int) - 1) = .ok Bl

/-- What the report of an evaluation with the given stage results holds. -/
def ReportOf {α : Type} [LinearOrderedField α] [FloorRing α] [Transc α]
    (d : Data α) (p : Params α) (rep : Report α) (rvec : List (Val α)) (Binf : List (Val α))
    (sB : Val α × List (Val α)) (Cps : List (Val α))
    (sC : Val α × List (Val α) × List (Val α)) (sI : Val α × List (Option (Val α))) : Prop :=
  rep.ans = sI.1 ∧ rep.r = exp (fin p.logr) ∧ rep.K = exp (fin p.logK) ∧
  rep.rvec = rvec ∧ rep.Binf = Binf ∧ rep.Bpred = none :: sB.2.map some ∧
  rep.Cpredsub = Cps.map some ++ [none] ∧ rep.Cpred = sC.2.1 ∧ rep.logCpred = sC.2.2 ∧
  rep.logIpred = sI.2 ∧
  rep.Bmsy = (referencePoints (exp (fin p.logr)) (exp (fin p.logK))
    (exp (fin p.logsdb) * exp (fin p.logsdb)) d.lamperti).1 ∧
  rep.Fmsy = (referencePoints (exp (fin p.logr)) (exp (fin p.logK))
    (exp (fin p.logsdb) * exp (fin p.logsdb)) d.lamperti).2.1 ∧
  rep.MSY = (referencePoints (exp (fin p.logr)) (exp (fin p.logK))
    (exp (fin p.logsdb) * exp (fin p.logsdb)) d.lamperti).2.2

/-- The value an evaluation returns (line 307), or its fault. -/
def nll {α : Type} [LinearOrderedField α] [FloorRing α] [Transc α]
    (d : Data α) (p : Params α) : Except Fault (Val α) :=
  (objective_function d p).map (fun rep => rep.ans)

/-- The input with index observation `k` deleted from `I` and `ii`. -/
def Data.dropIndexObs {α : Type} (d : Data α) (k : Nat) : Data α :=
  { d with I := d.I.eraseIdx k, ii := d.ii.eraseIdx k }

/-- The input with catch observation `k` deleted from `Cobs`, `ic` and `nc`. -/
def Data.dropCatchObs {α : Type} (d : Data α) (k : Nat) : Data α :=
  { d with Cobs := d.Cobs.eraseIdx k, ic := d.ic.eraseIdx k, nc := d.nc.eraseIdx k }

/-- The term of one catch observation in the negative log-likelihood:
`-logNormalDensity(log(Cpred); log(Cobs), sdc)` with `sdc = beta*sdf`. -/
def catchObsTerm {α : Type} [LinearOrderedField α] [Transc α]
    (p : Params α) (Cpred Cobs : Val α) : Val α :=
  -(dnorm (log Cpred) (log Cobs) (fin p.beta * exp (fin p.logsdf)))

/-- The term of one index observation in the negative log-likelihood:
`-logNormalDensity(log(I); logq + log(B), sdi)` with `sdi = alpha*sdb`. -/
def indexObsTerm {α : Type} [LinearOrderedField α] [Transc α]
    (p : Params α) (I B : Val α) : Val α :=
  -(dnorm (log I) (fin p.logq + log B) (fin p.alpha * exp (fin p.logsdb)))

/-- Element `v[i]` of a data vector, `0` outside it; used to write the terms of the total. -/
def at0 {α : Type} [Zero α] (v : List α) (i : Int) : α :=
  (v[i.toNat]?).getD 0

/-- Element `v[i]` of a computed vector, non-finite where unassigned or outside it. -/
def cellAt {α : Type} (v : List (Option (Val α))) (i : Nat) : Val α :=
  match v[i]? with
  | some (some x) => x
  | _ => nan

/-- Terms (1): for each knot `i` in `[delay, ns)`, the log-density of `logF[i]` with mean
`phi1*logF[i-1] + phi2*logF[i-delay]` and sd `sqrt(dt[i-1])*sdf`. -/
def fishingTerms {α : Type} [LinearOrderedField α] [Transc α]
    (d : Data α) (p : Params α) : List (Val α) :=
  (List.range ((p.logF.length : Int) - d.delay).toNat).map fun (j : Nat) =>
    let i : Int := d.delay + (j : Int)
    dnorm (fin (at0 p.logF i))
      (fin p.phi1 * fin (at0 p.logF (i - 1)) + fin p.phi2 * fin (at0 p.logF (i - d.delay)))
      (sqrt (fin (at0 d.dt (i - 1))) * exp (fin p.logsdf))

/-- Terms (2): for each `i` in `[0, ns-1)`, the log-density of `log(Bpred[i+1])` with mean
`logB[i+1]` and sd `sqrt(dt[i])*sdb`. -/
def biomassTerms {α : Type} [LinearOrderedField α] [Transc α]
    (d : Data α) (p : Params α) (Bpred : List (Option (Val α))) : List (Val α) :=
  (List.range (p.logF.length - 1)).map fun (i : Nat) =>
    dnorm (log (cellAt Bpred (i + 1))) (fin (at0 p.logB ((i : Int) + 1)))
      (sqrt (fin (at0 d.dt (i : Int))) * exp (fin p.logsdb))

/-- Terms (3): for each catch observation, the log-density of `log(Cpred[i])` with mean
`log(Cobs[i])` and sd `sdc = beta*sdf`. -/
def catchTerms {α : Type} [LinearOrderedField α] [Transc α]
    (d : Data α) (p : Params α) (Cpred : List (Val α)) : List (Val α) :=
  (List.range d.Cobs.length).map fun (i : Nat) =>
    dnorm (log (Cpred.getD i nan)) (log (fin (at0 d.Cobs (i : Int))))
      (fin p.beta * exp (fin p.logsdf))

/-- Terms (4): for each index observation with `I[i] > 0`, the log-density of `log(I[i])`
with mean `logq + log(B[ii[i]-1])` and sd `sdi = alpha*sdb`, where `B = exp(logB)` and the
knot `ii[i]-1` is converted to an `int` as the source does. -/
def indexTerms {α : Type} [LinearOrderedField α] [FloorRing α] [Transc α]
    (d : Data α) (p : Params α) : List (Val α) :=
  ((List.range d.I.length).filter (fun (i : Nat) => decide (0 < at0 d.I (i : Int)))).map
    fun (i : Nat) =>
    dnorm (log (fin (at0 d.I (i : Int))))
      (fin p.logq + log (exp (fin (at0 p.logB (Integer (at0 d.ii (i : Int) - 1))))))
      (fin p.alpha * exp (fin p.logsdb))

/-- Every element the evaluation reads exists and has been assigned: `ns ≥ 1`,
`1 ≤ delay ≤ ns`, `isum` and `logB` have at least `ns` elements and `dt` at least `ns-1`,
every catch observation has its `nc` and, when `nc[i] > 0`, its `ic` with the knots the
inner loop reads, `[t, t + ceil(nc[i]))` for `t = Integer(ic[i]-1)`, inside `[0, ns-1)`, and
every index observation with `I[i] > 0` has its `ii` with the knot it reads,
`Integer(ii[i]-1)`, a position of `logB`.  `Integer` is the source's conversion to `int`,
which truncates toward zero: the condition is on the knots read, not on the scalars
`ic[i]-1`, `nc[i]`, `ii[i]-1` themselves. -/
def ReadsInRange {α : Type} [LinearOrderedField α] [FloorRing α]
    (d : Data α) (p : Params α) : Prop :=
  1 ≤ p.logF.length ∧ 1 ≤ d.delay ∧ d.delay ≤ (p.logF.length : Int) ∧
  p.logF.length ≤ d.isum.length ∧ p.logF.length ≤ p.logB.length ∧
  p.logF.length - 1 ≤ d.dt.length ∧
  (∀ i, i < d.Cobs.length → ∃ n, d.nc[i]? = some n ∧
    (0 < n → ∃ c, d.ic[i]? = some c ∧ 0 ≤ Integer (c - 1) ∧
      Integer (c - 1) + ⌈n⌉ ≤ (p.logF.length : Int) - 1)) ∧
  (∀ i (hi : i < d.I.length), 0 < d.I[i] → ∃ v, d.ii[i]? = some v ∧ 0 ≤ Integer (v - 1) ∧
    Integer (v - 1) < (p.logB.length : Int))

/-- What the report of an evaluation holds besides `ReportOf`: the production vector and
the forecasts of lines 258-276, computed from the four reads of the forecast stage. -/
def ForecastOf {α : Type} [LinearOrderedField α] [FloorRing α] [Transc α]
    (d : Data α) (p : Params α) (rep : Report α) (P : List (Val α))
    (l1 l2 : α) (rvl Bl : Val α) : Prop :=
  rep.P = P ∧
  rep.logFp = predictlogF (fin p.phi1) (fin l1) (fin p.phi2) (fin l2) ∧
  rep.Fp = exp rep.logFp ∧
  rep.Binfp = calculateBinf (exp (fin p.logK)) rep.Fp rvl
    (exp (fin p.logsdb) * exp (fin p.logsdb)) d.lamperti ∧
  rep.Bp = predictB Bl rep.Binfp rep.Fp rvl (exp (fin p.logK)) (fin d.dtpred)
    (exp (fin p.logsdb) * exp (fin p.logsdb)) d.lamperti d.euler ∧
  rep.Cp = predictC rep.Fp (exp (fin p.logK)) rvl rep.Bp rep.Binfp (fin d.dtpred)
    (exp (fin p.logsdb) * exp (fin p.logsdb)) d.lamperti d.euler ∧
  rep.logIp = fin p.logq + log rep.Bp ∧
  rep.Cinfp = predictC rep.Fp (exp (fin p.logK)) rvl rep.Binfp rep.Binfp (fin d.dtpred)
    (exp (fin p.logsdb) * exp (fin p.logsdb)) d.lamperti d.euler ∧
  rep.Binfpmsy = calculateBinf (exp (fin p.logK)) rep.Fmsy rvl
    (exp (fin p.logsdb) * exp (fin p.logsdb)) d.lamperti ∧
  rep.Bpmsy = predictB Bl rep.Binfpmsy rep.Fmsy rvl (exp (fin p.logK)) (fin d.dtpred)
    (exp (fin p.logsdb) * exp (fin p.logsdb)) d.lamperti d.euler ∧
  rep.Cpmsy = predictC rep.Fmsy (exp (fin p.logK)) rvl rep.Bpmsy rep.Binfpmsy (fin d.dtpred)
    (exp (fin p.logsdb) * exp (fin p.logsdb)) d.lamperti d.euler

/-- A two-knot input without observations, evaluated with the Euler scheme; the fishing
mortality differs between the two knots. -/
def twoKnotData (α : Type) [LinearOrderedField α] : Data α where
  delay := 1
  dt := [1]
  dtpred := 1
  Cobs := []
  ic := []
  nc := []
  I := []
  ii := []
  isum := [0, 0]
  lamperti := 1
  euler := 1
  dbg := 0

/-- Parameters and latent states for `twoKnotData`: `F = [exp 0, exp 1]`. -/
def twoKnotParams (α : Type) [LinearOrderedField α] : Params α where
  phi1 := 1
  phi2 := 0
  alpha := 1
  beta := 1
  loggamma := 0
  logr := 0
  logK := 0
  logq := 0
  logsdf := 0
  logsdb := 0
  logF := [0, 1]
  logB := [0, 0]

/-! ## Scalars with infinities

The source's arithmetic is IEEE arithmetic: a division by zero does not stop it but yields an
infinity, and an infinity flows on (`1/inf = 0`, `inf - inf = NaN`).  `Val` merges the
infinities into `nan`.  Where a property speaks of inputs on which an intermediate result is
infinite, the scalar functions are read over `XVal`, which keeps them apart.  Rounding is
not modelled, and a zero stands for `+0`. -/

/-- A scalar of IEEE arithmetic without rounding: finite, `+inf`, `-inf` or NaN. -/
inductive XVal (α : Type) where
  | fin (x : α)
  | pinf
  | ninf
  | nan
  deriving DecidableEq, Repr

namespace XVal

variable {α : Type}

instance (n : Nat) [OfNat α n] : OfNat (XVal α) n := ⟨fin (OfNat.ofNat n)⟩

instance [OfScientific α] : OfScientific (XVal α) :=
  ⟨fun m s e => fin (OfScientific.ofScientific m s e)⟩

/-- Negation. -/
def neg [Neg α] : XVal α → XVal α
  | fin x => fin (-x)
  | pinf => ninf
  | ninf => pinf
  | nan => nan

/-- Addition: `inf + (-inf)` is NaN. -/
def add [Add α] : XVal α → XVal α → XVal α
  | fin x, fin y => fin (x + y)
  | fin _, pinf => pinf
  | fin _, ninf => ninf
  | pinf, fin _ => pinf
  | ninf, fin _ => ninf
  | pinf, pinf => pinf
  | ninf, ninf => ninf
  | pinf, ninf => nan
  | ninf, pinf => nan
  | nan, _ => nan
  | _, nan => nan

/-- Subtraction: `inf - inf` is NaN. -/
def sub [Sub α] : XVal α → XVal α → XVal α
  | fin x, fin y => fin (x - y)
  | fin _, pinf => ninf
  | fin _, ninf => pinf
  | pinf, fin _ => pinf
  | ninf, fin _ => ninf
  | pinf, ninf => pinf
  | ninf, pinf => ninf
  | pinf, pinf => nan
  | ninf, ninf => nan
  | nan, _ => nan
  | _, nan => nan

/-- The infinity of the sign of `x`; NaN for `x = 0` (`0 * inf`, `0 / 0`). -/
def signedInf [Zero α] [LT α] [DecidableRel (fun (a b : α) => a < b)] (x : α) : XVal α :=
  if 0 < x then pinf else if x < 0 then ninf else nan

/-- Multiplication: `0 * inf` is NaN. -/
def mul [Mul α] [Neg α] [Zero α] [LT α] [DecidableRel (fun (a b : α) => a < b)] :
    XVal α → XVal α → XVal α
  | fin x, fin y => fin (x * y)
  | fin x, pinf => signedInf x
  | fin x, ninf => signedInf (-x)
  | pinf, fin y => signedInf y
  | ninf, fin y => signedInf (-y)
  | pinf, pinf => pinf
  | ninf, ninf => pinf
  | pinf, ninf => ninf
  | ninf, pinf => ninf
  | nan, _ => nan
  | _, nan => nan

/-- Division: a non-zero number over zero is an infinity, `0/0` and `inf/inf` are NaN, a
finite number over an infinity is zero. -/
def div [Div α] [Neg α] [Zero α] [DecidableEq α] [LT α]
    [DecidableRel (fun (a b : α) => a < b)] : XVal α → XVal α → XVal α
  | fin x, fin y => if y = 0 then signedInf x else fin (x / y)
  | fin _, pinf => fin 0
  | fin _, ninf => fin 0
  | pinf, fin y => if y < 0 then ninf else pinf
  | ninf, fin y => if y < 0 then pinf else ninf
  | pinf, pinf => nan
  | pinf, ninf => nan
  | ninf, pinf => nan
  | ninf, ninf => nan
  | nan, _ => nan
  | _, nan => nan

instance [Neg α] : Neg (XVal α) := ⟨neg⟩

instance [Add α] : Add (XVal α) := ⟨add⟩

instance [Sub α] : Sub (XVal α) := ⟨sub⟩

instance [Mul α] [Neg α] [Zero α] [LT α] [DecidableRel (fun (a b : α) => a < b)] :
    Mul (XVal α) := ⟨mul⟩

instance [Div α] [Neg α] [Zero α] [DecidableEq α] [LT α]
    [DecidableRel (fun (a b : α) => a < b)] : Div (XVal α) := ⟨div⟩

/-- The `exp` of the source: `exp(inf) = inf`, `exp(-inf) = 0`. -/
def exp [Transc α] [Zero α] : XVal α → XVal α
  | fin x => fin (Transc.exp x)
  | pinf => pinf
  | ninf => fin 0
  | nan => nan

/-- The `log` of the source: `log(0) = -inf`, NaN at a negative argument. -/
def log [Transc α] [Zero α] [LT α] [DecidableRel (fun (a b : α) => a < b)] :
    XVal α → XVal α
  | fin x => if 0 < x then fin (Transc.log x) else if x < 0 then nan else ninf
  | pinf => pinf
  | ninf => nan
  | nan => nan

end XVal

/-- Source: `predictB` (lines 25-40), over scalars with infinities. -/
def Ext.predictB {α : Type} [LinearOrderedField α] [Transc α]
    (B0 Binf F r K dt sdb2 : XVal α) (lamperti euler : Int) : XVal α :=
  let lamperti := if euler ≠ 0 then 1 else lamperti
  let rate := if lamperti ≠ 0 then r - F - 0.5 * sdb2 else r - F
  if euler ≠ 0 then
    XVal.exp (XVal.log B0 + (rate - r / K * B0) * dt)
  else
    1 / (1 / Binf + (1 / B0 - 1 / Binf) * XVal.exp (-rate * dt))

/-! ## Arithmetic of computed scalars -/

section ValLemmas

variable {α : Type}

@[simp] theorem Val.fin_add_fin [Add α] (x y : α) : (fin x + fin y : Val α) = fin (x + y) := rfl

@[simp] theorem Val.fin_sub_fin [Sub α] (x y : α) : (fin x - fin y : Val α) = fin (x - y) := rfl

@[simp] theorem Val.fin_mul_fin [Mul α] (x y : α) : (fin x * fin y : Val α) = fin (x * y) := rfl

@[simp] theorem Val.neg_fin [Neg α] (x : α) : (-(fin x) : Val α) = fin (-x) := rfl

@[simp] theorem Val.fin_div_fin [Div α] [Zero α] [DecidableEq α] (x y : α) :
    (fin x / fin y : Val α) = if y = 0 then nan else fin (x / y) := rfl

@[simp] theorem Val.ofNat_eq (n : Nat) [OfNat α n] : (OfNat.ofNat n : Val α) = fin (OfNat.ofNat n) := rfl

@[simp] theorem Val.ofScientific_eq [OfScientific α] (m : Nat) (s : Bool) (e : Nat) :
    (OfScientific.ofScientific m s e : Val α) = fin (OfScientific.ofScientific m s e) := rfl

@[simp] theorem Val.exp_fin [Transc α] (x : α) : Val.exp (fin x) = fin (Transc.exp x) := rfl

@[simp] theorem Val.log_fin [Transc α] [Zero α] [LT α] [DecidableRel (fun (a b : α) => a < b)]
    (x : α) : Val.log (fin x) = if 0 < x then fin (Transc.log x) else nan := rfl

@[simp] theorem Val.nan_add [Add α] (v : Val α) : nan + v = nan := rfl

@[simp] theorem Val.add_nan [Add α] (v : Val α) : v + nan = nan := by cases v <;> rfl

@[simp] theorem Val.nan_sub [Sub α] (v : Val α) : nan - v = nan := rfl

@[simp] theorem Val.sub_nan [Sub α] (v : Val α) : v - nan = nan := by cases v <;> rfl

@[simp] theorem Val.nan_mul [Mul α] (v : Val α) : nan * v = nan := rfl

@[simp] theorem Val.mul_nan [Mul α] (v : Val α) : v * nan = nan := by cases v <;> rfl

@[simp] theorem Val.neg_nan [Neg α] : (-(nan) : Val α) = nan := rfl

@[simp] theorem Val.nan_div [Div α] [Zero α] [DecidableEq α] (v : Val α) : nan / v = nan := rfl

@[simp] theorem Val.div_nan [Div α] [Zero α] [DecidableEq α] (v : Val α) : v / nan = nan := by
  cases v <;> rfl

@[simp] theorem Val.exp_nan [Transc α] : Val.exp (nan : Val α) = nan := rfl

@[simp] theorem Val.log_nan [Transc α] [Zero α] [LT α] [DecidableRel (fun (a b : α) => a < b)] :
    Val.log (nan : Val α) = nan := rfl

@[simp] theorem Val.toFin_fin [Zero α] (x : α) : (fin x).toFin = x := rfl

@[simp] theorem Transc.exp_real (x : ℝ) : Transc.exp x = Real.exp x := rfl

@[simp] theorem Transc.log_real (x : ℝ) : Transc.log x = Real.log x := rfl

@[simp] theorem Transc.sqrt_real (x : ℝ) : Transc.sqrt x = Real.sqrt x := rfl

end ValLemmas

/-! ## Algebra of computed scalars -/

section ValAlgebra
variable {α : Type} [LinearOrderedField α]

theorem Val.add_assoc' (a b c : Val α) : a + b + c = a + (b + c) := by
  cases a <;> cases b <;> cases c <;> simp [add_assoc]

theorem Val.add_comm' (a b : Val α) : a + b = b + a := by
  cases a <;> cases b <;> simp [add_comm]

theorem Val.sub_fin_zero (a : Val α) : a - fin 0 = a := by
  cases a <;> simp

theorem Val.sub_sub' (a b c : Val α) : a - b - c = a - (b + c) := by
  cases a <;> cases b <;> cases c <;> simp [sub_sub]

theorem Val.sub_add_comm' (a b c : Val α) : a - (b + c) = a - c - b := by
  cases a <;> cases b <;> cases c <;> simp; ring

theorem Val.zero_sub' (a : Val α) : fin 0 - a = -a := by
  cases a <;> simp

theorem Val.neg_add' (a b : Val α) : -(a + b) = -a - b := by
  cases a <;> cases b <;> simp; ring

theorem Val.sub_neg' (a b : Val α) : a - -b = a + b := by
  cases a <;> cases b <;> simp

theorem Val.add_sub_cancel_fin (a : Val α) (x : α) : a - fin x + fin x = a := by
  cases a <;> simp

theorem foldl_sub_eq (ls : List (Val α)) (a : Val α) :
    ls.foldl (fun s l => s - l) a = a - vsum ls := by
  induction ls generalizing a with
  | nil => simp [vsum, Val.sub_fin_zero]
  | cons x xs ih => simp [vsum, ih, Val.sub_sub']

theorem foldl_add_eq (ls : List (Val α)) (a : Val α) :
    ls.foldl (fun s l => s + l) a = a + vsum ls := by
  induction ls generalizing a with
  | nil => cases a <;> simp [vsum]
  | cons x xs ih => simp [vsum, ih, Val.add_assoc']

theorem vsum_append (xs ys : List (Val α)) : vsum (xs ++ ys) = vsum xs + vsum ys := by
  induction xs with
  | nil => cases h : vsum ys <;> simp [vsum, h]
  | cons x xs ih => simp [vsum, ih, Val.add_assoc']

theorem vsum_eraseIdx (xs : List (Val α)) (k : Nat) (hk : k < xs.length) :
    vsum xs = xs[k] + vsum (xs.eraseIdx k) := by
  induction xs generalizing k with
  | nil => simp at hk
  | cons x xs ih =>
    cases k with
    | zero => simp [vsum]
    | succ k =>
      simp only [List.length_cons, Nat.succ_lt_succ_iff] at hk
      simp only [vsum, List.getElem_cons_succ, List.eraseIdx_cons_succ]
      rw [ih k hk, ← Val.add_assoc', ← Val.add_assoc', Val.add_comm' x]

end ValAlgebra

/-! ## Loops -/

section Loops

variable {β σ : Type}

theorem fillLoop_ok_length {f : Int → Except Fault β} :
    ∀ (n : Nat) (lo : Int) (L : List β), fillLoop f n lo = .ok L → L.length = n
  | 0, _, L, h => by simp [fillLoop] at h; subst h; rfl
  | n + 1, lo, L, h => by
    simp only [fillLoop] at h
    split at h
    · split at h
      · cases h
        rename_i xs hxs
        simp [fillLoop_ok_length n (lo + 1) xs hxs]
      · cases h
    · cases h

theorem idx_succ (lo : Int) (k : Nat) : lo + 1 + (k : Int) = lo + ((k + 1 : Nat) : Int) := by
  push_cast; ring

theorem fillLoop_ok_get {f : Int → Except Fault β} :
    ∀ (n : Nat) (lo : Int) (L : List β), fillLoop f n lo = .ok L →
      ∀ k (hk : k < L.length), f (lo + k) = .ok L[k]
  | 0, _, L, h => by simp [fillLoop] at h; subst h; intro k hk; simp at hk
  | n + 1, lo, L, h => by
    simp only [fillLoop] at h
    cases hx : f lo with
    | error e => simp [hx] at h
    | ok x =>
      cases hxs : fillLoop f n (lo + 1) with
      | error e => simp [hx, hxs] at h
      | ok xs =>
        simp [hx, hxs] at h
        subst h
        intro k hk
        cases k with
        | zero => simpa using hx
        | succ k =>
          have := fillLoop_ok_get n (lo + 1) xs hxs k (by simpa using hk)
          simp only [List.getElem_cons_succ]
          rw [← this, idx_succ]

theorem fillLoop_of_get {f : Int → Except Fault β} :
    ∀ (n : Nat) (lo : Int) (L : List β), L.length = n →
      (∀ k (hk : k < L.length), f (lo + k) = .ok L[k]) → fillLoop f n lo = .ok L
  | 0, _, L, hl, _ => by
    have : L = [] := List.length_eq_zero.mp hl
    subst this; rfl
  | n + 1, lo, L, hl, hg => by
    match L, hl, hg with
    | x :: xs, hl, hg =>
      have h0 := hg 0 (by simp)
      simp at h0
      have hrest := fillLoop_of_get n (lo + 1) xs (by simpa using hl) (by
        intro k hk
        have := hg (k + 1) (by simpa using hk)
        simp only [List.getElem_cons_succ] at this
        rw [← this, idx_succ])
      simp [fillLoop, h0, hrest]

theorem fillLoop_congr {f g : Int → Except Fault β} :
    ∀ (n : Nat) (lo : Int), (∀ k, k < n → f (lo + k) = g (lo + k)) →
      fillLoop f n lo = fillLoop g n lo
  | 0, _, _ => rfl
  | n + 1, lo, h => by
    have h0 := h 0 (Nat.succ_pos n)
    simp at h0
    have hrest := fillLoop_congr (f := f) (g := g) n (lo + 1) (fun k hk => by
      have := h (k + 1) (Nat.succ_lt_succ hk)
      rw [idx_succ]; exact this)
    simp [fillLoop, h0, hrest]

theorem forLoop_eq_fillLoop (body : Int → σ → Except Fault σ) (step : Int → Except Fault β)
    (upd : σ → β → σ)
    (hbody : ∀ i s, body i s = match step i with
      | .ok o => .ok (upd s o)
      | .error e => .error e) :
    ∀ (n : Nat) (lo : Int) (s : σ), forLoop body n lo s = match fillLoop step n lo with
      | .ok os => .ok (os.foldl upd s)
      | .error e => .error e
  | 0, _, _ => rfl
  | n + 1, lo, s => by
    simp only [forLoop, fillLoop, hbody]
    cases h : step lo with
    | error e => rfl
    | ok o =>
      simp only []
      rw [forLoop_eq_fillLoop body step upd hbody n (lo + 1) (upd s o)]
      cases fillLoop step n (lo + 1) <;> rfl

theorem fillLoop_eraseIdx {f g : Int → Except Fault β} (x : β) :
    ∀ (k n : Nat) (lo : Int), k < n → f (lo + k) = .ok x →
      (∀ i, i < k → g (lo + i) = f (lo + i)) →
      (∀ i, k ≤ i → i + 1 < n → g (lo + i) = f (lo + i + 1)) →
      fillLoop g (n - 1) lo = match fillLoop f n lo with
        | .ok L => .ok (L.eraseIdx k)
        | .error e => .error e
  | 0, n + 1, lo, _, hx, _, hge => by
    simp at hx
    simp only [fillLoop, hx, Nat.add_sub_cancel]
    have : fillLoop g n lo = fillLoop f n (lo + 1) := by
      have h1 : fillLoop g n lo = fillLoop (fun i => f (i + 1)) n lo :=
        fillLoop_congr n lo (fun i hi => hge i (Nat.zero_le _) (by omega))
      rw [h1]
      clear h1 hge hx
      induction n generalizing lo with
      | zero => rfl
      | succ n ih => simp [fillLoop, ih]
    rw [this]
    cases fillLoop f n (lo + 1) <;> rfl
  | k + 1, n + 1, lo, hk, hx, hlt, hge => by
    have hn : 0 < n := by omega
    obtain ⟨m, rfl⟩ : ∃ m, n = m + 1 := ⟨n - 1, by omega⟩
    have h0 : g lo = f lo := by simpa using hlt 0 (Nat.succ_pos k)
    have ih := fillLoop_eraseIdx (f := f) (g := g) x k (m + 1) (lo + 1) (by omega)
      (by rw [← hx, idx_succ])
      (fun i hi => by
        have := hlt (i + 1) (by omega)
        rw [idx_succ]; exact this)
      (fun i hi hi2 => by
        have := hge (i + 1) (by omega) (by omega)
        rw [idx_succ]; exact this)
    simp only [Nat.add_sub_cancel] at ih ⊢
    rw [fillLoop, h0]
    conv_rhs => rw [fillLoop]
    cases hf : f lo with
    | error e => rfl
    | ok y =>
      simp only []
      rw [ih]
      cases fillLoop f (m + 1) (lo + 1) <;> rfl

end Loops

/-! ## The loops of the evaluator -/

section StageLemmas

variable {α : Type} [LinearOrderedField α] [FloorRing α] [Transc α]

theorem Val.zero_add' (a : Val α) : fin 0 + a = a := by
  cases a <;> simp

theorem rd_ok_iff {β : Type} (v : List β) (i : Int) (x : β) :
    rd v i = .ok x ↔ 0 ≤ i ∧ v[i.toNat]? = some x := by
  unfold rd
  by_cases hi : 0 ≤ i
  · cases hv : v[i.toNat]? <;> simp [hi]
  · simp [hi]

theorem rd_natCast {β : Type} (v : List β) (i : Nat) (x : β) :
    rd v (i : Int) = .ok x ↔ v[i]? = some x := by
  simp [rd_ok_iff]

theorem rdCell_ok_iff {β : Type} (v : List (Option β)) (i : Int) (x : β) :
    rdCell v i = .ok x ↔ 0 ≤ i ∧ v[i.toNat]? = some (some x) := by
  unfold rdCell
  cases h : rd v i with
  | error e =>
    simp only [false_iff, reduceCtorEq]
    intro ⟨h0, hv⟩
    have := (rd_ok_iff v i (some x)).2 ⟨h0, hv⟩
    rw [h] at this; cases this
  | ok o =>
    have h' := (rd_ok_iff v i o).1 h
    cases o with
    | none => simp [h'.2]
    | some y =>
      simp only [Except.ok.injEq, h'.1, h'.2, true_and, Option.some.injEq]

theorem foldl_pair (os : List (Val α × Val α)) (a : Val α) (l : List (Val α)) :
    os.foldl (fun (s : Val α × List (Val α)) o => (s.1 - o.2, s.2 ++ [o.1])) (a, l)
      = (a - vsum (os.map Prod.snd), l ++ os.map Prod.fst) := by
  induction os generalizing a l with
  | nil => simp [vsum, Val.sub_fin_zero]
  | cons o os ih => simp [vsum, ih, Val.sub_sub']

theorem foldl_triple (os : List (Val α × Val α)) (a : Val α) (l1 l2 : List (Val α)) :
    os.foldl (fun (s : Val α × List (Val α) × List (Val α)) o =>
        (s.1 - o.2, s.2.1 ++ [o.1], s.2.2 ++ [log o.1])) (a, l1, l2)
      = (a - vsum (os.map Prod.snd), l1 ++ os.map Prod.fst, l2 ++ os.map (fun o => log o.1)) := by
  induction os generalizing a l1 l2 with
  | nil => simp [vsum, Val.sub_fin_zero]
  | cons o os ih => simp [vsum, ih, Val.sub_sub']

theorem foldl_index (os : List (Option (Val α × Val α))) (a : Val α)
    (l : List (Option (Val α))) :
    os.foldl (fun (s : Val α × List (Option (Val α))) o =>
        (s.1 - indexLik o, s.2 ++ [o.map Prod.fst])) (a, l)
      = (a - vsum (os.map indexLik), l ++ os.map (fun o => o.map Prod.fst)) := by
  induction os generalizing a l with
  | nil => simp [vsum, Val.sub_fin_zero]
  | cons o os ih => simp [vsum, ih, Val.sub_sub']

theorem fishingLoop_eq (delay : Int) (dt logF : List α) (phi1 phi2 sdf : Val α) (ns : Nat)
    (ans : Val α) :
    fishingLoop delay dt logF phi1 phi2 sdf ns ans
      = match fillLoop (fishingStep delay dt logF phi1 phi2 sdf) ((ns : Int) - delay).toNat delay with
        | .ok ls => .ok (ans - vsum ls)
        | .error e => .error e := by
  unfold fishingLoop
  rw [forLoop_eq_fillLoop _ (fishingStep delay dt logF phi1 phi2 sdf)
    (fun s l => s - l)
    (by intro i s; simp only [bind, Except.bind, pure, Except.pure]; cases fishingStep delay dt logF phi1 phi2 sdf i <;> rfl)]
  cases fillLoop (fishingStep delay dt logF phi1 phi2 sdf) ((ns : Int) - delay).toNat delay with
  | error e => rfl
  | ok ls => simp only [foldl_sub_eq]

theorem biomassLoop_eq (dt logB : List α) (B Binf F rvec : List (Val α)) (K sdb sdb2 : Val α)
    (lamperti euler : Int) (ns : Nat) (ans : Val α) :
    biomassLoop dt logB B Binf F rvec K sdb sdb2 lamperti euler ns ans
      = match fillLoop (biomassStep dt logB B Binf F rvec K sdb sdb2 lamperti euler) (ns - 1) 0 with
        | .ok os => .ok (ans - vsum (os.map Prod.snd), os.map Prod.fst)
        | .error e => .error e := by
  unfold biomassLoop
  rw [forLoop_eq_fillLoop _ (biomassStep dt logB B Binf F rvec K sdb sdb2 lamperti euler)
    (fun (s : Val α × List (Val α)) o => (s.1 - o.2, s.2 ++ [o.1]))
    (by intro i s; simp only [bind, Except.bind, pure, Except.pure]
        cases biomassStep dt logB B Binf F rvec K sdb sdb2 lamperti euler i <;> rfl)]
  cases fillLoop (biomassStep dt logB B Binf F rvec K sdb sdb2 lamperti euler) (ns - 1) 0 with
  | error e => rfl
  | ok os => simp only [foldl_pair, List.nil_append]

theorem catchLoop_eq (Cobs ic nc : List α) (Cpredsub : List (Option (Val α))) (sdc ans : Val α) :
    catchLoop Cobs ic nc Cpredsub sdc ans
      = match fillLoop (catchStep Cobs ic nc Cpredsub sdc) Cobs.length 0 with
        | .ok os => .ok (ans - vsum (os.map Prod.snd), os.map Prod.fst, os.map (fun o => log o.1))
        | .error e => .error e := by
  unfold catchLoop
  rw [forLoop_eq_fillLoop _ (catchStep Cobs ic nc Cpredsub sdc)
    (fun (s : Val α × List (Val α) × List (Val α)) o =>
        (s.1 - o.2, s.2.1 ++ [o.1], s.2.2 ++ [log o.1]))
    (by intro i s; simp only [bind, Except.bind, pure, Except.pure]
        cases catchStep Cobs ic nc Cpredsub sdc i <;> rfl)]
  cases fillLoop (catchStep Cobs ic nc Cpredsub sdc) Cobs.length 0 with
  | error e => rfl
  | ok os => simp only [foldl_triple, List.nil_append]

theorem indexLoop_eq (I ii : List α) (B : List (Val α)) (logq sdi ans : Val α) :
    indexLoop I ii B logq sdi ans
      = match fillLoop (indexStep I ii B logq sdi) I.length 0 with
        | .ok os => .ok (ans - vsum (os.map indexLik), os.map (fun o => o.map Prod.fst))
        | .error e => .error e := by
  unfold indexLoop
  rw [forLoop_eq_fillLoop _ (indexStep I ii B logq sdi)
    (fun (s : Val α × List (Option (Val α))) o =>
        (s.1 - indexLik o, s.2 ++ [o.map Prod.fst]))
    (by intro i s; simp only [bind, Except.bind, pure, Except.pure]
        cases indexStep I ii B logq sdi i with
        | error e => rfl
        | ok o =>
          cases o with
          | none => simp [indexLik, Val.sub_fin_zero]
          | some x => rfl)]
  cases fillLoop (indexStep I ii B logq sdi) I.length 0 with
  | error e => rfl
  | ok os => simp only [foldl_index, List.nil_append]

theorem catchSum_eq (ic : List α) (Cpredsub : List (Option (Val α))) (i : Int) (n : α) :
    catchSum ic Cpredsub i n
      = match fillLoop (fun j => do
            let icv ← rd ic i
            rdCell Cpredsub (Integer (icv - 1) + j)) (Int.toNat ⌈n⌉) 0 with
        | .ok ts => .ok (vsum ts)
        | .error e => .error e := by
  unfold catchSum
  rw [forLoop_eq_fillLoop _ (fun j => do
            let icv ← rd ic i
            rdCell Cpredsub (Integer (icv - 1) + j))
    (fun (c : Val α) x => c + x)
    (by intro j c; simp only [bind, Except.bind, pure, Except.pure]
        cases rd ic i with
        | error e => rfl
        | ok icv => simp only []; cases rdCell Cpredsub (Integer (icv - 1) + j) <;> rfl)]
  cases fillLoop (fun j => do
            let icv ← rd ic i
            rdCell Cpredsub (Integer (icv - 1) + j)) (Int.toNat ⌈n⌉) 0 with
  | error e => rfl
  | ok ts =>
    simp only [foldl_add_eq]
    exact congrArg Except.ok (Val.zero_add' _)

theorem Integer_intCast (z : Int) : Integer ((z : α)) = z := by
  unfold Integer
  split <;> simp

end StageLemmas

/-! ## Stage results of an evaluation -/

section Inversion

variable {α : Type} [LinearOrderedField α] [FloorRing α] [Transc α]

theorem objective_inv (d : Data α) (p : Params α) (rep : Report α)
    (h : objective_function d p = .ok rep) :
    ∃ rvec ansF Binf sB Cps P sC sI l1 l2 rvl Bl,
      StagesOk d p rvec ansF Binf sB Cps P sC sI l1 l2 rvl Bl ∧
      ReportOf d p rep rvec Binf sB Cps sC sI := by
  unfold objective_function at h
  simp only [bind, Except.bind, pure, Except.pure, throw, throwThe, MonadExceptOf.throw] at h
  split at h
  · cases h
  rename_i hns
  split at h; · cases h
  rename_i rvec h1
  split at h; · cases h
  rename_i ansF h2
  split at h; · cases h
  rename_i Binf h3
  split at h; · cases h
  rename_i sB h4
  split at h; · cases h
  rename_i Cps h5
  split at h; · cases h
  rename_i P h6
  split at h; · cases h
  rename_i sC h7
  split at h; · cases h
  rename_i sI h8
  split at h; · cases h
  rename_i l1 h9
  split at h; · cases h
  rename_i l2 h10
  split at h; · cases h
  rename_i rvl h11
  split at h; · cases h
  rename_i Bl h12
  cases h
  exact ⟨rvec, ansF, Binf, sB, Cps, P, sC, sI, l1, l2, rvl, Bl,
    ⟨hns, h1, h2, h3, h4, h5, h6, h7, h8, h9, h10, h11, h12⟩,
    ⟨rfl, rfl, rfl, rfl, rfl, rfl, rfl, rfl, rfl, rfl, rfl, rfl, rfl⟩⟩

theorem objective_intro (d : Data α) (p : Params α) {rvec : List (Val α)} {ansF : Val α}
    {Binf : List (Val α)} {sB : Val α × List (Val α)} {Cps P : List (Val α)}
    {sC : Val α × List (Val α) × List (Val α)} {sI : Val α × List (Option (Val α))}
    {l1 l2 : α} {rvl Bl : Val α}
    (h : StagesOk d p rvec ansF Binf sB Cps P sC sI l1 l2 rvl Bl) :
    ∃ rep, objective_function d p = .ok rep ∧ ReportOf d p rep rvec Binf sB Cps sC sI := by
  obtain ⟨hns, h1, h2, h3, h4, h5, h6, h7, h8, h9, h10, h11, h12⟩ := h
  unfold objective_function
  simp only [bind, Except.bind, pure, Except.pure, throw, throwThe, MonadExceptOf.throw,
    hns, if_false, h1, h2, h3, h4, h5, h6, h7, h8, h9, h10, h11, h12]
  exact ⟨_, rfl, ⟨rfl, rfl, rfl, rfl, rfl, rfl, rfl, rfl, rfl, rfl, rfl, rfl, rfl⟩⟩

end Inversion

/-! ## The example input -/

section Example

variable {α : Type} [LinearOrderedField α] [FloorRing α] [Transc α]

theorem ex_rvec (g r : Val α) :
    rvecLoop ([0, 1, 0] : List α) g r 3 = .ok [r, g * r, r] := by
  simp [rvecLoop, fillLoop, rd, bind, Except.bind, pure, Except.pure]

theorem ex_fishing (tl : List α) (a b c ans : Val α) :
    ∃ x, fishingLoop 1 (1 :: 1 :: tl) [-1, -1, -1] a b c 3 ans = .ok x := by
  simp [fishingLoop, forLoop, fishingStep, rd, bind, Except.bind, pure, Except.pure]

theorem ex_binf (F0 F1 F2 r0 r1 r2 K s : Val α) (l : Int) :
    binfLoop [F0, F1, F2] [r0, r1, r2] K s l 3
      = .ok [calculateBinf K F0 r0 s l, calculateBinf K F1 r1 s l, calculateBinf K F2 r2 s l] := by
  simp [binfLoop, fillLoop, rd, bind, Except.bind, pure, Except.pure]

theorem ex_biomass (tl : List α) (B0 B1 B2 b0 b1 b2 F0 F1 F2 r0 r1 r2 K sdb sdb2 ans : Val α)
    (l e : Int) :
    ∃ x, biomassLoop (1 :: 1 :: tl) [0, 0, 0] [B0, B1, B2] [b0, b1, b2] [F0, F1, F2]
      [r0, r1, r2] K sdb sdb2 l e 3 ans = .ok x := by
  simp [biomassLoop, forLoop, biomassStep, rd, bind, Except.bind, pure, Except.pure]

theorem ex_catchPred (tl : List α) (B0 B1 B2 b0 b1 b2 F0 F1 F2 r0 r1 r2 K sdb2 : Val α)
    (l e : Int) :
    ∃ c0 c1, catchPredLoop (1 :: 1 :: tl) [B0, B1, B2] [b0, b1, b2] [F0, F1, F2]
      [r0, r1, r2] K sdb2 l e 3 = .ok [c0, c1] := by
  simp [catchPredLoop, fillLoop, rd, bind, Except.bind, pure, Except.pure]

theorem ex_production (B0 B1 B2 c0 c1 : Val α) :
    ∃ P, productionLoop [B0, B1, B2] [some c0, some c1, none] 3 = .ok P := by
  simp [productionLoop, fillLoop, rd, rdCell, bind, Except.bind, pure, Except.pure]

theorem ex_catch (c0 c1 sdc ans : Val α) :
    ∃ x, catchLoop ([10] : List α) [1] [2] [some c0, some c1, none] sdc ans = .ok x := by
  simp [catchLoop, forLoop, catchStep, catchSum, Integer, rd, rdCell, bind, Except.bind, pure,
    Except.pure]

theorem ex_index (B0 B1 B2 q sdi ans : Val α) :
    ∃ x, indexLoop ([5, 0, 4] : List α) [1, 2, 3] [B0, B1, B2] q sdi ans = .ok x := by
  have h2 : Integer ((2 : α) - 1) = 1 := by
    have : (2 : α) - 1 = ((1 : Int) : α) := by norm_num
    rw [this, Integer_intCast]
  have h3 : Integer ((3 : α) - 1) = 2 := by
    have : (3 : α) - 1 = ((2 : Int) : α) := by norm_num
    rw [this, Integer_intCast]
  have h1 : Integer ((1 : α) - 1) = 0 := by
    have : (1 : α) - 1 = ((0 : Int) : α) := by norm_num
    rw [this, Integer_intCast]
  have h0 : Integer (0 : α) = 0 := by simpa using h1
  simp [indexLoop, forLoop, indexStep, h0, h1, h2, h3, rd, bind, Except.bind, pure,
    Except.pure]

theorem example_ok_dt (α : Type) [LinearOrderedField α] [FloorRing α] [Transc α]
    (tl : List α) :
    ∃ rep, objective_function { exampleData α with dt := 1 :: 1 :: tl } (exampleParams α)
      = .ok rep := by
  obtain ⟨ansF, h2⟩ := ex_fishing tl (fin (1 : α)) (fin 0) (exp (fin (-1 : α))) 0
  have h1 := ex_rvec (exp (fin (0 : α))) (exp (fin (0 : α)))
  have h3 := ex_binf (exp (fin (-1 : α))) (exp (fin (-1 : α))) (exp (fin (-1 : α))) (exp (fin (0 : α))) ((exp (fin (0 : α))) * (exp (fin (0 : α)))) (exp (fin (0 : α))) (exp (fin (1 : α))) ((exp (fin (-1 : α))) * (exp (fin (-1 : α)))) 1
  obtain ⟨sB, h4⟩ := ex_biomass tl (exp (fin (0 : α))) (exp (fin (0 : α))) (exp (fin (0 : α)))
    (calculateBinf (exp (fin (1 : α))) (exp (fin (-1 : α))) (exp (fin (0 : α))) ((exp (fin (-1 : α))) * (exp (fin (-1 : α)))) 1) (calculateBinf (exp (fin (1 : α))) (exp (fin (-1 : α))) ((exp (fin (0 : α))) * (exp (fin (0 : α)))) ((exp (fin (-1 : α))) * (exp (fin (-1 : α)))) 1) (calculateBinf (exp (fin (1 : α))) (exp (fin (-1 : α))) (exp (fin (0 : α))) ((exp (fin (-1 : α))) * (exp (fin (-1 : α)))) 1)
    (exp (fin (-1 : α))) (exp (fin (-1 : α))) (exp (fin (-1 : α))) (exp (fin (0 : α))) ((exp (fin (0 : α))) * (exp (fin (0 : α)))) (exp (fin (0 : α))) (exp (fin (1 : α))) (exp (fin (-1 : α))) ((exp (fin (-1 : α))) * (exp (fin (-1 : α)))) ansF 1 0
  obtain ⟨c0, c1, h5⟩ := ex_catchPred tl (exp (fin (0 : α))) (exp (fin (0 : α))) (exp (fin (0 : α)))
    (calculateBinf (exp (fin (1 : α))) (exp (fin (-1 : α))) (exp (fin (0 : α))) ((exp (fin (-1 : α))) * (exp (fin (-1 : α)))) 1) (calculateBinf (exp (fin (1 : α))) (exp (fin (-1 : α))) ((exp (fin (0 : α))) * (exp (fin (0 : α)))) ((exp (fin (-1 : α))) * (exp (fin (-1 : α)))) 1) (calculateBinf (exp (fin (1 : α))) (exp (fin (-1 : α))) (exp (fin (0 : α))) ((exp (fin (-1 : α))) * (exp (fin (-1 : α)))) 1)
    (exp (fin (-1 : α))) (exp (fin (-1 : α))) (exp (fin (-1 : α))) (exp (fin (0 : α))) ((exp (fin (0 : α))) * (exp (fin (0 : α)))) (exp (fin (0 : α))) (exp (fin (1 : α))) ((exp (fin (-1 : α))) * (exp (fin (-1 : α)))) 1 0
  obtain ⟨P, h6⟩ := ex_production (exp (fin (0 : α))) (exp (fin (0 : α))) (exp (fin (0 : α))) c0 c1
  obtain ⟨sC, h7⟩ := ex_catch c0 c1 (fin (1 : α) * (exp (fin (-1 : α)))) sB.1
  obtain ⟨sI, h8⟩ := ex_index (exp (fin (0 : α))) (exp (fin (0 : α))) (exp (fin (0 : α))) (fin 0)
    (fin (1 : α) * (exp (fin (-1 : α)))) sC.1
  have h9 : rd ([-1, -1, -1] : List α) ((3 : Nat) - 1 : Int) = .ok (-1) := by simp [rd]
  have h10 : rd ([-1, -1, -1] : List α) ((3 : Nat) - 1 : Int) = .ok (-1) := by simp [rd]
  have h11 : rd [(exp (fin (0 : α))), ((exp (fin (0 : α))) * (exp (fin (0 : α)))), (exp (fin (0 : α)))] ((3 : Nat) - 1 : Int) = .ok (exp (fin (0 : α))) := by simp [rd]
  have h12 : rd [(exp (fin (0 : α))), (exp (fin (0 : α))), (exp (fin (0 : α)))] ((3 : Nat) - 1 : Int) = .ok (exp (fin (0 : α))) := by simp [rd]
  have hns : ([-1, -1, -1] : List α).length ≠ 0 := by simp
  obtain ⟨rep, h, _⟩ := objective_intro { exampleData α with dt := 1 :: 1 :: tl }
    (exampleParams α) ⟨hns, h1, h2, h3, h4, h5, h6, h7, h8, h9, h10, h11, h12⟩
  exact ⟨rep, h⟩

theorem example_ok (α : Type) [LinearOrderedField α] [FloorRing α] [Transc α] :
    ∃ rep, objective_function (exampleData α) (exampleParams α) = .ok rep :=
  example_ok_dt α []

end Example

/-! ## The closed-form helpers -/

section HelperTheorems

variable {α : Type} [LinearOrderedField α]

/-- C1 (as amended): with `euler = 0` and `B0 = Binf`, `Binf ≠ 0`, the analytical
`predictB` returns exactly `Binf`, for every finite `F`, `r`, `K`, `dt`, `sdb2` and
either value of the `lamperti` flag. -/
theorem predictB_analytic_fixed_point [Transc α] (Binf F r K dt sdb2 : α) (lamperti : Int)
    (hB : Binf ≠ 0) :
    predictB (fin Binf) (fin Binf) (fin F) (fin r) (fin K) (fin dt) (fin sdb2) lamperti 0
      = fin Binf := by
  have h1 : (1 : α) / Binf ≠ 0 := one_div_ne_zero hB
  by_cases hl : lamperti = 0 <;> simp [predictB, hl, hB]

/-- C3: `calculateBinf` returns `K*(1 - F/r - 0.5*sdb2/r)` when `lamperti` is non-zero and
`K*(1 - F/r)` when it is zero, for every `K`, `F`, `sdb2` and `r ≠ 0`; the lamperti
result is the uncorrected one minus `K*sdb2/(2*r)`, and the two coincide at `sdb2 = 0`. -/
theorem calculateBinf_formula (K F r sdb2 : α) (lamperti : Int) (hr : r ≠ 0) :
    calculateBinf (fin K) (fin F) (fin r) (fin sdb2) lamperti
        = (if lamperti ≠ 0 then fin (K * (1 - F / r - 0.5 * sdb2 / r)) else fin (K * (1 - F / r)))
      ∧ (∀ l1 : Int, l1 ≠ 0 →
          calculateBinf (fin K) (fin F) (fin r) (fin sdb2) l1
            = calculateBinf (fin K) (fin F) (fin r) (fin sdb2) 0 - fin (K * sdb2 / (2 * r)))
      ∧ (sdb2 = 0 → ∀ l1 : Int,
          calculateBinf (fin K) (fin F) (fin r) (fin sdb2) l1
            = calculateBinf (fin K) (fin F) (fin r) (fin sdb2) 0) := by
  refine ⟨?_, ?_, ?_⟩
  · by_cases hl : lamperti = 0 <;> simp [calculateBinf, hl, hr]
  · intro l1 hl
    simp [calculateBinf, hl, hr]
    field_simp
    ring
  · intro hs l1
    subst hs
    by_cases hl : l1 = 0 <;> simp [calculateBinf, hl, hr]

end HelperTheorems

section RealTheorems

/-- C1, the spec's instance: `K=1000, F=0.1, r=0.2, sdb2=0, lamperti=0` gives
`calculateBinf = 500`, and `predictB(500, 500, ...)` with `dt = 1` returns `500`. -/
theorem predictB_analytic_fixed_point_witness :
    (500 : ℝ) ≠ 0 ∧
    calculateBinf (fin (1000 : ℝ)) (fin 0.1) (fin 0.2) (fin 0) 0 = fin 500 ∧
    predictB (fin (500 : ℝ)) (fin 500) (fin 0.1) (fin 0.2) (fin 1000) (fin 1) (fin 0) 0 0
      = fin 500 :=
  ⟨by norm_num, by simp [calculateBinf]; norm_num,
   predictB_analytic_fixed_point (500 : ℝ) 0.1 0.2 1000 1 0 0 (by norm_num)⟩

/-- C1 as stated fails at `Binf = 0`: with `F = r` the equilibrium is `0`, and
`predictB(0, 0, ...)` divides by zero, so the result is non-finite, not `0`. -/
theorem predictB_analytic_fixed_point_fails_at_zero :
    calculateBinf (fin (1000 : ℝ)) (fin 0.2) (fin 0.2) (fin 0) 0 = fin 0 ∧
    predictB (fin (0 : ℝ)) (fin 0) (fin 0.2) (fin 0.2) (fin 1000) (fin 1) (fin 0) 0 0
      ≠ fin 0 := by
  constructor
  · have h : ¬ ((0.2 : ℝ) = 0) := by norm_num
    simp [calculateBinf, h]
  · simp [predictB]

/-- C3, the spec's instance: `K=1000, F=0.1, r=0.2, sdb2=0.01, lamperti=1` gives `475`. -/
theorem calculateBinf_formula_witness :
    (0.2 : ℝ) ≠ 0 ∧
    calculateBinf (fin (1000 : ℝ)) (fin 0.1) (fin 0.2) (fin 0.01) 1 = fin 475 := by
  refine ⟨by norm_num, ?_⟩
  have h := (calculateBinf_formula (1000 : ℝ) 0.1 0.2 0.01 1 (by norm_num)).1
  rw [h]
  norm_num

/-- C2 (as amended): for `K > 0`, `r > 0`, `sdb2 ≥ 0`, if the `lamperti` flag is set or
`sdb2 = 0` or `dt = 0`, and `Binf = calculateBinf(K, F, r, sdb2, lamperti)` is positive, then
`predictB(Binf, Binf, F, r, K, dt, sdb2, lamperti, euler = 1)` returns `Binf`. -/
theorem predictB_euler_fixed_point (K F r sdb2 dt B0 : ℝ) (lamperti : Int)
    (hK : 0 < K) (hr : 0 < r) (hs : 0 ≤ sdb2)
    (hBinf : calculateBinf (fin K) (fin F) (fin r) (fin sdb2) lamperti = fin B0)
    (hpos : 0 < B0) (hflag : lamperti ≠ 0 ∨ sdb2 = 0 ∨ dt = 0) :
    predictB (fin B0) (fin B0) (fin F) (fin r) (fin K) (fin dt) (fin sdb2) lamperti 1
      = fin B0 := by
  have hr0 : r ≠ 0 := ne_of_gt hr
  have hK0 : K ≠ 0 := ne_of_gt hK
  rcases hflag with hl | hs0 | hdt
  · have hB : B0 = K * (1 - F / r - 0.5 * sdb2 / r) := by
      simpa [calculateBinf, hl, hr0, eq_comm] using hBinf
    have hz : r - F - 0.5 * sdb2 - r / K * B0 = 0 := by
      rw [hB]; field_simp; ring
    simp [predictB, hpos, hK0, hz, Real.exp_log hpos]
  · subst hs0
    have hB : B0 = K * (1 - F / r - 0.5 * 0 / r) := by
      by_cases hl : lamperti = 0 <;> simpa [calculateBinf, hl, hr0, eq_comm] using hBinf
    have hz : r - F - r / K * B0 = 0 := by
      rw [hB]; field_simp; ring
    simp [predictB, hpos, hK0, hz, Real.exp_log hpos]
  · subst hdt
    simp [predictB, hpos, hK0, Real.exp_log hpos]

/-- C2, the spec's instance: `K=1000, F=0.1, r=0.2, sdb2=0, lamperti=0, dt=1` gives `500`. -/
theorem predictB_euler_fixed_point_witness :
    (0 : ℝ) < 1000 ∧ (0 : ℝ) < 0.2 ∧ (0 : ℝ) < 500 ∧
    calculateBinf (fin (1000 : ℝ)) (fin 0.1) (fin 0.2) (fin 0) 0 = fin 500 ∧
    predictB (fin (500 : ℝ)) (fin 500) (fin 0.1) (fin 0.2) (fin 1000) (fin 1) (fin 0) 0 1
      = fin 500 :=
  ⟨by norm_num, by norm_num, by norm_num, by simp [calculateBinf]; norm_num,
   predictB_euler_fixed_point 1000 0.1 0.2 0 1 500 0 (by norm_num) (by norm_num) (by norm_num)
    (by simp [calculateBinf]; norm_num) (by norm_num) (Or.inr (Or.inl rfl))⟩

/-- C2 as stated fails with `lamperti = 0` and `sdb2 > 0`: `K=1000, F=0.1, r=0.2,
sdb2=0.01, dt=1` gives `calculateBinf = 500 > 0`, but the Euler step from `500` uses the
drift `r - F - 0.5*sdb2` and returns `500*exp(-0.005)`, not `500`. -/
theorem predictB_euler_not_fixed_point :
    (0 : ℝ) < 1000 ∧ (0 : ℝ) < 0.2 ∧ (0 : ℝ) ≤ 0.01 ∧ (0 : ℝ) < 500 ∧
    calculateBinf (fin (1000 : ℝ)) (fin 0.1) (fin 0.2) (fin 0.01) 0 = fin 500 ∧
    predictB (fin (500 : ℝ)) (fin 500) (fin 0.1) (fin 0.2) (fin 1000) (fin 1) (fin 0.01) 0 1
      ≠ fin 500 := by
  refine ⟨by norm_num, by norm_num, by norm_num, by norm_num, ?_, ?_⟩
  · simp [calculateBinf]; norm_num
  · simp [predictB]
    intro h
    rw [Real.exp_add, Real.exp_log (by norm_num)] at h
    have h2 : Real.exp (0.2 - 0.1 - 0.5 * 0.01 - 0.2 / 1000 * 500) = 1 := by
      have : (500:ℝ) ≠ 0 := by norm_num
      field_simp at h
      linarith
    rw [Real.exp_eq_one_iff] at h2
    norm_num at h2
/-- The analytical branch of `predictB` on finite arguments with a non-zero denominator. -/
theorem predictB_analytic_real (B0 Binf F r K t sdb2 : ℝ) (lamperti : Int)
    (hB0 : B0 ≠ 0) (hBinf : Binf ≠ 0)
    (hden : 1 / Binf + (1 / B0 - 1 / Binf)
      * Real.exp (-(if lamperti ≠ 0 then r - F - 0.5 * sdb2 else r - F) * t) ≠ 0) :
    predictB (fin B0) (fin Binf) (fin F) (fin r) (fin K) (fin t) (fin sdb2) lamperti 0
      = fin (1 / (1 / Binf + (1 / B0 - 1 / Binf)
          * Real.exp (-(if lamperti ≠ 0 then r - F - 0.5 * sdb2 else r - F) * t))) := by
  by_cases hl : lamperti = 0
  · simp only [hl, ne_eq, not_true_eq_false, if_false] at hden
    simp [predictB, hl, hB0, hBinf]
    intro h; exact absurd h (by simpa using hden)
  · simp only [hl, ne_eq, not_false_eq_true, if_true] at hden
    simp [predictB, hl, hB0, hBinf]
    intro h; exact absurd h (by simpa using hden)

/-- C10: for `K ≠ 0`, `r ≠ 0`, `B0 > 0` and `Binf = calculateBinf(K, F, r, sdb2, lamperti) ≠ 0`,
the analytical `b(t) = predictB(B0, Binf, F, r, K, t, sdb2, lamperti, 0)` has `b(0) = B0`
and, wherever its denominator is non-zero, is finite with `b'(t) = (rate - (r/K)*b(t))*b(t)`,
`rate` being the drift `predictB` derives from the `lamperti` flag. -/
theorem predictB_analytic_solves_logistic (K F r sdb2 B0 Binf : ℝ) (lamperti : Int)
    (hK : K ≠ 0) (hr : r ≠ 0) (hB0 : 0 < B0)
    (hBinf : calculateBinf (fin K) (fin F) (fin r) (fin sdb2) lamperti = fin Binf)
    (hne : Binf ≠ 0) :
    predictB (fin B0) (fin Binf) (fin F) (fin r) (fin K) (fin 0) (fin sdb2) lamperti 0 = fin B0
    ∧ ∀ t : ℝ,
        1 / Binf + (1 / B0 - 1 / Binf)
          * Real.exp (-(if lamperti ≠ 0 then r - F - 0.5 * sdb2 else r - F) * t) ≠ 0 →
        ∃ bt : ℝ,
          predictB (fin B0) (fin Binf) (fin F) (fin r) (fin K) (fin t) (fin sdb2) lamperti 0
            = fin bt
          ∧ HasDerivAt
              (fun s : ℝ => (predictB (fin B0) (fin Binf) (fin F) (fin r) (fin K) (fin s)
                (fin sdb2) lamperti 0).toFin)
              (((if lamperti ≠ 0 then r - F - 0.5 * sdb2 else r - F) - r / K * bt) * bt) t := by
  have hB0' : B0 ≠ 0 := ne_of_gt hB0
  set rate : ℝ := if lamperti ≠ 0 then r - F - 0.5 * sdb2 else r - F with hrate
  have hBeq : Binf = K * rate / r := by
    by_cases hl : lamperti = 0
    · simp [calculateBinf, hl, hr] at hBinf
      rw [← hBinf, hrate]; simp [hl]; field_simp
    · simp [calculateBinf, hl, hr] at hBinf
      rw [← hBinf, hrate]; simp [hl]; field_simp
  have hfun : (fun s : ℝ => (predictB (fin B0) (fin Binf) (fin F) (fin r) (fin K) (fin s)
                (fin sdb2) lamperti 0).toFin)
      = fun s : ℝ => (1 / Binf + (1 / B0 - 1 / Binf) * Real.exp (-rate * s))⁻¹ := by
    funext s
    by_cases hd : 1 / Binf + (1 / B0 - 1 / Binf) * Real.exp (-rate * s) = 0
    · have : predictB (fin B0) (fin Binf) (fin F) (fin r) (fin K) (fin s)
                (fin sdb2) lamperti 0 = nan := by
        by_cases hl : lamperti = 0
        · simp only [hrate, hl, ne_eq, not_true_eq_false, if_false] at hd
          simp [predictB, hl, hB0', hne]
          simpa using hd
        · simp only [hrate, hl, ne_eq, not_false_eq_true, if_true] at hd
          simp [predictB, hl, hB0', hne]
          simpa using hd
      rw [this, hd]; simp [Val.toFin]
    · rw [predictB_analytic_real B0 Binf F r K s sdb2 lamperti hB0' hne hd]
      simp [hrate]
  refine ⟨?_, ?_⟩
  · have h0 : 1 / Binf + (1 / B0 - 1 / Binf)
        * Real.exp (-(if lamperti ≠ 0 then r - F - 0.5 * sdb2 else r - F) * 0) ≠ 0 := by
      simp [hB0']
    rw [predictB_analytic_real B0 Binf F r K 0 sdb2 lamperti hB0' hne h0]
    simp
  · intro t hden
    refine ⟨_, predictB_analytic_real B0 Binf F r K t sdb2 lamperti hB0' hne hden, ?_⟩
    rw [hfun]
    have hrB : rate ≠ 0 := by
      intro h0; rw [h0] at hBeq; simp at hBeq; exact hne hBeq
    have hrK : r / K = rate / Binf := by
      rw [hBeq]; field_simp; ring
    have hd1 : HasDerivAt (fun s : ℝ => 1 / Binf + (1 / B0 - 1 / Binf) * Real.exp (-rate * s))
        ((1 / B0 - 1 / Binf) * (Real.exp (-rate * t) * (-rate))) t := by
      have h1 : HasDerivAt (fun s : ℝ => -rate * s) (-rate) t := by
        simpa using (hasDerivAt_id t).const_mul (-rate)
      have h2 := h1.exp
      have h3 := h2.const_mul (1 / B0 - 1 / Binf)
      exact h3.const_add (1 / Binf)
    have hd2 := hd1.inv hden
    convert hd2 using 1
    rw [hrK]
    set E := Real.exp (-rate * t) with hE
    set D := 1 / Binf + (1 / B0 - 1 / Binf) * E with hD
    have hD0 : D ≠ 0 := hden
    field_simp
    rw [hD]
    field_simp
    ring
/-- C10 at `K=1000, F=0.1, r=0.2, sdb2=0, lamperti=0, B0=100`, where `Binf = 500`. -/
theorem predictB_analytic_solves_logistic_witness :
    (0 : ℝ) < 100 ∧
    calculateBinf (fin (1000 : ℝ)) (fin 0.1) (fin 0.2) (fin 0) 0 = fin 500 ∧
    predictB (fin (100 : ℝ)) (fin 500) (fin 0.1) (fin 0.2) (fin 1000) (fin 0) (fin 0) 0 0
      = fin 100 :=
  ⟨by norm_num, by simp [calculateBinf]; norm_num,
   (predictB_analytic_solves_logistic 1000 0.1 0.2 0 100 500 0 (by norm_num) (by norm_num)
    (by norm_num) (by simp [calculateBinf]; norm_num) (by norm_num)).1⟩

end RealTheorems

/-! ## The evaluator -/

section EvaluatorTheorems

variable {α : Type} [LinearOrderedField α] [FloorRing α] [Transc α]

/-- C7: in every evaluation that returns, `Bmsy = K/2` and `MSY = Bmsy*Fmsy`; with
`lamperti = 0`, `Fmsy = r/2` and `MSY = K*r/4`, whatever `sdb`, the `euler` flag and
`gamma` are; with `lamperti ≠ 0`, `Fmsy = r/2 - 0.5*sdb2`.  Here `K = exp(logK)`,
`r = exp(logr)` and `sdb2 = exp(logsdb)²`. -/
theorem reference_point_values (d : Data α) (p : Params α) (rep : Report α)
    (h : objective_function d p = .ok rep) :
    rep.K = fin (Transc.exp p.logK) ∧ rep.r = fin (Transc.exp p.logr) ∧
    rep.Bmsy = rep.K / 2 ∧ rep.Bmsy = fin (Transc.exp p.logK / 2) ∧
    rep.MSY = rep.Bmsy * rep.Fmsy ∧
    (d.lamperti = 0 →
      rep.Fmsy = rep.r / 2 ∧ rep.Fmsy = fin (Transc.exp p.logr / 2) ∧
      rep.MSY = fin (Transc.exp p.logK * Transc.exp p.logr / 4)) ∧
    (d.lamperti ≠ 0 →
      rep.Fmsy = fin (Transc.exp p.logr / 2
        - 0.5 * (Transc.exp p.logsdb * Transc.exp p.logsdb))) := by
  obtain ⟨rvec, ansF, Binf, sB, Cps, P, sC, sI, l1, l2, rvl, Bl, -, hrep⟩ := objective_inv d p rep h
  obtain ⟨-, hr, hK, -, -, -, -, -, -, -, hBmsy, hFmsy, hMSY⟩ := hrep
  have h2 : (2 : α) ≠ 0 := two_ne_zero
  refine ⟨by simp [hK], by simp [hr], ?_, ?_, ?_, ?_, ?_⟩
  · rw [hBmsy, hK]; rfl
  · simp [hBmsy, referencePoints, h2]
  · rw [hMSY, hBmsy, hFmsy]; rfl
  · intro hl
    refine ⟨?_, ?_, ?_⟩
    · simp [hFmsy, hr, referencePoints, hl]
    · simp [hFmsy, referencePoints, hl, h2]
    · simp [hMSY, referencePoints, hl, h2]
      ring
  · intro hl
    simp [hFmsy, referencePoints, hl, h2]

/-- C7 on the example input, where the `lamperti` flag is set. -/
theorem reference_point_values_witness :
    ∃ rep, objective_function (exampleData ℝ) (exampleParams ℝ) = .ok rep ∧
      rep.Bmsy = fin (Real.exp 1 / 2) ∧ rep.MSY = rep.Bmsy * rep.Fmsy := by
  obtain ⟨rep, h⟩ := example_ok ℝ
  have := reference_point_values (exampleData ℝ) (exampleParams ℝ) rep h
  exact ⟨rep, h, by simpa [exampleParams] using this.2.2.2.1, this.2.2.2.2.1⟩

/-- C4: in an evaluation that returns, for a catch observation `i` with `ic[i] = c`, an
integer `≥ 1`, and `nc[i] = n`, a natural number, `Cpred[i]` is the sum of the `n` assigned
elements `Cpredsub[c-1], ..., Cpredsub[c-1+n-1]` and of nothing else, and
`logCpred[i] = log(Cpred[i])`.  (That the span lies inside `[0, ns-1)` follows from the
evaluation returning.) -/
theorem catch_aggregation_span (d : Data α) (p : Params α) (rep : Report α)
    (h : objective_function d p = .ok rep) (i : Nat) (hi : i < d.Cobs.length)
    (c : Int) (n : Nat) (hc : 1 ≤ c)
    (hic : d.ic[i]? = some (c : α)) (hnc : d.nc[i]? = some (n : α)) :
    ∃ terms : List (Val α), terms.length = n ∧
      (∀ j (hj : j < terms.length),
        rep.Cpredsub[(c - 1).toNat + j]? = some (some terms[j])) ∧
      rep.Cpred[i]? = some (vsum terms) ∧
      rep.logCpred[i]? = some (log (vsum terms)) := by
  obtain ⟨rvec, ansF, Binf, sB, Cps, P, sC, sI, l1, l2, rvl, Bl, hst, hrep⟩ := objective_inv d p rep h
  obtain ⟨-, -, -, -, -, -, -, h7, -⟩ := hst
  obtain ⟨-, -, -, -, -, -, hCps, hCpred, hlogCpred, -⟩ := hrep
  rw [catchLoop_eq] at h7
  cases hfill : fillLoop (catchStep d.Cobs d.ic d.nc (Cps.map some ++ [none])
      (fin p.beta * exp (fin p.logsdf))) d.Cobs.length 0 with
  | error e => rw [hfill] at h7; cases h7
  | ok os =>
    rw [hfill] at h7
    simp only [Except.ok.injEq] at h7
    have hlen := fillLoop_ok_length _ _ _ hfill
    have hi' : i < os.length := by omega
    have hstep := fillLoop_ok_get _ _ _ hfill i hi'
    simp only [zero_add] at hstep
    unfold catchStep at hstep
    have hn : rd d.nc (i : Int) = .ok (n : α) := (rd_natCast _ _ _).2 hnc
    simp only [bind, Except.bind, hn, pure, Except.pure] at hstep
    rw [catchSum_eq] at hstep
    have hicr : rd d.ic (i : Int) = .ok (c : α) := (rd_natCast _ _ _).2 hic
    simp only [hicr, bind, Except.bind, Int.ceil_natCast, Int.toNat_ofNat] at hstep
    cases hin : fillLoop (fun j => rdCell (Cps.map some ++ [none]) (Integer ((c : α) - 1) + j)) n 0 with
    | error e => rw [hin] at hstep; cases hstep
    | ok ts =>
      rw [hin] at hstep
      simp only [] at hstep
      split at hstep
      · cases hstep
      rename_i co hco
      simp only [Except.ok.injEq] at hstep
      have hts := fillLoop_ok_length _ _ _ hin
      refine ⟨ts, hts, ?_, ?_, ?_⟩
      · intro j hj
        have hj' := fillLoop_ok_get _ _ _ hin j hj
        simp only [zero_add] at hj'
        have hI : Integer ((c : α) - 1) = c - 1 := by
          have : ((c : α) - 1) = ((c - 1 : Int) : α) := by push_cast; ring
          rw [this, Integer_intCast]
        rw [hI, rdCell_ok_iff] at hj'
        have e : (c - 1 + (j : Int)).toNat = (c - 1).toNat + j := by omega
        rw [hCps, ← e]
        exact hj'.2
      · rw [hCpred, ← h7]
        simp only [List.getElem?_map, List.getElem?_eq_getElem hi', Option.map_some', ← hstep]
      · rw [hlogCpred, ← h7]
        simp only [List.getElem?_map, List.getElem?_eq_getElem hi', Option.map_some', ← hstep]

/-- C4, the spec's instance: on the example input `ic[0] = 1`, `nc[0] = 2`, and
`Cpred[0] = Cpredsub[0] + Cpredsub[1]`. -/
theorem catch_aggregation_span_witness :
    ∃ rep x0 x1, objective_function (exampleData ℝ) (exampleParams ℝ) = .ok rep ∧
      rep.Cpredsub[0]? = some (some x0) ∧ rep.Cpredsub[1]? = some (some x1) ∧
      rep.Cpred[0]? = some (x0 + x1) ∧ rep.logCpred[0]? = some (log (x0 + x1)) := by
  obtain ⟨rep, h⟩ := example_ok ℝ
  obtain ⟨ts, hlen, hget, hC, hL⟩ := catch_aggregation_span (exampleData ℝ) (exampleParams ℝ)
    rep h 0 (by simp [exampleData]) 1 2 (by norm_num) (by simp [exampleData])
    (by simp [exampleData])
  match ts, hlen, hget, hC, hL with
  | [x0, x1], _, hget, hC, hL =>
    refine ⟨rep, x0, x1, h, ?_, ?_, ?_, ?_⟩
    · simpa using hget 0 (by simp)
    · simpa using hget 1 (by simp)
    · have e : vsum [x0, x1] = x0 + x1 := by cases x1 <;> cases x0 <;> simp [vsum]
      rw [← e]; exact hC
    · have e : vsum [x0, x1] = x0 + x1 := by cases x1 <;> cases x0 <;> simp [vsum]
      rw [← e]; exact hL

end EvaluatorTheorems

section Deletion

variable {α : Type} [LinearOrderedField α] [FloorRing α] [Transc α]

theorem rd_eraseIdx_lt {β : Type} (v : List β) (k i : Nat) (h : i < k) :
    rd (v.eraseIdx k) (i : Int) = rd v (i : Int) := by
  simp [rd, List.getElem?_eraseIdx_of_lt _ _ _ h]

theorem rd_eraseIdx_ge {β : Type} (v : List β) (k i : Nat) (h : k ≤ i) :
    rd (v.eraseIdx k) (i : Int) = rd v ((i : Int) + 1) := by
  have e : ((i : Int) + 1).toNat = i + 1 := by omega
  have h0 : (0 : Int) ≤ (i : Int) + 1 := by omega
  simp [rd, List.getElem?_eraseIdx_of_ge _ _ _ h, e, h0]

theorem rd_set_ne {β : Type} (v : List β) (k i : Nat) (x : β) (h : i ≠ k) :
    rd (v.set k x) (i : Int) = rd v (i : Int) := by
  simp [rd, List.getElem?_set_ne (Ne.symm h)]

theorem eraseIdx_map' {β γ : Type} (f : β → γ) (l : List β) (k : Nat) :
    (l.map f).eraseIdx k = (l.eraseIdx k).map f := by
  induction l generalizing k with
  | nil => rfl
  | cons x xs ih =>
    cases k with
    | zero => rfl
    | succ k => simp [ih]

theorem indexStep_skip (I ii : List α) (B : List (Val α)) (logq sdi : Val α) (k : Nat)
    (hk : k < I.length) (hI : I[k] ≤ 0) :
    indexStep I ii B logq sdi (k : Int) = .ok none := by
  have h1 : rd I (k : Int) = .ok I[k] := (rd_natCast _ _ _).2 (List.getElem?_eq_getElem hk)
  simp [indexStep, h1, bind, Except.bind, pure, Except.pure, not_lt.mpr hI]

theorem indexLoop_erase_skip (I ii : List α) (B : List (Val α)) (logq sdi ans : Val α) (k : Nat)
    (hk : k < I.length) (hI : I[k] ≤ 0) :
    indexLoop (I.eraseIdx k) (ii.eraseIdx k) B logq sdi ans
      = match indexLoop I ii B logq sdi ans with
        | .ok s => .ok (s.1, s.2.eraseIdx k)
        | .error e => .error e := by
  rw [indexLoop_eq, indexLoop_eq, List.length_eraseIdx_of_lt hk]
  rw [fillLoop_eraseIdx (f := indexStep I ii B logq sdi) none k I.length 0 hk
    (by simpa using indexStep_skip I ii B logq sdi k hk hI)
    (by intro i hi; simp only [zero_add, indexStep, rd_eraseIdx_lt _ _ _ hi])
    (by intro i hi _; simp only [zero_add, indexStep, rd_eraseIdx_ge _ _ _ hi])]
  cases hf : fillLoop (indexStep I ii B logq sdi) I.length 0 with
  | error e => rfl
  | ok os =>
    simp only []
    have hlen := fillLoop_ok_length _ _ _ hf
    have hk' : k < os.length := by omega
    have hget := fillLoop_ok_get _ _ _ hf k hk'
    simp only [zero_add, indexStep_skip I ii B logq sdi k hk hI, Except.ok.injEq] at hget
    have hs : vsum (os.map indexLik) = vsum ((os.eraseIdx k).map indexLik) := by
      rw [vsum_eraseIdx (os.map indexLik) k (by simpa using hk'), eraseIdx_map']
      simp only [List.getElem_map, ← hget, indexLik]
      exact Val.zero_add' _
    rw [hs, eraseIdx_map']

theorem indexLoop_set_skip (I ii : List α) (B : List (Val α)) (logq sdi ans : Val α) (k : Nat)
    (x : α) (hk : k < I.length) (hI : I[k] ≤ 0) :
    indexLoop I (ii.set k x) B logq sdi ans = indexLoop I ii B logq sdi ans := by
  rw [indexLoop_eq, indexLoop_eq]
  rw [fillLoop_congr (f := indexStep I (ii.set k x) B logq sdi) (g := indexStep I ii B logq sdi)
    I.length 0 (by
      intro i hi
      simp only [zero_add]
      by_cases hik : i = k
      · subst hik
        rw [indexStep_skip I _ B logq sdi i hk hI, indexStep_skip I _ B logq sdi i hk hI]
      · simp only [indexStep, rd_set_ne _ _ _ _ hik])]

/-- C5: an index observation `k` with `I[k] ≤ 0` contributes nothing: the returned negative
log-likelihood (or the fault of the evaluation) is that of the input with the observation
deleted from `I` and `ii`, and does not change when `ii[k]` is replaced by any value. -/
theorem index_skip_law (d : Data α) (p : Params α) (k : Nat) (hk : k < d.I.length)
    (hI : d.I[k] ≤ 0) :
    nll (d.dropIndexObs k) p = nll d p ∧
    ∀ x : α, nll { d with ii := d.ii.set k x } p = nll d p := by
  constructor
  · unfold nll objective_function
    simp only [Data.dropIndexObs, bind, Except.bind, pure, Except.pure, throw, throwThe,
      MonadExceptOf.throw, indexLoop_erase_skip d.I d.ii _ _ _ _ k hk hI]
    split
    · rfl
    iterate 7 (split; rfl)
    generalize indexLoop d.I d.ii _ _ _ _ = X
    cases X with
    | error e => rfl
    | ok s =>
      simp only []
      repeat (split; rfl)
      rfl
  · intro x
    unfold nll objective_function
    simp only [bind, Except.bind, pure, Except.pure, throw, throwThe,
      MonadExceptOf.throw, indexLoop_set_skip d.I d.ii _ _ _ _ k x hk hI]

end Deletion

section StepInversion

variable {α : Type} [LinearOrderedField α] [FloorRing α] [Transc α]

theorem catchStep_ok (Cobs ic nc : List α) (Cps : List (Option (Val α))) (sdc : Val α)
    (i : Int) (o : Val α × Val α) (h : catchStep Cobs ic nc Cps sdc i = .ok o) :
    ∃ n co, rd nc i = .ok n ∧ catchSum ic Cps i n = .ok o.1 ∧ rd Cobs i = .ok co ∧
      o.2 = dnorm (log o.1) (log (fin co)) sdc := by
  unfold catchStep at h
  simp only [bind, Except.bind, pure, Except.pure] at h
  split at h; · cases h
  rename_i n hn
  split at h; · cases h
  rename_i c hc
  split at h; · cases h
  rename_i co hco
  cases h
  exact ⟨n, co, hn, hc, hco, rfl⟩

theorem indexStep_ok (I ii : List α) (B : List (Val α)) (logq sdi : Val α)
    (i : Int) (o : Option (Val α × Val α)) (h : indexStep I ii B logq sdi i = .ok o) :
    ∃ x, rd I i = .ok x ∧
      ((¬ 0 < x ∧ o = none) ∨
       (0 < x ∧ ∃ v b, rd ii i = .ok v ∧ rd B (Integer (v - 1)) = .ok b ∧
          o = some (logq + log b, dnorm (log (fin x)) (logq + log b) sdi))) := by
  unfold indexStep at h
  simp only [bind, Except.bind, pure, Except.pure] at h
  split at h; · cases h
  rename_i x hx
  refine ⟨x, hx, ?_⟩
  by_cases hpos : 0 < x
  · simp only [hpos, if_true] at h
    split at h; · cases h
    rename_i v hv
    split at h; · cases h
    rename_i b hb
    cases h
    exact Or.inr ⟨hpos, v, b, hv, hb, rfl⟩
  · simp only [hpos, if_false] at h
    cases h
    exact Or.inl ⟨hpos, rfl⟩

theorem Val.sub_shuffle (a x y z : Val α) : a - (x + y) - z = a - y - z + -x := by
  cases a <;> cases x <;> cases y <;> cases z <;> simp; ring

theorem Val.eq_sub_of_eq_add (a b : Val α) (t : α) (h : a = b + fin t) : b = a - fin t := by
  subst h
  cases b <;> simp

end StepInversion

section Additivity

variable {α : Type} [LinearOrderedField α] [FloorRing α] [Transc α]

theorem catchStep_erase_lt (Cobs ic nc : List α) (Cps : List (Option (Val α))) (sdc : Val α)
    (k i : Nat) (h : i < k) :
    catchStep (Cobs.eraseIdx k) (ic.eraseIdx k) (nc.eraseIdx k) Cps sdc (i : Int)
      = catchStep Cobs ic nc Cps sdc (i : Int) := by
  simp only [catchStep, catchSum, rd_eraseIdx_lt _ _ _ h]

theorem catchStep_erase_ge (Cobs ic nc : List α) (Cps : List (Option (Val α))) (sdc : Val α)
    (k i : Nat) (h : k ≤ i) :
    catchStep (Cobs.eraseIdx k) (ic.eraseIdx k) (nc.eraseIdx k) Cps sdc (i : Int)
      = catchStep Cobs ic nc Cps sdc ((i : Int) + 1) := by
  simp only [catchStep, catchSum, rd_eraseIdx_ge _ _ _ h]

theorem indexStep_erase_lt (I ii : List α) (B : List (Val α)) (logq sdi : Val α)
    (k i : Nat) (h : i < k) :
    indexStep (I.eraseIdx k) (ii.eraseIdx k) B logq sdi (i : Int)
      = indexStep I ii B logq sdi (i : Int) := by
  simp only [indexStep, rd_eraseIdx_lt _ _ _ h]

theorem indexStep_erase_ge (I ii : List α) (B : List (Val α)) (logq sdi : Val α)
    (k i : Nat) (h : k ≤ i) :
    indexStep (I.eraseIdx k) (ii.eraseIdx k) B logq sdi (i : Int)
      = indexStep I ii B logq sdi ((i : Int) + 1) := by
  simp only [indexStep, rd_eraseIdx_ge _ _ _ h]

/-- C6: in an evaluation that returns, deleting catch observation `k` gives an evaluation
that returns and whose value differs by exactly that observation's own term
`-logNormalDensity(log(Cpred[k]); log(Cobs[k]), sdc)`; deleting an index observation `k`
with `I[k] > 0` likewise, with the term
`-logNormalDensity(log(I[k]); logq + log(B[ii[k]-1]), sdi)`.  The total is the remaining
total plus the term; when the term is finite the remaining total is the total minus it. -/
theorem nll_strictly_additive (d : Data α) (p : Params α) (rep : Report α)
    (h : objective_function d p = .ok rep) :
    (∀ k (hk : k < d.Cobs.length), ∃ rep' ck,
        objective_function (d.dropCatchObs k) p = .ok rep' ∧
        rep.Cpred[k]? = some ck ∧
        rep.ans = rep'.ans + catchObsTerm p ck (fin d.Cobs[k]) ∧
        (∀ t, catchObsTerm p ck (fin d.Cobs[k]) = fin t → rep'.ans = rep.ans - fin t)) ∧
    (∀ k (hk : k < d.I.length), 0 < d.I[k] → ∃ rep' v lb,
        objective_function (d.dropIndexObs k) p = .ok rep' ∧
        d.ii[k]? = some v ∧ 0 ≤ Integer (v - 1) ∧
        p.logB[(Integer (v - 1)).toNat]? = some lb ∧
        rep.ans = rep'.ans + indexObsTerm p (fin d.I[k]) (exp (fin lb)) ∧
        (∀ t, indexObsTerm p (fin d.I[k]) (exp (fin lb)) = fin t →
          rep'.ans = rep.ans - fin t)) := by
  obtain ⟨rvec, ansF, Binf, sB, Cps, P, sC, sI, l1, l2, rvl, Bl, hst, hrep⟩ :=
    objective_inv d p rep h
  obtain ⟨hns, h1, h2, h3, h4, h5, h6, h7, h8, h9, h10, h11, h12⟩ := hst
  obtain ⟨hans, -, -, -, -, -, -, hCpred, -⟩ := hrep
  have h7' := h7
  have h8' := h8
  rw [catchLoop_eq] at h7'
  rw [indexLoop_eq] at h8'
  cases hfC : fillLoop (catchStep d.Cobs d.ic d.nc (Cps.map some ++ [none])
      (fin p.beta * exp (fin p.logsdf))) d.Cobs.length 0 with
  | error e => rw [hfC] at h7'; cases h7'
  | ok osC =>
  cases hfI : fillLoop (indexStep d.I d.ii (p.logB.map (fun x => exp (fin x))) (fin p.logq)
      (fin p.alpha * exp (fin p.logsdb))) d.I.length 0 with
  | error e => rw [hfI] at h8'; cases h8'
  | ok osI =>
  rw [hfC] at h7'
  rw [hfI] at h8'
  simp only [Except.ok.injEq] at h7' h8'
  have hlenC := fillLoop_ok_length _ _ _ hfC
  have hlenI := fillLoop_ok_length _ _ _ hfI
  constructor
  · intro k hk
    have hk' : k < osC.length := by omega
    have hstep := fillLoop_ok_get _ _ _ hfC k hk'
    have hstep0 := hstep
    simp only [zero_add] at hstep0
    obtain ⟨n, co, -, -, hco, ho2⟩ := catchStep_ok _ _ _ _ _ _ _ hstep0
    have hco' : co = d.Cobs[k] := by
      have := (rd_natCast _ _ _).1 hco
      rw [List.getElem?_eq_getElem hk] at this
      exact (Option.some.inj this).symm
    have hg := fillLoop_eraseIdx
      (f := catchStep d.Cobs d.ic d.nc (Cps.map some ++ [none]) (fin p.beta * exp (fin p.logsdf)))
      (g := catchStep (d.Cobs.eraseIdx k) (d.ic.eraseIdx k) (d.nc.eraseIdx k)
        (Cps.map some ++ [none]) (fin p.beta * exp (fin p.logsdf)))
      osC[k] k d.Cobs.length 0 hk hstep
      (by intro i hi; simp only [zero_add]; exact catchStep_erase_lt _ _ _ _ _ k i hi)
      (by intro i hi _; simp only [zero_add]; exact catchStep_erase_ge _ _ _ _ _ k i hi)
    rw [hfC] at hg
    simp only [] at hg
    have h7n : catchLoop (d.Cobs.eraseIdx k) (d.ic.eraseIdx k) (d.nc.eraseIdx k)
        (Cps.map some ++ [none]) (fin p.beta * exp (fin p.logsdf)) sB.1
        = .ok (sB.1 - vsum ((osC.eraseIdx k).map Prod.snd), (osC.eraseIdx k).map Prod.fst,
            (osC.eraseIdx k).map (fun o => log o.1)) := by
      rw [catchLoop_eq, List.length_eraseIdx_of_lt hk, hg]
    have h8n : indexLoop d.I d.ii (p.logB.map (fun x => exp (fin x))) (fin p.logq)
        (fin p.alpha * exp (fin p.logsdb)) (sB.1 - vsum ((osC.eraseIdx k).map Prod.snd))
        = .ok (sB.1 - vsum ((osC.eraseIdx k).map Prod.snd) - vsum (osI.map indexLik),
            osI.map (fun o => o.map Prod.fst)) := by
      rw [indexLoop_eq, hfI]
    obtain ⟨rep', hrep', hrepof⟩ := objective_intro (d.dropCatchObs k) p
      ⟨hns, h1, h2, h3, h4, h5, h6, h7n, h8n, h9, h10, h11, h12⟩
    have hans' : rep'.ans = sB.1 - vsum ((osC.eraseIdx k).map Prod.snd)
        - vsum (osI.map indexLik) := hrepof.1
    have hsum : vsum (osC.map Prod.snd)
        = osC[k].2 + vsum ((osC.eraseIdx k).map Prod.snd) := by
      rw [vsum_eraseIdx (osC.map Prod.snd) k (by simpa using hk'), eraseIdx_map']
      simp only [List.getElem_map]
    have hmain : rep.ans = rep'.ans + catchObsTerm p osC[k].1 (fin d.Cobs[k]) := by
      rw [hans, hans', ← h8', ← h7', hsum, catchObsTerm, ← hco', ← ho2]
      exact Val.sub_shuffle _ _ _ _
    refine ⟨rep', osC[k].1, hrep', ?_, hmain, ?_⟩
    · rw [hCpred, ← h7']
      simp only [List.getElem?_map, List.getElem?_eq_getElem hk', Option.map_some']
    · intro t ht
      rw [ht] at hmain
      exact Val.eq_sub_of_eq_add _ _ _ hmain
  · intro k hk hpos
    have hk' : k < osI.length := by omega
    have hstep := fillLoop_ok_get _ _ _ hfI k hk'
    have hstep0 := hstep
    simp only [zero_add] at hstep0
    obtain ⟨x, hx, hcase⟩ := indexStep_ok _ _ _ _ _ _ _ hstep0
    have hx' : x = d.I[k] := by
      have := (rd_natCast _ _ _).1 hx
      rw [List.getElem?_eq_getElem hk] at this
      exact (Option.some.inj this).symm
    subst hx'
    rcases hcase with ⟨hneg, -⟩ | ⟨-, v, b, hv, hb, ho⟩
    · exact absurd hpos hneg
    have hg := fillLoop_eraseIdx
      (f := indexStep d.I d.ii (p.logB.map (fun x => exp (fin x))) (fin p.logq)
        (fin p.alpha * exp (fin p.logsdb)))
      (g := indexStep (d.I.eraseIdx k) (d.ii.eraseIdx k) (p.logB.map (fun x => exp (fin x)))
        (fin p.logq) (fin p.alpha * exp (fin p.logsdb)))
      osI[k] k d.I.length 0 hk hstep
      (by intro i hi; simp only [zero_add]; exact indexStep_erase_lt _ _ _ _ _ k i hi)
      (by intro i hi _; simp only [zero_add]; exact indexStep_erase_ge _ _ _ _ _ k i hi)
    rw [hfI] at hg
    simp only [] at hg
    have h8n : indexLoop (d.I.eraseIdx k) (d.ii.eraseIdx k) (p.logB.map (fun x => exp (fin x)))
        (fin p.logq) (fin p.alpha * exp (fin p.logsdb)) sC.1
        = .ok (sC.1 - vsum ((osI.eraseIdx k).map indexLik),
            (osI.eraseIdx k).map (fun o => o.map Prod.fst)) := by
      rw [indexLoop_eq, List.length_eraseIdx_of_lt hk, hg]
    obtain ⟨rep', hrep', hrepof⟩ := objective_intro (d.dropIndexObs k) p
      ⟨hns, h1, h2, h3, h4, h5, h6, h7, h8n, h9, h10, h11, h12⟩
    have hans' : rep'.ans = sC.1 - vsum ((osI.eraseIdx k).map indexLik) := hrepof.1
    have hsum : vsum (osI.map indexLik)
        = indexLik osI[k] + vsum ((osI.eraseIdx k).map indexLik) := by
      rw [vsum_eraseIdx (osI.map indexLik) k (by simpa using hk'), eraseIdx_map']
      simp only [List.getElem_map]
    obtain ⟨hb0, hbget⟩ := (rd_ok_iff _ _ _).1 hb
    rw [List.getElem?_map] at hbget
    cases hlb : p.logB[(Integer (v - 1)).toNat]? with
    | none => rw [hlb] at hbget; cases hbget
    | some lb =>
      rw [hlb] at hbget
      simp only [Option.map_some', Option.some.injEq] at hbget
      have hmain : rep.ans = rep'.ans + indexObsTerm p (fin d.I[k]) (exp (fin lb)) := by
        rw [hans, hans', ← h8', hsum, ho, indexObsTerm, hbget]
        simp only [indexLik]
        cases sC.1 <;> cases vsum ((osI.eraseIdx k).map indexLik) <;>
          cases dnorm (log (fin d.I[k])) (fin p.logq + log b)
            (fin p.alpha * exp (fin p.logsdb)) <;> simp; ring
      refine ⟨rep', v, lb, hrep', (rd_natCast _ _ _).1 hv, hb0, hlb, hmain, ?_⟩
      intro t ht
      rw [ht] at hmain
      exact Val.eq_sub_of_eq_add _ _ _ hmain

end Additivity

section DeletionWitnesses

/-- C5 on the example input, whose second index observation is `I[1] = 0`. -/
theorem index_skip_law_witness :
    (exampleData ℝ).I[1]? = some 0 ∧
    nll ((exampleData ℝ).dropIndexObs 1) (exampleParams ℝ)
      = nll (exampleData ℝ) (exampleParams ℝ) :=
  ⟨by simp [exampleData],
   (index_skip_law (exampleData ℝ) (exampleParams ℝ) 1 (by simp [exampleData])
    (by simp [exampleData])).1⟩

/-- C6 on the example input: deleting its catch observation. -/
theorem nll_strictly_additive_witness :
    ∃ rep rep' ck, objective_function (exampleData ℝ) (exampleParams ℝ) = .ok rep ∧
      objective_function ((exampleData ℝ).dropCatchObs 0) (exampleParams ℝ) = .ok rep' ∧
      rep.Cpred[0]? = some ck ∧
      rep.ans = rep'.ans + catchObsTerm (exampleParams ℝ) ck (fin 10) := by
  obtain ⟨rep, h⟩ := example_ok ℝ
  obtain ⟨rep', ck, h1, h2, h3, -⟩ :=
    (nll_strictly_additive (exampleData ℝ) (exampleParams ℝ) rep h).1 0 (by simp [exampleData])
  exact ⟨rep, rep', ck, h, h1, h2, by simpa [exampleData] using h3⟩

end DeletionWitnesses

section TotalTerms

variable {α : Type} [LinearOrderedField α] [FloorRing α] [Transc α]

theorem rd_at0 (v : List α) (i : Int) (x : α) (h : rd v i = .ok x) : at0 v i = x := by
  have := ((rd_ok_iff v i x).1 h).2
  simp [at0, this]

theorem fillLoop_map_eq {β γ : Type} (f : Int → Except Fault β) (g : β → γ) (t : Nat → γ)
    (n : Nat) (lo : Int) (L : List β) (h : fillLoop f n lo = .ok L)
    (ht : ∀ j (hj : j < L.length), g L[j] = t j) :
    L.map g = (List.range n).map t := by
  have hlen := fillLoop_ok_length _ _ _ h
  apply List.ext_getElem
  · simp [hlen]
  · intro j h1 h2
    simp only [List.getElem_map, List.getElem_range]
    exact ht j (by simpa using h1)

theorem vsum_filter_map {β : Type} (l : List β) (q : β → Bool) (f : β → Val α) :
    vsum ((l.filter q).map f) = vsum (l.map (fun i => if q i then f i else fin 0)) := by
  induction l with
  | nil => rfl
  | cons x xs ih =>
    by_cases hq : q x
    · simp [List.filter, hq, vsum, ih]
    · simp [List.filter, hq, vsum, ih, Val.zero_add']

theorem fishingStep_ok (delay : Int) (dt logF : List α) (phi1 phi2 sdf : Val α) (i : Int)
    (x : Val α) (h : fishingStep delay dt logF phi1 phi2 sdf i = .ok x) :
    ∃ a b c t, rd logF (i - 1) = .ok a ∧ rd logF (i - delay) = .ok b ∧ rd logF i = .ok c ∧
      rd dt (i - 1) = .ok t ∧
      x = dnorm (fin c) (predictlogF phi1 (fin a) phi2 (fin b)) (sqrt (fin t) * sdf) := by
  unfold fishingStep at h
  simp only [bind, Except.bind, pure, Except.pure] at h
  split at h; · cases h
  rename_i a ha
  split at h; · cases h
  rename_i b hb
  split at h; · cases h
  rename_i c hc
  split at h; · cases h
  rename_i t ht
  cases h
  exact ⟨a, b, c, t, ha, hb, hc, ht, rfl⟩

theorem biomassStep_ok (dt logB : List α) (B Binf F rvec : List (Val α)) (K sdb sdb2 : Val α)
    (lamperti euler : Int) (i : Int) (o : Val α × Val α)
    (h : biomassStep dt logB B Binf F rvec K sdb sdb2 lamperti euler i = .ok o) :
    ∃ b binf f rv t lb, rd B i = .ok b ∧ rd Binf (i + 1) = .ok binf ∧ rd F (i + 1) = .ok f ∧
      rd rvec (i + 1) = .ok rv ∧ rd dt i = .ok t ∧ rd logB (i + 1) = .ok lb ∧
      o.1 = predictB b binf f rv K (fin t) sdb2 lamperti euler ∧
      o.2 = dnorm (log o.1) (fin lb) (sqrt (fin t) * sdb) := by
  unfold biomassStep at h
  simp only [bind, Except.bind, pure, Except.pure] at h
  split at h; · cases h
  rename_i b hb
  split at h; · cases h
  rename_i binf hbinf
  split at h; · cases h
  rename_i f hf
  split at h; · cases h
  rename_i rv hrv
  split at h; · cases h
  rename_i t ht
  split at h; · cases h
  rename_i lb hlb
  cases h
  exact ⟨b, binf, f, rv, t, lb, hb, hbinf, hf, hrv, ht, hlb, rfl, rfl⟩

theorem Val.total_eq (f b c i : Val α) : fin 0 - f - b - c - i = -(f + b + c + i) := by
  cases f <;> cases b <;> cases c <;> cases i <;> simp; ring

/-- C8: the value an evaluation returns is the negative of the sum of the four families of
log-density terms (fishing-mortality process, biomass process, catch observations, index
observations with `I[i] > 0`) and of nothing else; in particular it does not depend on
`dtpred`, the only input used by the forecast stage alone. -/
theorem nll_is_sum_of_terms (d : Data α) (p : Params α) (rep : Report α)
    (h : objective_function d p = .ok rep) :
    rep.ans = -(vsum (fishingTerms d p) + vsum (biomassTerms d p rep.Bpred)
        + vsum (catchTerms d p rep.Cpred) + vsum (indexTerms d p)) ∧
    ∀ x : α, nll { d with dtpred := x } p = nll d p := by
  constructor
  · obtain ⟨rvec, ansF, Binf, sB, Cps, P, sC, sI, l1, l2, rvl, Bl, hst, hrep⟩ :=
      objective_inv d p rep h
    obtain ⟨hns, h1, h2, h3, h4, h5, h6, h7, h8, h9, h10, h11, h12⟩ := hst
    obtain ⟨hans, -, -, -, -, hBpred, -, hCpred, -⟩ := hrep
    rw [fishingLoop_eq] at h2
    rw [biomassLoop_eq] at h4
    rw [catchLoop_eq] at h7
    rw [indexLoop_eq] at h8
    cases hfF : fillLoop (fishingStep d.delay d.dt p.logF (fin p.phi1) (fin p.phi2)
        (exp (fin p.logsdf))) ((p.logF.length : Int) - d.delay).toNat d.delay with
    | error e => rw [hfF] at h2; cases h2
    | ok osF =>
    cases hfB : fillLoop (biomassStep d.dt p.logB (p.logB.map (fun x => exp (fin x))) Binf
        (p.logF.map (fun x => exp (fin x))) rvec (exp (fin p.logK)) (exp (fin p.logsdb))
        (exp (fin p.logsdb) * exp (fin p.logsdb)) d.lamperti d.euler) (p.logF.length - 1) 0 with
    | error e => rw [hfB] at h4; cases h4
    | ok osB =>
    cases hfC : fillLoop (catchStep d.Cobs d.ic d.nc (Cps.map some ++ [none])
        (fin p.beta * exp (fin p.logsdf))) d.Cobs.length 0 with
    | error e => rw [hfC] at h7; cases h7
    | ok osC =>
    cases hfI : fillLoop (indexStep d.I d.ii (p.logB.map (fun x => exp (fin x))) (fin p.logq)
        (fin p.alpha * exp (fin p.logsdb))) d.I.length 0 with
    | error e => rw [hfI] at h8; cases h8
    | ok osI =>
    rw [hfF] at h2
    rw [hfB] at h4
    rw [hfC] at h7
    rw [hfI] at h8
    simp only [Except.ok.injEq] at h2 h4 h7 h8
    -- (1)
    have eF : osF = fishingTerms d p := by
      have := fillLoop_map_eq _ id (fun j =>
        dnorm (fin (at0 p.logF (d.delay + j)))
          (fin p.phi1 * fin (at0 p.logF (d.delay + j - 1))
            + fin p.phi2 * fin (at0 p.logF (d.delay + j - d.delay)))
          (sqrt (fin (at0 d.dt (d.delay + j - 1))) * exp (fin p.logsdf))) _ _ _ hfF
        (by
          intro j hj
          have hs := fillLoop_ok_get _ _ _ hfF j hj
          obtain ⟨a, b, c, t, ha, hb, hc, ht, hx⟩ := fishingStep_ok _ _ _ _ _ _ _ _ hs
          dsimp only [id]
          rw [rd_at0 _ _ _ ha, rd_at0 _ _ _ hb, rd_at0 _ _ _ hc, rd_at0 _ _ _ ht]
          simpa [predictlogF] using hx)
      simpa [fishingTerms] using this
    -- (2)
    have eB : osB.map Prod.snd = biomassTerms d p rep.Bpred := by
      rw [hBpred, ← h4]
      have := fillLoop_map_eq _ Prod.snd (fun i =>
        dnorm (log (cellAt (none :: (osB.map Prod.fst).map some) (i + 1)))
          (fin (at0 p.logB ((i : Int) + 1)))
          (sqrt (fin (at0 d.dt (i : Int))) * exp (fin p.logsdb))) _ _ _ hfB
        (by
          intro j hj
          have hs := fillLoop_ok_get _ _ _ hfB j hj
          simp only [zero_add] at hs
          obtain ⟨b, binf, f, rv, t, lb, -, -, -, -, ht, hlb, -, ho2⟩ :=
            biomassStep_ok _ _ _ _ _ _ _ _ _ _ _ _ _ hs
          dsimp only
          rw [rd_at0 _ _ _ ht, rd_at0 _ _ _ hlb, ho2]
          simp [cellAt, List.getElem?_eq_getElem hj])
      simpa [biomassTerms] using this
    -- (3)
    have eC : osC.map Prod.snd = catchTerms d p rep.Cpred := by
      rw [hCpred, ← h7]
      have := fillLoop_map_eq _ Prod.snd (fun i =>
        dnorm (log ((osC.map Prod.fst).getD i nan)) (log (fin (at0 d.Cobs (i : Int))))
          (fin p.beta * exp (fin p.logsdf))) _ _ _ hfC
        (by
          intro j hj
          have hs := fillLoop_ok_get _ _ _ hfC j hj
          simp only [zero_add] at hs
          obtain ⟨n, co, -, -, hco, ho2⟩ := catchStep_ok _ _ _ _ _ _ _ hs
          dsimp only
          rw [rd_at0 _ _ _ hco, ho2]
          simp [List.getD, List.getElem?_eq_getElem hj])
      simpa [catchTerms] using this
    -- (4)
    have eI : vsum (osI.map indexLik) = vsum (indexTerms d p) := by
      unfold indexTerms
      rw [vsum_filter_map]
      congr 1
      refine fillLoop_map_eq _ indexLik _ _ _ _ hfI ?_
      intro j hj
      have hs := fillLoop_ok_get _ _ _ hfI j hj
      simp only [zero_add] at hs
      obtain ⟨x, hx, hcase⟩ := indexStep_ok _ _ _ _ _ _ _ hs
      rw [rd_at0 _ _ _ hx]
      rcases hcase with ⟨hneg, ho⟩ | ⟨hpos, v, b, hv, hb, ho⟩
      · simp [ho, indexLik, hneg]
      · have hb' := ((rd_ok_iff _ _ _).1 hb).2
        rw [List.getElem?_map] at hb'
        cases hlb : p.logB[(Integer (v - 1)).toNat]? with
        | none => rw [hlb] at hb'; cases hb'
        | some lb =>
          rw [hlb] at hb'
          simp only [Option.map_some', Option.some.injEq] at hb'
          have e1 : at0 p.logB (Integer (v - 1)) = lb := by simp [at0, hlb]
          rw [rd_at0 _ _ _ hv, e1, hb']
          simp [ho, indexLik, hpos]
    rw [hans, ← h8, ← h7, ← h4, ← h2, ← eF, ← eB, ← eC, ← eI]
    exact Val.total_eq _ _ _ _
  · intro x
    unfold nll objective_function
    simp only [bind, Except.bind, pure, Except.pure, throw, throwThe, MonadExceptOf.throw]
    split
    · rfl
    repeat (split; rfl)
    rfl

/-- C8 on the example input. -/
theorem nll_is_sum_of_terms_witness :
    ∃ rep, objective_function (exampleData ℝ) (exampleParams ℝ) = .ok rep ∧
      rep.ans = -(vsum (fishingTerms (exampleData ℝ) (exampleParams ℝ))
        + vsum (biomassTerms (exampleData ℝ) (exampleParams ℝ) rep.Bpred)
        + vsum (catchTerms (exampleData ℝ) (exampleParams ℝ) rep.Cpred)
        + vsum (indexTerms (exampleData ℝ) (exampleParams ℝ))) := by
  obtain ⟨rep, h⟩ := example_ok ℝ
  exact ⟨rep, h, (nll_is_sum_of_terms (exampleData ℝ) (exampleParams ℝ) rep h).1⟩

end TotalTerms

section Structural

variable {α : Type} [LinearOrderedField α] [FloorRing α] [Transc α]

theorem getElem?_some_lt {β : Type} (v : List β) (i : Nat) (x : β) (h : v[i]? = some x) :
    i < v.length := by
  by_contra hc
  rw [List.getElem?_eq_none (by omega)] at h
  cases h

theorem cells_some_lt (Cps : List (Val α)) (m : Nat) (x : Val α)
    (h : (Cps.map some ++ [none])[m]? = some (some x)) : m < Cps.length := by
  by_contra hc
  have hm : Cps.length ≤ m := by omega
  rw [List.getElem?_append_right (by simpa using hm)] at h
  simp only [List.length_map] at h
  cases hk : m - Cps.length with
  | zero => rw [hk] at h; simp at h
  | succ k => rw [hk] at h; simp at h

theorem readsInRange_of_ok (d : Data α) (p : Params α) (rep : Report α)
    (h : objective_function d p = .ok rep) : ReadsInRange d p := by
  obtain ⟨rvec, ansF, Binf, sB, Cps, P, sC, sI, l1, l2, rvl, Bl, hst, -⟩ :=
    objective_inv d p rep h
  obtain ⟨hns, h1, h2, h3, h4, h5, h6, h7, h8, h9, h10, h11, h12⟩ := hst
  have hns1 : 1 ≤ p.logF.length := Nat.pos_of_ne_zero hns
  -- the forecast read `logF(ns-delay)`
  obtain ⟨hd0, hd1⟩ := (rd_ok_iff _ _ _).1 h10
  have hd2 := getElem?_some_lt _ _ _ hd1
  -- the last pass of the `rvec` loop reads `isum(ns-1)`
  have hisum : p.logF.length ≤ d.isum.length := by
    unfold rvecLoop at h1
    have hlen := fillLoop_ok_length _ _ _ h1
    have hget := fillLoop_ok_get _ _ _ h1 (p.logF.length - 1) (by omega)
    simp only [bind, Except.bind, pure, Except.pure, zero_add] at hget
    split at hget
    · cases hget
    rename_i s hs
    have := getElem?_some_lt _ _ _ ((rd_natCast _ _ _).1 hs)
    omega
  -- the forecast read `B(ns-1)`
  have hlogB : p.logF.length ≤ p.logB.length := by
    obtain ⟨-, hb⟩ := (rd_ok_iff _ _ _).1 h12
    have := getElem?_some_lt _ _ _ hb
    simp only [List.length_map] at this
    omega
  -- the last pass of the biomass loop reads `dt(ns-2)`
  have hdt : p.logF.length - 1 ≤ d.dt.length := by
    by_cases hone : p.logF.length - 1 = 0
    · omega
    rw [biomassLoop_eq] at h4
    cases hfB : fillLoop (biomassStep d.dt p.logB (p.logB.map (fun x => exp (fin x))) Binf
        (p.logF.map (fun x => exp (fin x))) rvec (exp (fin p.logK)) (exp (fin p.logsdb))
        (exp (fin p.logsdb) * exp (fin p.logsdb)) d.lamperti d.euler) (p.logF.length - 1) 0 with
    | error e => rw [hfB] at h4; cases h4
    | ok osB =>
      have hlen := fillLoop_ok_length _ _ _ hfB
      have hget := fillLoop_ok_get _ _ _ hfB (p.logF.length - 2) (by omega)
      simp only [zero_add] at hget
      obtain ⟨b, binf, f, rv, t, lb, -, -, -, -, ht, -⟩ :=
        biomassStep_ok _ _ _ _ _ _ _ _ _ _ _ _ _ hget
      have := getElem?_some_lt _ _ _ ((rd_natCast _ _ _).1 ht)
      omega
  have hCps : Cps.length = p.logF.length - 1 := by
    unfold catchPredLoop at h5
    exact fillLoop_ok_length _ _ _ h5
  refine ⟨hns1, by omega, by omega, hisum, hlogB, hdt, ?_, ?_⟩
  · -- catch observations
    intro i hi
    rw [catchLoop_eq] at h7
    cases hfC : fillLoop (catchStep d.Cobs d.ic d.nc (Cps.map some ++ [none])
        (fin p.beta * exp (fin p.logsdf))) d.Cobs.length 0 with
    | error e => rw [hfC] at h7; cases h7
    | ok osC =>
      have hlen := fillLoop_ok_length _ _ _ hfC
      have hget := fillLoop_ok_get _ _ _ hfC i (by omega)
      simp only [zero_add] at hget
      obtain ⟨n, co, hn, hsum, -, -⟩ := catchStep_ok _ _ _ _ _ _ _ hget
      refine ⟨n, (rd_natCast _ _ _).1 hn, ?_⟩
      intro hpos
      rw [catchSum_eq] at hsum
      cases hin : fillLoop (fun j => do
            let icv ← rd d.ic (i : Int)
            rdCell (Cps.map some ++ [none]) (Integer (icv - 1) + j)) (Int.toNat ⌈n⌉) 0 with
      | error e => rw [hin] at hsum; cases hsum
      | ok ts =>
        have hceil : 0 < ⌈n⌉ := Int.ceil_pos.mpr hpos
        have htl := fillLoop_ok_length _ _ _ hin
        have hfirst := fillLoop_ok_get _ _ _ hin 0 (by omega)
        have hlast := fillLoop_ok_get _ _ _ hin (ts.length - 1) (by omega)
        simp only [bind, Except.bind, zero_add] at hfirst hlast
        split at hfirst
        · cases hfirst
        rename_i c hc
        rw [hc] at hlast
        simp only [] at hlast
        obtain ⟨hf0, -⟩ := (rdCell_ok_iff _ _ _).1 hfirst
        obtain ⟨hl0, hl1⟩ := (rdCell_ok_iff _ _ _).1 hlast
        have hl2 := cells_some_lt _ _ _ hl1
        refine ⟨c, (rd_natCast _ _ _).1 hc, by simpa using hf0, ?_⟩
        simp only [Nat.cast_zero, add_zero] at hf0
        omega
  · -- index observations
    intro i hi hpos
    rw [indexLoop_eq] at h8
    cases hfI : fillLoop (indexStep d.I d.ii (p.logB.map (fun x => exp (fin x))) (fin p.logq)
        (fin p.alpha * exp (fin p.logsdb))) d.I.length 0 with
    | error e => rw [hfI] at h8; cases h8
    | ok osI =>
      have hlen := fillLoop_ok_length _ _ _ hfI
      have hget := fillLoop_ok_get _ _ _ hfI i (by omega)
      simp only [zero_add] at hget
      obtain ⟨x, hx, hcase⟩ := indexStep_ok _ _ _ _ _ _ _ hget
      have hx' : x = d.I[i] := by
        have := (rd_natCast _ _ _).1 hx
        rw [List.getElem?_eq_getElem hi] at this
        exact (Option.some.inj this).symm
      subst hx'
      rcases hcase with ⟨hneg, -⟩ | ⟨-, v, b, hv, hb, -⟩
      · exact absurd hpos hneg
      obtain ⟨hb0, hb1⟩ := (rd_ok_iff _ _ _).1 hb
      have hb2 := getElem?_some_lt _ _ _ hb1
      simp only [List.length_map] at hb2
      exact ⟨v, (rd_natCast _ _ _).1 hv, hb0, by omega⟩

/-- C9 (as amended): the evaluator validates nothing up front, but an input on which some
element it reads is missing or unassigned, that is an input without `ReadsInRange`
(`ns = 0`, `delay` outside `[1, ns]`, `isum`, `logB` or `dt` too short, a catch observation
without its `nc` or, when `nc[i] > 0`, without its `ic` or with the knots it reads,
`[t, t + ceil(nc[i]))` for `t = Integer(ic[i]-1)`, not inside `[0, ns-1)`, an index
observation with `I[i] > 0` without its `ii` or with the knot `Integer(ii[i]-1)` outside
`logB`) yields a fault and no likelihood value at all, an outcome distinct from a returned
non-finite number. -/
theorem structural_errors_fault (d : Data α) (p : Params α) (hbad : ¬ ReadsInRange d p) :
    (∃ e, objective_function d p = .error e) ∧
    ∀ rep, objective_function d p ≠ .ok rep := by
  have hno : ∀ rep, objective_function d p ≠ .ok rep :=
    fun rep h => hbad (readsInRange_of_ok d p rep h)
  refine ⟨?_, hno⟩
  cases h : objective_function d p with
  | error e => exact ⟨e, rfl⟩
  | ok rep => exact absurd h (hno rep)

/-- C9 as amended, on the example input with `ii[2] = 9`: the third index observation
(`I[2] = 4 > 0`) maps to knot 8 of 3, and the evaluation faults. -/
theorem structural_errors_fault_witness :
    ¬ ReadsInRange { exampleData ℝ with ii := [1, 2, 9] } (exampleParams ℝ) ∧
    ∃ e, objective_function { exampleData ℝ with ii := [1, 2, 9] } (exampleParams ℝ)
      = .error e := by
  have hbad : ¬ ReadsInRange { exampleData ℝ with ii := [1, 2, 9] } (exampleParams ℝ) := by
    intro hr
    obtain ⟨v, hv, -, hlt⟩ := hr.2.2.2.2.2.2.2 2 (by simp [exampleData])
      (by simp [exampleData])
    simp only [exampleData, List.getElem?_cons_succ, List.getElem?_cons_zero,
      Option.some.injEq] at hv
    subst hv
    have e8 : Integer ((9 : ℝ) - 1) = 8 := by
      have : (9 : ℝ) - 1 = ((8 : Int) : ℝ) := by norm_num
      rw [this, Integer_intCast]
    rw [e8] at hlt
    simp [exampleParams] at hlt
  exact ⟨hbad, (structural_errors_fault { exampleData ℝ with ii := [1, 2, 9] }
    (exampleParams ℝ) hbad).1⟩

/-- C9 as stated fails: on the example input with a `dt` of length 3 (the three knots call
for 2) the lengths are inconsistent, yet the evaluation returns a report as usual. -/
theorem structural_error_undetected :
    ({ exampleData ℝ with dt := [1, 1, 1] } : Data ℝ).dt.length
        ≠ (exampleParams ℝ).logF.length - 1 ∧
    ∃ rep, objective_function { exampleData ℝ with dt := [1, 1, 1] } (exampleParams ℝ)
      = .ok rep :=
  ⟨by simp [exampleData, exampleParams], example_ok_dt ℝ [1]⟩

end Structural

section Totality

variable {α : Type} [LinearOrderedField α] [FloorRing α] [Transc α]

theorem fillLoop_total {β : Type} (f : Int → Except Fault β) :
    ∀ (n : Nat) (lo : Int), (∀ j, j < n → ∃ x, f (lo + j) = .ok x) →
      ∃ L, fillLoop f n lo = .ok L
  | 0, _, _ => ⟨[], rfl⟩
  | n + 1, lo, h => by
    obtain ⟨x, hx⟩ := h 0 (Nat.succ_pos n)
    simp only [Nat.cast_zero, add_zero] at hx
    obtain ⟨xs, hxs⟩ := fillLoop_total f n (lo + 1) (fun j hj => by
      obtain ⟨y, hy⟩ := h (j + 1) (Nat.succ_lt_succ hj)
      exact ⟨y, by rw [idx_succ]; exact hy⟩)
    exact ⟨x :: xs, by simp only [fillLoop, hx, hxs]⟩

theorem rd_total {β : Type} (v : List β) (i : Int) (h0 : 0 ≤ i) (h1 : i < v.length) :
    ∃ x, rd v i = .ok x := by
  have hlt : i.toNat < v.length := by omega
  exact ⟨v[i.toNat], (rd_ok_iff _ _ _).2 ⟨h0, List.getElem?_eq_getElem hlt⟩⟩

theorem rdCell_total (Cps : List (Val α)) (i : Int) (h0 : 0 ≤ i) (h1 : i < Cps.length) :
    ∃ x, rdCell (Cps.map some ++ [none]) i = .ok x := by
  have hlt : i.toNat < Cps.length := by omega
  refine ⟨Cps[i.toNat], (rdCell_ok_iff _ _ _).2 ⟨h0, ?_⟩⟩
  rw [List.getElem?_append_left (by simpa using hlt)]
  simp [List.getElem?_eq_getElem hlt]

theorem ok_of_readsInRange (d : Data α) (p : Params α) (hr : ReadsInRange d p) :
    ∃ rep, objective_function d p = .ok rep := by
  obtain ⟨hns, hd1, hd2, hisum, hlogB, hdt, hcatch, hindex⟩ := hr
  have hF : (p.logF.map (fun x => exp (fin x))).length = p.logF.length := by simp
  have hB : (p.logB.map (fun x => exp (fin x))).length = p.logB.length := by simp
  -- rvec
  obtain ⟨rvec, h1⟩ : ∃ rvec, rvecLoop d.isum (exp (fin p.loggamma)) (exp (fin p.logr))
      p.logF.length = .ok rvec := by
    unfold rvecLoop
    apply fillLoop_total
    intro j hj
    obtain ⟨s, hs⟩ := rd_total d.isum (0 + (j : Int)) (by omega) (by omega)
    exact ⟨_, by simp only [bind, Except.bind, pure, Except.pure, hs]; rfl⟩
  have hrvec : rvec.length = p.logF.length := by
    unfold rvecLoop at h1
    exact fillLoop_ok_length _ _ _ h1
  -- fishing mortality
  obtain ⟨ansF, h2⟩ : ∃ ansF, fishingLoop d.delay d.dt p.logF (fin p.phi1) (fin p.phi2)
      (exp (fin p.logsdf)) p.logF.length 0 = .ok ansF := by
    rw [fishingLoop_eq]
    obtain ⟨L, hL⟩ := fillLoop_total (fishingStep d.delay d.dt p.logF (fin p.phi1) (fin p.phi2)
      (exp (fin p.logsdf))) ((p.logF.length : Int) - d.delay).toNat d.delay (by
        intro j hj
        obtain ⟨a, ha⟩ := rd_total p.logF (d.delay + (j : Int) - 1) (by omega) (by omega)
        obtain ⟨b, hb⟩ := rd_total p.logF (d.delay + (j : Int) - d.delay) (by omega) (by omega)
        obtain ⟨c, hc⟩ := rd_total p.logF (d.delay + (j : Int)) (by omega) (by omega)
        obtain ⟨t, ht⟩ := rd_total d.dt (d.delay + (j : Int) - 1) (by omega) (by omega)
        exact ⟨_, by simp only [fishingStep, bind, Except.bind, pure, Except.pure, ha, hb, hc, ht]; rfl⟩)
    exact ⟨_, by rw [hL]⟩
  -- Binf
  obtain ⟨Binf, h3⟩ : ∃ Binf, binfLoop (p.logF.map (fun x => exp (fin x))) rvec
      (exp (fin p.logK)) (exp (fin p.logsdb) * exp (fin p.logsdb)) d.lamperti
      p.logF.length = .ok Binf := by
    unfold binfLoop
    apply fillLoop_total
    intro j hj
    obtain ⟨f, hf⟩ := rd_total (p.logF.map (fun x => exp (fin x))) (0 + (j : Int))
      (by omega) (by omega)
    obtain ⟨rv, hrv⟩ := rd_total rvec (0 + (j : Int)) (by omega) (by omega)
    exact ⟨_, by simp only [bind, Except.bind, pure, Except.pure, hf, hrv]; rfl⟩
  have hBinf : Binf.length = p.logF.length := by
    unfold binfLoop at h3
    exact fillLoop_ok_length _ _ _ h3
  -- biomass
  obtain ⟨sB, h4⟩ : ∃ sB, biomassLoop d.dt p.logB (p.logB.map (fun x => exp (fin x))) Binf
      (p.logF.map (fun x => exp (fin x))) rvec (exp (fin p.logK)) (exp (fin p.logsdb))
      (exp (fin p.logsdb) * exp (fin p.logsdb)) d.lamperti d.euler p.logF.length ansF
      = .ok sB := by
    rw [biomassLoop_eq]
    obtain ⟨L, hL⟩ := fillLoop_total (biomassStep d.dt p.logB (p.logB.map (fun x => exp (fin x)))
      Binf (p.logF.map (fun x => exp (fin x))) rvec (exp (fin p.logK)) (exp (fin p.logsdb))
      (exp (fin p.logsdb) * exp (fin p.logsdb)) d.lamperti d.euler) (p.logF.length - 1) 0 (by
        intro j hj
        obtain ⟨b, hb⟩ := rd_total (p.logB.map (fun x => exp (fin x))) (0 + (j : Int))
          (by omega) (by omega)
        obtain ⟨bi, hbi⟩ := rd_total Binf (0 + (j : Int) + 1) (by omega) (by omega)
        obtain ⟨f, hf⟩ := rd_total (p.logF.map (fun x => exp (fin x))) (0 + (j : Int) + 1)
          (by omega) (by omega)
        obtain ⟨rv, hrv⟩ := rd_total rvec (0 + (j : Int) + 1) (by omega) (by omega)
        obtain ⟨t, ht⟩ := rd_total d.dt (0 + (j : Int)) (by omega) (by omega)
        obtain ⟨lb, hlb⟩ := rd_total p.logB (0 + (j : Int) + 1) (by omega) (by omega)
        exact ⟨_, by simp only [biomassStep, bind, Except.bind, pure, Except.pure, hb, hbi, hf,
          hrv, ht, hlb]; rfl⟩)
    exact ⟨_, by rw [hL]⟩
  -- catch predictions
  obtain ⟨Cps, h5⟩ : ∃ Cps, catchPredLoop d.dt (p.logB.map (fun x => exp (fin x))) Binf
      (p.logF.map (fun x => exp (fin x))) rvec (exp (fin p.logK))
      (exp (fin p.logsdb) * exp (fin p.logsdb)) d.lamperti d.euler p.logF.length = .ok Cps := by
    unfold catchPredLoop
    apply fillLoop_total
    intro j hj
    obtain ⟨f, hf⟩ := rd_total (p.logF.map (fun x => exp (fin x))) (0 + (j : Int))
      (by omega) (by omega)
    obtain ⟨rv, hrv⟩ := rd_total rvec (0 + (j : Int)) (by omega) (by omega)
    obtain ⟨b, hb⟩ := rd_total (p.logB.map (fun x => exp (fin x))) (0 + (j : Int))
      (by omega) (by omega)
    obtain ⟨bi, hbi⟩ := rd_total Binf (0 + (j : Int)) (by omega) (by omega)
    obtain ⟨t, ht⟩ := rd_total d.dt (0 + (j : Int)) (by omega) (by omega)
    exact ⟨_, by simp only [bind, Except.bind, pure, Except.pure, hf, hrv, hb, hbi, ht]; rfl⟩
  have hCps : Cps.length = p.logF.length - 1 := by
    unfold catchPredLoop at h5
    exact fillLoop_ok_length _ _ _ h5
  -- production
  obtain ⟨P, h6⟩ : ∃ P, productionLoop (p.logB.map (fun x => exp (fin x)))
      (Cps.map some ++ [none]) p.logF.length = .ok P := by
    unfold productionLoop
    apply fillLoop_total
    intro j hj
    obtain ⟨b1, hb1⟩ := rd_total (p.logB.map (fun x => exp (fin x))) (0 + (j : Int) + 1)
      (by omega) (by omega)
    obtain ⟨b0, hb0⟩ := rd_total (p.logB.map (fun x => exp (fin x))) (0 + (j : Int))
      (by omega) (by omega)
    obtain ⟨c, hc⟩ := rdCell_total Cps (0 + (j : Int)) (by omega) (by omega)
    exact ⟨_, by simp only [bind, Except.bind, pure, Except.pure, hb1, hb0, hc]; rfl⟩
  -- catch observations
  obtain ⟨sC, h7⟩ : ∃ sC, catchLoop d.Cobs d.ic d.nc (Cps.map some ++ [none])
      (fin p.beta * exp (fin p.logsdf)) sB.1 = .ok sC := by
    rw [catchLoop_eq]
    obtain ⟨L, hL⟩ := fillLoop_total (catchStep d.Cobs d.ic d.nc (Cps.map some ++ [none])
      (fin p.beta * exp (fin p.logsdf))) d.Cobs.length 0 (by
        intro i hi
        obtain ⟨n, hn, hspan⟩ := hcatch i hi
        have hnr : rd d.nc (0 + (i : Int)) = .ok n := by
          rw [zero_add]; exact (rd_natCast _ _ _).2 hn
        obtain ⟨co, hco⟩ := rd_total d.Cobs (0 + (i : Int)) (by omega) (by omega)
        obtain ⟨ts, hts⟩ := fillLoop_total (fun j => do
            let icv ← rd d.ic (0 + (i : Int))
            rdCell (Cps.map some ++ [none]) (Integer (icv - 1) + j)) (Int.toNat ⌈n⌉) 0 (by
          intro j hj
          have hceil : 0 < ⌈n⌉ := by omega
          obtain ⟨c, hc, hc0, hc1⟩ := hspan (Int.ceil_pos.mp hceil)
          have hcr : rd d.ic (0 + (i : Int)) = .ok c := by
            rw [zero_add]; exact (rd_natCast _ _ _).2 hc
          obtain ⟨x, hx⟩ := rdCell_total Cps (Integer (c - 1) + (0 + (j : Int))) (by omega)
            (by omega)
          exact ⟨x, by simp only [bind, Except.bind, hcr, hx]⟩)
        have hsum : catchSum d.ic (Cps.map some ++ [none]) (0 + (i : Int)) n
            = .ok (vsum ts) := by
          rw [catchSum_eq, hts]
        exact ⟨_, by simp only [catchStep, bind, Except.bind, pure, Except.pure,
          hnr, hsum, hco]; rfl⟩)
    exact ⟨_, by rw [hL]⟩
  -- index observations
  obtain ⟨sI, h8⟩ : ∃ sI, indexLoop d.I d.ii (p.logB.map (fun x => exp (fin x))) (fin p.logq)
      (fin p.alpha * exp (fin p.logsdb)) sC.1 = .ok sI := by
    rw [indexLoop_eq]
    obtain ⟨L, hL⟩ := fillLoop_total (indexStep d.I d.ii (p.logB.map (fun x => exp (fin x)))
      (fin p.logq) (fin p.alpha * exp (fin p.logsdb))) d.I.length 0 (by
        intro i hi
        have hx : rd d.I (0 + (i : Int)) = .ok d.I[i] := by
          rw [zero_add]; exact (rd_natCast _ _ _).2 (List.getElem?_eq_getElem hi)
        by_cases hpos : 0 < d.I[i]
        · obtain ⟨v, hv, hv0, hv1⟩ := hindex i hi hpos
          have hvr : rd d.ii (0 + (i : Int)) = .ok v := by
            rw [zero_add]; exact (rd_natCast _ _ _).2 hv
          obtain ⟨b, hb⟩ := rd_total (p.logB.map (fun x => exp (fin x))) (Integer (v - 1)) hv0
            (by omega)
          exact ⟨_, by simp only [indexStep, bind, Except.bind, pure, Except.pure, hx, hpos,
            if_true, hvr, hb]; rfl⟩
        · exact ⟨_, by simp only [indexStep, bind, Except.bind, pure, Except.pure, hx, hpos,
            if_false]; rfl⟩)
    exact ⟨_, by rw [hL]⟩
  -- forecast reads
  obtain ⟨l1, h9⟩ := rd_total p.logF ((p.logF.length : Int) - 1) (by omega) (by omega)
  obtain ⟨l2, h10⟩ := rd_total p.logF ((p.logF.length : Int) - d.delay) (by omega) (by omega)
  obtain ⟨rvl, h11⟩ := rd_total rvec ((p.logF.length : Int) - 1) (by omega) (by omega)
  obtain ⟨Bl, h12⟩ := rd_total (p.logB.map (fun x => exp (fin x))) ((p.logF.length : Int) - 1)
    (by omega) (by omega)
  obtain ⟨rep, h, -⟩ := objective_intro d p
    ⟨by omega, h1, h2, h3, h4, h5, h6, h7, h8, h9, h10, h11, h12⟩
  exact ⟨rep, h⟩

end Totality

section ClosedFormReal

/-- The analytical branch of `predictC` on finite arguments with a positive argument of the
logarithm. -/
theorem predictC_analytic_real (F K r B0 Binf t sdb2 : ℝ) (lamperti : Int)
    (hr : r ≠ 0) (hBinf : Binf ≠ 0)
    (hA : 0 < 1 - B0 / Binf
      * (1 - Real.exp ((if lamperti ≠ 0 then r - F - 0.5 * sdb2 else r - F) * t))) :
    predictC (fin F) (fin K) (fin r) (fin B0) (fin Binf) (fin t) (fin sdb2) lamperti 0
      = fin (K / r * F * Real.log (1 - B0 / Binf
          * (1 - Real.exp ((if lamperti ≠ 0 then r - F - 0.5 * sdb2 else r - F) * t)))) := by
  by_cases hl : lamperti = 0
  · simp only [hl, ne_eq, not_true_eq_false, if_false] at hA
    simp [predictC, hl, hr, hBinf, hA]
  · simp only [hl, ne_eq, not_false_eq_true, if_true] at hA
    simp [predictC, hl, hr, hBinf, hA]

/-- The equilibrium of `calculateBinf` is `K*rate/r` for the drift `rate` of the same flag. -/
theorem calculateBinf_eq_rate (K F r sdb2 Binf : ℝ) (lamperti : Int) (hr : r ≠ 0)
    (hBinf : calculateBinf (fin K) (fin F) (fin r) (fin sdb2) lamperti = fin Binf) :
    Binf = K * (if lamperti ≠ 0 then r - F - 0.5 * sdb2 else r - F) / r := by
  by_cases hl : lamperti = 0
  · simp [calculateBinf, hl, hr] at hBinf
    rw [← hBinf]; simp [hl]; field_simp
  · simp [calculateBinf, hl, hr] at hBinf
    rw [← hBinf]; simp [hl]; field_simp

/-- C11: for `K ≠ 0`, `r ≠ 0`, `B0 > 0` and `Binf = calculateBinf(K, F, r, sdb2, lamperti) ≠ 0`,
the analytical `c(t) = predictC(F, K, r, B0, Binf, t, sdb2, lamperti, 0)` has `c(0) = 0` and,
wherever the argument of its logarithm is positive, `predictB` is finite there and
`c'(t) = F * predictB(B0, Binf, F, r, K, t, sdb2, lamperti, 0)`. -/
theorem predictC_analytic_integrates_harvest (K F r sdb2 B0 Binf : ℝ) (lamperti : Int)
    (_hK : K ≠ 0) (hr : r ≠ 0) (hB0 : 0 < B0)
    (hBinf : calculateBinf (fin K) (fin F) (fin r) (fin sdb2) lamperti = fin Binf)
    (hne : Binf ≠ 0) :
    predictC (fin F) (fin K) (fin r) (fin B0) (fin Binf) (fin 0) (fin sdb2) lamperti 0 = fin 0
    ∧ ∀ t : ℝ,
        0 < 1 - B0 / Binf
          * (1 - Real.exp ((if lamperti ≠ 0 then r - F - 0.5 * sdb2 else r - F) * t)) →
        ∃ bt : ℝ,
          predictB (fin B0) (fin Binf) (fin F) (fin r) (fin K) (fin t) (fin sdb2) lamperti 0
            = fin bt
          ∧ HasDerivAt
              (fun s : ℝ => (predictC (fin F) (fin K) (fin r) (fin B0) (fin Binf) (fin s)
                (fin sdb2) lamperti 0).toFin)
              (F * bt) t := by
  have hB0' : B0 ≠ 0 := ne_of_gt hB0
  have hBeq := calculateBinf_eq_rate K F r sdb2 Binf lamperti hr hBinf
  generalize hrate : (if lamperti ≠ 0 then r - F - 0.5 * sdb2 else r - F) = rate at hBeq
  have hreal := fun t => predictC_analytic_real F K r B0 Binf t sdb2 lamperti hr hne
  have hBreal := fun t => predictB_analytic_real B0 Binf F r K t sdb2 lamperti hB0' hne
  simp only [hrate] at hreal hBreal
  refine ⟨?_, ?_⟩
  · rw [hreal 0 (by simp)]
    simp
  · intro t hA
    have hE : 0 < Real.exp (rate * t) := Real.exp_pos _
    have hEneg : Real.exp (-rate * t) = (Real.exp (rate * t))⁻¹ := by
      rw [neg_mul, Real.exp_neg]
    have hD : 1 / Binf + (1 / B0 - 1 / Binf) * Real.exp (-rate * t)
        = (1 - B0 / Binf * (1 - Real.exp (rate * t))) / (B0 * Real.exp (rate * t)) := by
      rw [hEneg]; field_simp; ring
    have hD0 : 1 / Binf + (1 / B0 - 1 / Binf) * Real.exp (-rate * t) ≠ 0 := by
      rw [hD]; exact div_ne_zero (ne_of_gt hA) (mul_ne_zero hB0' (ne_of_gt hE))
    refine ⟨_, hBreal t hD0, ?_⟩
    -- near `t` the argument of the logarithm stays positive
    have hcont : Continuous (fun s : ℝ => 1 - B0 / Binf * (1 - Real.exp (rate * s))) := by
      fun_prop
    have hev : ∀ᶠ s in nhds t, 0 < 1 - B0 / Binf * (1 - Real.exp (rate * s)) :=
      hcont.continuousAt.eventually (lt_mem_nhds hA)
    have heq : (fun s : ℝ => (predictC (fin F) (fin K) (fin r) (fin B0) (fin Binf) (fin s)
          (fin sdb2) lamperti 0).toFin)
        =ᶠ[nhds t] fun s : ℝ => K / r * F
          * Real.log (1 - B0 / Binf * (1 - Real.exp (rate * s))) := by
      filter_upwards [hev] with s hs
      rw [hreal s hs]; simp
    refine HasDerivAt.congr_of_eventuallyEq ?_ heq
    have h1 : HasDerivAt (fun s : ℝ => rate * s) rate t := by
      simpa using (hasDerivAt_id t).const_mul rate
    have h2 := h1.exp
    have h3 : HasDerivAt (fun s : ℝ => 1 - B0 / Binf * (1 - Real.exp (rate * s)))
        (B0 / Binf * (Real.exp (rate * t) * rate)) t := by
      have h4 := (h2.const_sub 1).const_mul (B0 / Binf)
      have h5 := h4.const_sub 1
      convert h5 using 1
      ring
    have h6 := (h3.log (ne_of_gt hA)).const_mul (K / r * F)
    convert h6 using 1
    rw [hD]
    have hA0 := ne_of_gt hA
    have hE0 := ne_of_gt hE
    have key : K * rate = r * Binf := by rw [hBeq]; field_simp
    generalize 1 - B0 / Binf * (1 - Real.exp (rate * t)) = A at hA0
    generalize Real.exp (rate * t) = E at hE0
    field_simp
    linear_combination (-(F * B0 * E * A)) * key

/-- C11 at `K=1000, F=0.1, r=0.2, sdb2=0, lamperti=0, B0=100`, where `Binf = 500`. -/
theorem predictC_analytic_integrates_harvest_witness :
    (0 : ℝ) < 100 ∧
    calculateBinf (fin (1000 : ℝ)) (fin 0.1) (fin 0.2) (fin 0) 0 = fin 500 ∧
    predictC (fin (0.1 : ℝ)) (fin 1000) (fin 0.2) (fin 100) (fin 500) (fin 0) (fin 0) 0 0
      = fin 0 :=
  ⟨by norm_num, by simp [calculateBinf]; norm_num,
   (predictC_analytic_integrates_harvest 1000 0.1 0.2 0 100 500 0 (by norm_num) (by norm_num)
    (by norm_num) (by simp [calculateBinf]; norm_num) (by norm_num)).1⟩

/-- The reciprocal of the analytical prediction is a convex combination of `1/Binf` and
`1/B0` with weight `e = exp(-rate*dt)` on `1/B0`. -/
theorem recip_between (u v e : ℝ) (hu : 0 < u) (hv : 0 < v) (he0 : 0 < e) (he1 : e ≤ 1) :
    0 < u + (v - u) * e ∧ min u v ≤ u + (v - u) * e ∧ u + (v - u) * e ≤ max u v := by
  have h1 : u + (v - u) * e = (1 - e) * u + e * v := by ring
  rcases le_total u v with huv | huv
  · refine ⟨by rw [h1]; nlinarith, ?_, ?_⟩
    · rw [min_eq_left huv]; nlinarith
    · rw [max_eq_right huv]; nlinarith
  · refine ⟨by rw [h1]; nlinarith, ?_, ?_⟩
    · rw [min_eq_right huv]; nlinarith
    · rw [max_eq_left huv]; nlinarith

/-- Strict form of `recip_between`: with `u ≠ v` and weight `0 < e < 1` the combination lies
strictly between `u` and `v`. -/
theorem recip_strictly_between (u v e : ℝ) (huv : u ≠ v) (he0 : 0 < e) (he1 : e < 1) :
    min u v < u + (v - u) * e ∧ u + (v - u) * e < max u v := by
  rcases lt_or_gt_of_ne huv with h | h
  · rw [min_eq_left h.le, max_eq_right h.le]
    constructor <;> nlinarith
  · rw [min_eq_right h.le, max_eq_left h.le]
    constructor <;> nlinarith

/-- Reciprocals reverse a strict enclosure between two positive numbers. -/
theorem inv_strictly_between (a c x : ℝ) (ha : 0 < a) (hc : 0 < c) (hx : 0 < x)
    (hlo : min a c < x) (hhi : x < max a c) :
    min (1 / a) (1 / c) < 1 / x ∧ 1 / x < max (1 / a) (1 / c) := by
  rcases le_total a c with hac | hac
  · rw [min_eq_left hac] at hlo
    rw [max_eq_right hac] at hhi
    have h1 : 1 / c ≤ 1 / a := one_div_le_one_div_of_le ha hac
    rw [min_eq_right h1, max_eq_left h1]
    exact ⟨one_div_lt_one_div_of_lt hx hhi, one_div_lt_one_div_of_lt ha hlo⟩
  · rw [min_eq_right hac] at hlo
    rw [max_eq_left hac] at hhi
    have h1 : 1 / a ≤ 1 / c := one_div_le_one_div_of_le hc hac
    rw [min_eq_left h1, max_eq_right h1]
    exact ⟨one_div_lt_one_div_of_lt hx hhi, one_div_lt_one_div_of_lt hc hlo⟩

/-- C17: for `B0 > 0`, `Binf > 0` and `rate*dt ≥ 0` (`rate` the drift `predictB` derives from
the flag), the analytical `predictB` is finite, strictly positive and between `B0` and
`Binf`; it is `B0` when `rate*dt = 0`, and for `B0 ≠ Binf` and `rate*dt > 0` it has left `B0`
and not reached `Binf`: it lies strictly between them.  It moves toward `Binf` monotonically:
for `rate*dt ≤ rate*dt'` the prediction at `dt'` lies between the one at `dt` and `Binf`,
strictly between them when `B0 ≠ Binf` and `rate*dt < rate*dt'`. -/
theorem predictB_analytic_toward_equilibrium (B0 Binf F r K sdb2 dt : ℝ) (lamperti : Int)
    (hB0 : 0 < B0) (hBinf : 0 < Binf)
    (hx : 0 ≤ (if lamperti ≠ 0 then r - F - 0.5 * sdb2 else r - F) * dt) :
    ∃ b : ℝ,
      predictB (fin B0) (fin Binf) (fin F) (fin r) (fin K) (fin dt) (fin sdb2) lamperti 0
        = fin b ∧
      0 < b ∧ min B0 Binf ≤ b ∧ b ≤ max B0 Binf ∧
      ((if lamperti ≠ 0 then r - F - 0.5 * sdb2 else r - F) * dt = 0 → b = B0) ∧
      (B0 ≠ Binf → 0 < (if lamperti ≠ 0 then r - F - 0.5 * sdb2 else r - F) * dt →
        min B0 Binf < b ∧ b < max B0 Binf) ∧
      ∀ dt' : ℝ,
        (if lamperti ≠ 0 then r - F - 0.5 * sdb2 else r - F) * dt
          ≤ (if lamperti ≠ 0 then r - F - 0.5 * sdb2 else r - F) * dt' →
        ∃ b' : ℝ,
          predictB (fin B0) (fin Binf) (fin F) (fin r) (fin K) (fin dt') (fin sdb2) lamperti 0
            = fin b' ∧
          min b Binf ≤ b' ∧ b' ≤ max b Binf ∧
          (B0 ≠ Binf →
            (if lamperti ≠ 0 then r - F - 0.5 * sdb2 else r - F) * dt
              < (if lamperti ≠ 0 then r - F - 0.5 * sdb2 else r - F) * dt' →
            min b Binf < b' ∧ b' < max b Binf) := by
  have hB0' : B0 ≠ 0 := ne_of_gt hB0
  have hBinf' : Binf ≠ 0 := ne_of_gt hBinf
  have hBreal := fun t => predictB_analytic_real B0 Binf F r K t sdb2 lamperti hB0' hBinf'
  generalize (if lamperti ≠ 0 then r - F - 0.5 * sdb2 else r - F) = rate at hx hBreal ⊢
  have hu : 0 < 1 / Binf := one_div_pos.mpr hBinf
  have hv : 0 < 1 / B0 := one_div_pos.mpr hB0
  have huv : B0 ≠ Binf → 1 / Binf ≠ 1 / B0 := by
    intro hne h
    apply hne
    have := congrArg (fun z => 1 / z) h
    simp only [one_div_one_div] at this
    exact this.symm
  -- the weight
  have hE : ∀ t : ℝ, 0 ≤ rate * t →
      0 < Real.exp (-rate * t) ∧ Real.exp (-rate * t) ≤ 1 := by
    intro t ht
    refine ⟨Real.exp_pos _, ?_⟩
    rw [Real.exp_le_one_iff]; linarith [neg_mul rate t]
  obtain ⟨he0, he1⟩ := hE dt hx
  obtain ⟨hD, hDlo, hDhi⟩ := recip_between _ _ _ hu hv he0 he1
  set D := 1 / Binf + (1 / B0 - 1 / Binf) * Real.exp (-rate * dt) with hDdef
  have hb : predictB (fin B0) (fin Binf) (fin F) (fin r) (fin K) (fin dt) (fin sdb2)
      lamperti 0 = fin (1 / D) := hBreal dt (ne_of_gt hD)
  have hinvu : 1 / (1 / Binf) = Binf := one_div_one_div Binf
  have hinvv : 1 / (1 / B0) = B0 := one_div_one_div B0
  -- bounds on `1/D` from bounds on `D`
  have hbounds : ∀ D' : ℝ, 0 < D' → ∀ a c : ℝ, 0 < a → 0 < c →
      min a c ≤ D' → D' ≤ max a c → min (1 / a) (1 / c) ≤ 1 / D' ∧ 1 / D' ≤ max (1 / a) (1 / c) := by
    intro D' hD' a c ha hc hlo hhi
    rcases le_total a c with hac | hac
    · rw [min_eq_left hac] at hlo
      rw [max_eq_right hac] at hhi
      have h1 : 1 / c ≤ 1 / a := one_div_le_one_div_of_le ha hac
      rw [min_eq_right h1, max_eq_left h1]
      exact ⟨one_div_le_one_div_of_le hD' hhi, one_div_le_one_div_of_le ha hlo⟩
    · rw [min_eq_right hac] at hlo
      rw [max_eq_left hac] at hhi
      have h1 : 1 / a ≤ 1 / c := one_div_le_one_div_of_le hc hac
      rw [min_eq_left h1, max_eq_right h1]
      exact ⟨one_div_le_one_div_of_le hD' hhi, one_div_le_one_div_of_le hc hlo⟩
  have hb1 := hbounds D hD (1 / Binf) (1 / B0) hu hv hDlo hDhi
  rw [hinvu, hinvv, min_comm, max_comm] at hb1
  refine ⟨1 / D, hb, one_div_pos.mpr hD, hb1.1, hb1.2, ?_, ?_, ?_⟩
  · intro h0
    have : Real.exp (-rate * dt) = 1 := by
      rw [neg_mul, h0, neg_zero, Real.exp_zero]
    rw [hDdef, this]
    simp
  · intro hne hpos
    have he1' : Real.exp (-rate * dt) < 1 := by
      rw [Real.exp_lt_one_iff]; linarith [neg_mul rate dt]
    obtain ⟨hs1, hs2⟩ := recip_strictly_between _ _ _ (huv hne) he0 he1'
    have hs := inv_strictly_between (1 / Binf) (1 / B0) D hu hv hD hs1 hs2
    rw [hinvu, hinvv, min_comm, max_comm] at hs
    exact hs
  · intro dt' hle
    have hx' : 0 ≤ rate * dt' := le_trans hx hle
    obtain ⟨he0', he1'⟩ := hE dt' hx'
    obtain ⟨hD', -, -⟩ := recip_between _ _ _ hu hv he0' he1'
    set D' := 1 / Binf + (1 / B0 - 1 / Binf) * Real.exp (-rate * dt') with hDpdef
    have hee : Real.exp (-rate * dt') ≤ Real.exp (-rate * dt) := by
      rw [Real.exp_le_exp]; linarith [neg_mul rate dt, neg_mul rate dt']
    refine ⟨1 / D', hBreal dt' (ne_of_gt hD'), ?_⟩
    have hmid : min (1 / Binf) D ≤ D' ∧ D' ≤ max (1 / Binf) D := by
      rcases le_total (1 / Binf) (1 / B0) with huv | huv
      · have h1 : 1 / Binf ≤ D' := by
          rw [hDpdef]; nlinarith [mul_nonneg (sub_nonneg.mpr huv) he0'.le]
        have h2 : D' ≤ D := by
          rw [hDpdef, hDdef]; nlinarith [mul_le_mul_of_nonneg_left hee (sub_nonneg.mpr huv)]
        exact ⟨le_trans (min_le_left _ _) h1, le_trans h2 (le_max_right _ _)⟩
      · have h1 : D' ≤ 1 / Binf := by
          rw [hDpdef]; nlinarith [mul_nonneg (sub_nonneg.mpr huv) he0'.le]
        have h2 : D ≤ D' := by
          rw [hDpdef, hDdef]; nlinarith [mul_le_mul_of_nonneg_left hee (sub_nonneg.mpr huv)]
        exact ⟨le_trans (min_le_right _ _) h2, le_trans h1 (le_max_left _ _)⟩
    have hb2 := hbounds D' hD' (1 / Binf) D hu hD hmid.1 hmid.2
    rw [hinvu, min_comm, max_comm] at hb2
    refine ⟨hb2.1, hb2.2, ?_⟩
    intro hne hlt
    -- `D'` is the combination of `1/Binf` and `D` with weight `exp(-rate*(dt'-dt))`
    have hw0 : 0 < Real.exp (-rate * dt' - -rate * dt) := Real.exp_pos _
    have hw1 : Real.exp (-rate * dt' - -rate * dt) < 1 := by
      rw [Real.exp_lt_one_iff]; linarith [neg_mul rate dt, neg_mul rate dt']
    have hsplit : Real.exp (-rate * dt')
        = Real.exp (-rate * dt) * Real.exp (-rate * dt' - -rate * dt) := by
      rw [← Real.exp_add]; congr 1; ring
    have hDD : D' = 1 / Binf + (D - 1 / Binf) * Real.exp (-rate * dt' - -rate * dt) := by
      rw [hDpdef, hDdef, hsplit]; ring
    have huD : 1 / Binf ≠ D := by
      intro h
      have h2 : (1 / B0 - 1 / Binf) * Real.exp (-rate * dt) = 0 := by
        rw [hDdef] at h; linarith
      rcases mul_eq_zero.1 h2 with h3 | h3
      · exact huv hne (by linarith)
      · exact (ne_of_gt he0) h3
    obtain ⟨hs1, hs2⟩ := recip_strictly_between (1 / Binf) D _ huD hw0 hw1
    rw [← hDD] at hs1 hs2
    have hs := inv_strictly_between (1 / Binf) D D' hu hD hD' hs1 hs2
    rw [hinvu, min_comm, max_comm] at hs
    exact hs

/-- C17 at `B0 = 100`, `Binf = 500`, `F = 0.1`, `r = 0.2`, `dt = 1`, `lamperti = 0`: the
prediction lies strictly between `100` and `500`. -/
theorem predictB_analytic_toward_equilibrium_witness :
    (0 : ℝ) < 100 ∧ (0 : ℝ) < 500 ∧
    ∃ b : ℝ,
      predictB (fin (100 : ℝ)) (fin 500) (fin 0.1) (fin 0.2) (fin 1000) (fin 1) (fin 0) 0 0
        = fin b ∧ 0 < b ∧ min 100 500 ≤ b ∧ b ≤ max 100 500 ∧
        min 100 500 < b ∧ b < max 100 500 := by
  obtain ⟨b, h1, h2, h3, h4, -, h5, -⟩ :=
    predictB_analytic_toward_equilibrium 100 500 0.1 0.2 1000 0 1 0
      (by norm_num) (by norm_num) (by norm_num)
  obtain ⟨h6, h7⟩ := h5 (by norm_num) (by norm_num)
  exact ⟨by norm_num, by norm_num, b, h1, h2, h3, h4, h6, h7⟩

end ClosedFormReal

section EquilibriumReal

theorem calculateBinf_real (K F r sdb2 : ℝ) (lamperti : Int) (hr : r ≠ 0) :
    calculateBinf (fin K) (fin F) (fin r) (fin sdb2) lamperti
      = fin (K * (if lamperti ≠ 0 then r - F - 0.5 * sdb2 else r - F) / r) := by
  by_cases hl : lamperti = 0
  · simp [calculateBinf, hl, hr]; field_simp
  · simp [calculateBinf, hl, hr]; field_simp

theorem referencePoints_real (K r sdb2 : ℝ) (lamperti : Int) :
    referencePoints (fin r) (fin K) (fin sdb2) lamperti
      = (fin (K / 2), fin (if lamperti ≠ 0 then r / 2 - 0.5 * sdb2 else r / 2),
          fin (K / 2 * (if lamperti ≠ 0 then r / 2 - 0.5 * sdb2 else r / 2))) := by
  by_cases hl : lamperti = 0 <;> simp [referencePoints, hl]

/-- C12 (amended): `MSY` is the equilibrium yield at `Fmsy`, where the equilibrium biomass is
`Bmsy = K/2`: `Fmsy * calculateBinf(K, Fmsy, r, sdb2, lamperti) = MSY` for either flag.  Every
constant `F` has an equilibrium yield `F * calculateBinf(K, F, ...)` of at most
`MSY + K*sdb2²/(16 r)` when `lamperti` is set (attained at `F = r/2 - sdb2/4`) and of at most
`MSY` when it is not; so `MSY` bounds the yield of every `F` exactly when `lamperti = 0` or
`sdb2 = 0`. -/
theorem msy_is_equilibrium_yield_at_Fmsy (K r sdb2 : ℝ) (lamperti : Int)
    (hK : 0 < K) (hr : 0 < r) (_hs : 0 ≤ sdb2) :
    ∃ fm m, referencePoints (fin r) (fin K) (fin sdb2) lamperti = (fin (K / 2), fin fm, fin m) ∧
      calculateBinf (fin K) (fin fm) (fin r) (fin sdb2) lamperti = fin (K / 2) ∧
      fm * (K / 2) = m ∧
      (∀ F, ∃ b, calculateBinf (fin K) (fin F) (fin r) (fin sdb2) lamperti = fin b ∧
        F * b ≤ m + (if lamperti ≠ 0 then K * sdb2 ^ 2 / (16 * r) else 0)) ∧
      (∃ b, calculateBinf (fin K) (fin (r / 2 - (if lamperti ≠ 0 then sdb2 / 4 else 0)))
          (fin r) (fin sdb2) lamperti = fin b ∧
        (r / 2 - (if lamperti ≠ 0 then sdb2 / 4 else 0)) * b
          = m + (if lamperti ≠ 0 then K * sdb2 ^ 2 / (16 * r) else 0)) ∧
      ((∀ F b, calculateBinf (fin K) (fin F) (fin r) (fin sdb2) lamperti = fin b → F * b ≤ m)
        ↔ (lamperti = 0 ∨ sdb2 = 0)) := by
  have hr0 : r ≠ 0 := ne_of_gt hr
  refine ⟨_, _, referencePoints_real K r sdb2 lamperti, ?_, by ring, ?_, ?_, ?_⟩
  · rw [calculateBinf_real _ _ _ _ _ hr0]
    congr 1
    by_cases hl : lamperti = 0
    · simp [hl]; field_simp; ring
    · simp [hl]; field_simp; ring
  · intro F
    refine ⟨_, calculateBinf_real _ _ _ _ _ hr0, ?_⟩
    by_cases hl : lamperti = 0
    · simp only [hl, ne_eq, not_true_eq_false, if_false, add_zero]
      have : K / 2 * (r / 2) - F * (K * (r - F) / r) = K / r * (F - r / 2) ^ 2 := by
        field_simp; ring
      have h2 : 0 ≤ K / r * (F - r / 2) ^ 2 := by positivity
      linarith
    · simp only [hl, ne_eq, not_false_eq_true, if_true]
      have : K / 2 * (r / 2 - 0.5 * sdb2) + K * sdb2 ^ 2 / (16 * r)
            - F * (K * (r - F - 0.5 * sdb2) / r) = K / r * (F - (r / 2 - sdb2 / 4)) ^ 2 := by
        field_simp; ring
      have h2 : 0 ≤ K / r * (F - (r / 2 - sdb2 / 4)) ^ 2 := by positivity
      linarith
  · refine ⟨_, calculateBinf_real _ _ _ _ _ hr0, ?_⟩
    by_cases hl : lamperti = 0
    · simp only [hl, ne_eq, not_true_eq_false, if_false, add_zero, sub_zero]
      field_simp; ring
    · simp only [hl, ne_eq, not_false_eq_true, if_true]
      field_simp; ring
  · constructor
    · intro hall
      by_contra hcon
      push_neg at hcon
      obtain ⟨hl, hs⟩ := hcon
      have h1 := hall (r / 2 - sdb2 / 4) _ (calculateBinf_real _ _ _ _ _ hr0)
      simp only [hl, ne_eq, not_false_eq_true, if_true] at h1
      have : (r / 2 - sdb2 / 4) * (K * (r - (r / 2 - sdb2 / 4) - 0.5 * sdb2) / r)
          - K / 2 * (r / 2 - 0.5 * sdb2) = K * sdb2 ^ 2 / (16 * r) := by
        field_simp; ring
      have hpos : 0 < K * sdb2 ^ 2 / (16 * r) := by
        have : 0 < sdb2 ^ 2 := by positivity
        positivity
      linarith
    · intro hcase F b hb
      rw [calculateBinf_real _ _ _ _ _ hr0] at hb
      cases hb
      have hrate : (if lamperti ≠ 0 then r - F - 0.5 * sdb2 else r - F) = r - F - (if lamperti ≠ 0 then 0.5 * sdb2 else 0) := by
        by_cases hl : lamperti = 0 <;> simp [hl]
      have hfm : (if lamperti ≠ 0 then r / 2 - 0.5 * sdb2 else r / 2) = r / 2 - (if lamperti ≠ 0 then 0.5 * sdb2 else 0) := by
        by_cases hl : lamperti = 0 <;> simp [hl]
      have hz : (if lamperti ≠ 0 then 0.5 * sdb2 else 0) = 0 := by
        rcases hcase with hl | hs
        · simp [hl]
        · simp [hs]
      rw [hrate, hfm, hz]
      have : K / 2 * (r / 2 - 0) - F * (K * (r - F - 0) / r) = K / r * (F - r / 2) ^ 2 := by
        field_simp; ring
      have h2 : 0 ≤ K / r * (F - r / 2) ^ 2 := by positivity
      linarith

/-- C12 at `K = 1000`, `r = 0.2`, `sdb2 = 0`, `lamperti = 0`. -/
theorem msy_is_equilibrium_yield_at_Fmsy_witness :
    ∃ fm m, referencePoints (fin (0.2 : ℝ)) (fin 1000) (fin 0) 0 = (fin (1000 / 2), fin fm, fin m) ∧
      calculateBinf (fin (1000 : ℝ)) (fin fm) (fin 0.2) (fin 0) 0 = fin (1000 / 2) ∧
      fm * (1000 / 2) = m ∧
      ((∀ F b, calculateBinf (fin (1000 : ℝ)) (fin F) (fin 0.2) (fin 0) 0 = fin b → F * b ≤ m)
        ↔ ((0 : Int) = 0 ∨ (0 : ℝ) = 0)) := by
  obtain ⟨fm, m, h1, h2, h3, -, -, h6⟩ :=
    msy_is_equilibrium_yield_at_Fmsy 1000 0.2 0 0 (by norm_num) (by norm_num) (le_refl 0)
  exact ⟨fm, m, h1, h2, h3, h6⟩

/-- C12 as stated fails: with `K = 1000`, `r = 0.2`, `sdb2 = 0.04` and `lamperti` set the
evaluator has `Fmsy = 0.08` and `MSY = 40`, while `F = 0.09` has the equilibrium biomass
`450` and the equilibrium yield `0.09 * 450 = 40.5`. -/
theorem msy_exceeded_under_lamperti :
    referencePoints (fin (0.2 : ℝ)) (fin 1000) (fin 0.04) 1 = (fin 500, fin 0.08, fin 40) ∧
    calculateBinf (fin (1000 : ℝ)) (fin 0.09) (fin 0.2) (fin 0.04) 1 = fin 450 ∧
    (40 : ℝ) < 0.09 * 450 := by
  refine ⟨?_, ?_, by norm_num⟩
  · rw [referencePoints_real]; norm_num
  · rw [calculateBinf_real _ _ _ _ _ (by norm_num)]; norm_num

end EquilibriumReal

section Forecast

variable {α : Type} [LinearOrderedField α] [FloorRing α] [Transc α]

theorem objective_inv2 (d : Data α) (p : Params α) (rep : Report α)
    (h : objective_function d p = .ok rep) :
    ∃ rvec ansF Binf sB Cps P sC sI l1 l2 rvl Bl,
      StagesOk d p rvec ansF Binf sB Cps P sC sI l1 l2 rvl Bl ∧
      ReportOf d p rep rvec Binf sB Cps sC sI ∧ ForecastOf d p rep P l1 l2 rvl Bl := by
  unfold objective_function at h
  simp only [bind, Except.bind, pure, Except.pure, throw, throwThe, MonadExceptOf.throw] at h
  split at h
  · cases h
  rename_i hns
  split at h; · cases h
  rename_i rvec h1
  split at h; · cases h
  rename_i ansF h2
  split at h; · cases h
  rename_i Binf h3
  split at h; · cases h
  rename_i sB h4
  split at h; · cases h
  rename_i Cps h5
  split at h; · cases h
  rename_i P h6
  split at h; · cases h
  rename_i sC h7
  split at h; · cases h
  rename_i sI h8
  split at h; · cases h
  rename_i l1 h9
  split at h; · cases h
  rename_i l2 h10
  split at h; · cases h
  rename_i rvl h11
  split at h; · cases h
  rename_i Bl h12
  cases h
  exact ⟨rvec, ansF, Binf, sB, Cps, P, sC, sI, l1, l2, rvl, Bl,
    ⟨hns, h1, h2, h3, h4, h5, h6, h7, h8, h9, h10, h11, h12⟩,
    ⟨rfl, rfl, rfl, rfl, rfl, rfl, rfl, rfl, rfl, rfl, rfl, rfl, rfl⟩,
    ⟨rfl, rfl, rfl, rfl, rfl, rfl, rfl, rfl, rfl, rfl, rfl⟩⟩

theorem objective_intro2 (d : Data α) (p : Params α) {rvec : List (Val α)} {ansF : Val α}
    {Binf : List (Val α)} {sB : Val α × List (Val α)} {Cps P : List (Val α)}
    {sC : Val α × List (Val α) × List (Val α)} {sI : Val α × List (Option (Val α))}
    {l1 l2 : α} {rvl Bl : Val α}
    (h : StagesOk d p rvec ansF Binf sB Cps P sC sI l1 l2 rvl Bl) :
    ∃ rep, objective_function d p = .ok rep ∧ ReportOf d p rep rvec Binf sB Cps sC sI ∧
      ForecastOf d p rep P l1 l2 rvl Bl := by
  obtain ⟨hns, h1, h2, h3, h4, h5, h6, h7, h8, h9, h10, h11, h12⟩ := h
  unfold objective_function
  simp only [bind, Except.bind, pure, Except.pure, throw, throwThe, MonadExceptOf.throw,
    hns, if_false, h1, h2, h3, h4, h5, h6, h7, h8, h9, h10, h11, h12]
  exact ⟨_, rfl, ⟨rfl, rfl, rfl, rfl, rfl, rfl, rfl, rfl, rfl, rfl, rfl, rfl, rfl⟩,
    ⟨rfl, rfl, rfl, rfl, rfl, rfl, rfl, rfl, rfl, rfl, rfl⟩⟩

/-- Elements of `rvec` (lines 141-150). -/
theorem rvecLoop_get (isum : List α) (gamma r : Val α) (ns : Nat) (rvec : List (Val α))
    (h : rvecLoop isum gamma r ns = .ok rvec) :
    rvec.length = ns ∧ ∀ k, k < ns → ∃ s, isum[k]? = some s ∧
      rvec[k]? = some (if s = 1 then gamma * r else r) := by
  unfold rvecLoop at h
  have hlen := fillLoop_ok_length _ _ _ h
  refine ⟨hlen, fun k hk => ?_⟩
  have hk' : k < rvec.length := by omega
  have hg := fillLoop_ok_get _ _ _ h k hk'
  simp only [zero_add, bind, Except.bind, pure, Except.pure] at hg
  split at hg; · cases hg
  rename_i s hs
  simp only [Except.ok.injEq] at hg
  exact ⟨s, (rd_natCast _ _ _).1 hs, by rw [List.getElem?_eq_getElem hk', ← hg]⟩

/-- Elements of `Binf` (line 185). -/
theorem binfLoop_get (F rvec : List (Val α)) (K sdb2 : Val α) (lamperti : Int) (ns : Nat)
    (Binf : List (Val α)) (h : binfLoop F rvec K sdb2 lamperti ns = .ok Binf) :
    Binf.length = ns ∧ ∀ k, k < ns → ∃ f rv, F[k]? = some f ∧ rvec[k]? = some rv ∧
      Binf[k]? = some (calculateBinf K f rv sdb2 lamperti) := by
  unfold binfLoop at h
  have hlen := fillLoop_ok_length _ _ _ h
  refine ⟨hlen, fun k hk => ?_⟩
  have hk' : k < Binf.length := by omega
  have hg := fillLoop_ok_get _ _ _ h k hk'
  simp only [zero_add, bind, Except.bind, pure, Except.pure] at hg
  split at hg; · cases hg
  rename_i f hf
  split at hg; · cases hg
  rename_i rv hrv
  simp only [Except.ok.injEq] at hg
  exact ⟨f, rv, (rd_natCast _ _ _).1 hf, (rd_natCast _ _ _).1 hrv,
    by rw [List.getElem?_eq_getElem hk', ← hg]⟩

/-- Elements of `Cpredsub` (lines 201-204). -/
theorem catchPredLoop_get (dt : List α) (B Binf F rvec : List (Val α)) (K sdb2 : Val α)
    (lamperti euler : Int) (ns : Nat) (Cps : List (Val α))
    (h : catchPredLoop dt B Binf F rvec K sdb2 lamperti euler ns = .ok Cps) :
    Cps.length = ns - 1 ∧ ∀ k, k < ns - 1 → ∃ f rv b binf t, F[k]? = some f ∧
      rvec[k]? = some rv ∧ B[k]? = some b ∧ Binf[k]? = some binf ∧ dt[k]? = some t ∧
      Cps[k]? = some (predictC f K rv b binf (fin t) sdb2 lamperti euler) := by
  unfold catchPredLoop at h
  have hlen := fillLoop_ok_length _ _ _ h
  refine ⟨hlen, fun k hk => ?_⟩
  have hk' : k < Cps.length := by omega
  have hg := fillLoop_ok_get _ _ _ h k hk'
  simp only [zero_add, bind, Except.bind, pure, Except.pure] at hg
  split at hg; · cases hg
  rename_i f hf
  split at hg; · cases hg
  rename_i rv hrv
  split at hg; · cases hg
  rename_i b hb
  split at hg; · cases hg
  rename_i binf hbinf
  split at hg; · cases hg
  rename_i t ht
  simp only [Except.ok.injEq] at hg
  exact ⟨f, rv, b, binf, t, (rd_natCast _ _ _).1 hf, (rd_natCast _ _ _).1 hrv,
    (rd_natCast _ _ _).1 hb, (rd_natCast _ _ _).1 hbinf, (rd_natCast _ _ _).1 ht,
    by rw [List.getElem?_eq_getElem hk', ← hg]⟩

/-- Elements of `Bpred` (line 191): the pass `i` assigns `Bpred(i+1)` from `B(i)`, `dt(i)`
and the elements `i+1` of `Binf`, `F` and `rvec`. -/
theorem biomassLoop_get (dt logB : List α) (B Binf F rvec : List (Val α)) (K sdb sdb2 : Val α)
    (lamperti euler : Int) (ns : Nat) (ans : Val α) (sB : Val α × List (Val α))
    (h : biomassLoop dt logB B Binf F rvec K sdb sdb2 lamperti euler ns ans = .ok sB) :
    sB.2.length = ns - 1 ∧ ∀ k, k < ns - 1 → ∃ b binf f rv t, B[k]? = some b ∧
      Binf[k + 1]? = some binf ∧ F[k + 1]? = some f ∧ rvec[k + 1]? = some rv ∧
      dt[k]? = some t ∧
      sB.2[k]? = some (predictB b binf f rv K (fin t) sdb2 lamperti euler) := by
  rw [biomassLoop_eq] at h
  cases hfill : fillLoop (biomassStep dt logB B Binf F rvec K sdb sdb2 lamperti euler)
      (ns - 1) 0 with
  | error e => rw [hfill] at h; cases h
  | ok os =>
    rw [hfill] at h
    simp only [Except.ok.injEq] at h
    subst h
    have hlen := fillLoop_ok_length _ _ _ hfill
    refine ⟨by simpa using hlen, fun k hk => ?_⟩
    have hk' : k < os.length := by omega
    have hg := fillLoop_ok_get _ _ _ hfill k hk'
    simp only [zero_add] at hg
    obtain ⟨b, binf, f, rv, t, lb, hb, hbinf, hf, hrv, ht, -, ho, -⟩ :=
      biomassStep_ok _ _ _ _ _ _ _ _ _ _ _ _ _ hg
    have e1 : ((k : Int) + 1) = ((k + 1 : Nat) : Int) := by push_cast; rfl
    rw [e1] at hbinf hf hrv
    exact ⟨b, binf, f, rv, t, (rd_natCast _ _ _).1 hb, (rd_natCast _ _ _).1 hbinf,
      (rd_natCast _ _ _).1 hf, (rd_natCast _ _ _).1 hrv, (rd_natCast _ _ _).1 ht,
      by simp only [List.getElem?_map, List.getElem?_eq_getElem hk', Option.map_some', ho]⟩

end Forecast

section IndexSafety

variable {α : Type} [LinearOrderedField α] [FloorRing α] [Transc α]

theorem Integer_of_nonneg (x : α) (h : 0 ≤ x) : Integer x = ⌊x⌋ := by
  unfold Integer
  rw [if_pos h]

/-- C15: under the data-model invariants (`ns ≥ 1`, `1 ≤ delay ≤ ns`, `logB` and `isum` of
length `ns`, `dt` of length `ns-1`, `Cobs`, `ic`, `nc` of equal length with every span
`[ic[i]-1, ic[i]-1+nc[i])` inside `[0, ns-1)`, `I` and `ii` of equal length with every
`ii[i]-1` in `[0, ns)`) every element the evaluation reads exists and has been assigned,
and the evaluation returns a report, not a fault. -/
theorem index_safety (d : Data α) (p : Params α)
    (hns : 1 ≤ p.logF.length) (hd1 : 1 ≤ d.delay) (hd2 : d.delay ≤ (p.logF.length : Int))
    (hlogB : p.logB.length = p.logF.length) (hisum : d.isum.length = p.logF.length)
    (hdt : d.dt.length = p.logF.length - 1)
    (hic : d.ic.length = d.Cobs.length) (hnc : d.nc.length = d.Cobs.length)
    (hspan : ∀ i (h1 : i < d.ic.length) (h2 : i < d.nc.length),
      0 ≤ d.ic[i] - 1 ∧ d.ic[i] - 1 + d.nc[i] ≤ (p.logF.length : α) - 1)
    (hii : d.ii.length = d.I.length)
    (hknot : ∀ i (h : i < d.ii.length), 0 ≤ d.ii[i] - 1 ∧ d.ii[i] - 1 < (p.logF.length : α)) :
    ReadsInRange d p ∧ ∃ rep, objective_function d p = .ok rep := by
  have hr : ReadsInRange d p := by
    refine ⟨hns, hd1, hd2, by omega, by omega, by omega, ?_, ?_⟩
    · intro i hi
      have h1 : i < d.ic.length := by omega
      have h2 : i < d.nc.length := by omega
      refine ⟨d.nc[i], List.getElem?_eq_getElem h2, fun _ => ⟨d.ic[i],
        List.getElem?_eq_getElem h1, ?_, ?_⟩⟩
      · rw [Integer_of_nonneg _ (hspan i h1 h2).1]
        exact Int.floor_nonneg.2 (hspan i h1 h2).1
      · rw [Integer_of_nonneg _ (hspan i h1 h2).1]
        have hf : ((⌊d.ic[i] - 1⌋ : Int) : α) ≤ d.ic[i] - 1 := Int.floor_le _
        have hc : ((⌈d.nc[i]⌉ : Int) : α) < d.nc[i] + 1 := Int.ceil_lt_add_one _
        have hlt : ((⌊d.ic[i] - 1⌋ + ⌈d.nc[i]⌉ : Int) : α) < ((p.logF.length : Int) : α) := by
          push_cast
          linarith [(hspan i h1 h2).2]
        have := Int.cast_lt.1 hlt
        omega
    · intro i hi _
      have h1 : i < d.ii.length := by omega
      refine ⟨d.ii[i], List.getElem?_eq_getElem h1, ?_, ?_⟩
      · rw [Integer_of_nonneg _ (hknot i h1).1]
        exact Int.floor_nonneg.2 (hknot i h1).1
      · rw [Integer_of_nonneg _ (hknot i h1).1, hlogB]
        have hf : ((⌊d.ii[i] - 1⌋ : Int) : α) ≤ d.ii[i] - 1 := Int.floor_le _
        have hlt : ((⌊d.ii[i] - 1⌋ : Int) : α) < ((p.logF.length : Int) : α) := by
          push_cast
          linarith [(hknot i h1).2]
        exact Int.cast_lt.1 hlt
  exact ⟨hr, ok_of_readsInRange d p hr⟩

end IndexSafety

section IndexSafetyWitness

/-- C15 on the example input: three knots, `delay = 1`, one catch observation with the span
`[0, 2)`, index observations at the knots `0, 1, 2`. -/
theorem index_safety_witness :
    ∃ rep, objective_function (exampleData ℝ) (exampleParams ℝ) = .ok rep := by
  refine (index_safety (exampleData ℝ) (exampleParams ℝ) (by simp [exampleParams])
    (by simp [exampleData]) (by simp [exampleData, exampleParams]) (by simp [exampleParams])
    (by simp [exampleData, exampleParams]) (by simp [exampleData, exampleParams])
    (by simp [exampleData]) (by simp [exampleData]) ?_ (by simp [exampleData]) ?_).2
  · intro i h1 h2
    have hi : i = 0 := by simpa [exampleData] using h1
    subst hi
    simp only [exampleData, exampleParams, List.getElem_cons_zero, List.length_cons,
      List.length_nil]
    norm_num
  · intro i h
    have hi : i < 3 := by simpa [exampleData] using h
    simp only [exampleData, exampleParams, List.length_cons, List.length_nil]
    interval_cases i <;> norm_num

end IndexSafetyWitness

section IntervalConvention

theorem twoKnot_readsInRange : ReadsInRange (twoKnotData ℝ) (twoKnotParams ℝ) := by
  refine ⟨by simp [twoKnotParams], by simp [twoKnotData], by simp [twoKnotData, twoKnotParams],
    by simp [twoKnotData, twoKnotParams], by simp [twoKnotParams],
    by simp [twoKnotData, twoKnotParams], ?_, ?_⟩
  · intro i hi
    simp [twoKnotData] at hi
  · intro i hi
    simp [twoKnotData] at hi

theorem predictB_euler_real (B0 F r K t sdb2 : ℝ) (Binf : Val ℝ) (lamperti euler : Int)
    (he : euler ≠ 0) (hB0 : 0 < B0) (hK : K ≠ 0) :
    predictB (fin B0) Binf (fin F) (fin r) (fin K) (fin t) (fin sdb2) lamperti euler
      = fin (Real.exp (Real.log B0 + (r - F - 0.5 * sdb2 - r / K * B0) * t)) := by
  simp [predictB, he, hB0, hK]

/-- C13 on the two-knot input (`F = [exp 0, exp 1]`, `B[0] = r = K = sdb2 = 1`, `dt[0] = 1`,
Euler scheme): the evaluation assigns to `Bpred[1]` the value of
`predictB(B[0], Binf[1], F[1], rvec[1], K, dt[0], ...)`, which is `exp(-0.5 - exp 1)`; the
prediction from the quantities of the interval starting at knot 0,
`predictB(B[0], Binf[0], F[0], rvec[0], K, dt[0], ...)`, is `exp(-1.5)`, a different number. -/
theorem biomass_prediction_reads_next_knot :
    ∃ rep binf0 binf1 rv0 rv1,
      objective_function (twoKnotData ℝ) (twoKnotParams ℝ) = .ok rep ∧
      rep.Binf[0]? = some binf0 ∧ rep.Binf[1]? = some binf1 ∧
      rep.rvec[0]? = some rv0 ∧ rep.rvec[1]? = some rv1 ∧
      rep.Bpred[1]? = some (some (predictB (exp (fin 0)) binf1 (exp (fin 1)) rv1 rep.K (fin 1)
        (exp (fin 0) * exp (fin 0)) 1 1)) ∧
      rep.Bpred[1]? = some (some (fin (Real.exp (-0.5 - Real.exp 1)))) ∧
      predictB (exp (fin 0)) binf0 (exp (fin 0)) rv0 rep.K (fin 1)
        (exp (fin 0) * exp (fin 0)) 1 1 = fin (Real.exp (-1.5)) ∧
      Real.exp (-0.5 - Real.exp 1) ≠ Real.exp (-1.5) := by
  obtain ⟨rep, h⟩ := ok_of_readsInRange _ _ twoKnot_readsInRange
  obtain ⟨rvec, ansF, Binf, sB, Cps, P, sC, sI, l1, l2, rvl, Bl, hst, hrep, -⟩ :=
    objective_inv2 _ _ rep h
  obtain ⟨-, h1, -, h3, h4, -⟩ := hst
  obtain ⟨-, -, hK, hrvec, hBinf, hBpred, -⟩ := hrep
  obtain ⟨-, hrv⟩ := rvecLoop_get _ _ _ _ _ h1
  obtain ⟨-, hbi⟩ := binfLoop_get _ _ _ _ _ _ _ h3
  obtain ⟨-, hbp⟩ := biomassLoop_get _ _ _ _ _ _ _ _ _ _ _ _ _ _ h4
  obtain ⟨s0, hs0, hr0⟩ := hrv 0 (by simp [twoKnotParams])
  obtain ⟨s1, hs1, hr1⟩ := hrv 1 (by simp [twoKnotParams])
  obtain ⟨f0, rv0, -, hrv0, hb0⟩ := hbi 0 (by simp [twoKnotParams])
  obtain ⟨f1, rv1, -, hrv1, hb1⟩ := hbi 1 (by simp [twoKnotParams])
  obtain ⟨b, binf, f, rv, t, hb, hbinf, hf, hrv', ht, hsB⟩ := hbp 0 (by simp [twoKnotParams])
  simp only [twoKnotData, List.getElem?_cons_zero, List.getElem?_cons_succ,
    Option.some.injEq] at hs0 hs1 ht
  subst hs0 hs1 ht
  simp only [twoKnotParams, List.map_cons, List.getElem?_cons_zero, List.getElem?_cons_succ,
    zero_add, Option.some.injEq] at hb hf
  subst hb hf
  rw [hr0] at hrv0
  rw [hr1] at hrv1
  simp only [Option.some.injEq] at hrv0 hrv1
  subst hrv0 hrv1
  simp only [zero_add] at hbinf hrv'
  rw [hb1] at hbinf
  rw [hr1] at hrv'
  simp only [Option.some.injEq] at hbinf hrv'
  subst hbinf hrv'
  have hB1 : rep.Bpred[1]? = some (some (predictB (exp (fin (0 : ℝ)))
      (calculateBinf (exp (fin (twoKnotParams ℝ).logK)) (exp (fin 1))
        (if (0 : ℝ) = 1 then exp (fin (twoKnotParams ℝ).loggamma) * exp (fin (twoKnotParams ℝ).logr)
          else exp (fin (twoKnotParams ℝ).logr))
        (exp (fin (twoKnotParams ℝ).logsdb) * exp (fin (twoKnotParams ℝ).logsdb))
        (twoKnotData ℝ).lamperti)
      (exp (fin 1))
      (if (0 : ℝ) = 1 then exp (fin (twoKnotParams ℝ).loggamma) * exp (fin (twoKnotParams ℝ).logr)
          else exp (fin (twoKnotParams ℝ).logr))
      (exp (fin (twoKnotParams ℝ).logK)) (fin 1)
      (exp (fin (twoKnotParams ℝ).logsdb) * exp (fin (twoKnotParams ℝ).logsdb))
      (twoKnotData ℝ).lamperti (twoKnotData ℝ).euler)) := by
    rw [hBpred, List.getElem?_cons_succ, List.getElem?_map, hsB]
    rfl
  refine ⟨rep, _, _, _, _, h, by rw [hBinf]; exact hb0, by rw [hBinf]; exact hb1,
    by rw [hrvec]; exact hr0, by rw [hrvec]; exact hr1, ?_, ?_, ?_, ?_⟩
  · rw [hB1, hK]; rfl
  · rw [hB1]
    simp only [twoKnotParams, twoKnotData, zero_ne_one, if_false, Val.exp_fin,
      Transc.exp_real, Real.exp_zero, Val.fin_mul_fin]
    rw [predictB_euler_real _ _ _ _ _ _ _ _ _ (by norm_num) (by norm_num) (by norm_num)]
    have e : (0 + (1 - Real.exp 1 - 0.5 * (1 * 1) - 1 / 1 * 1) * 1 : ℝ)
        = -0.5 - Real.exp 1 := by ring
    rw [Real.log_one, e]
  · rw [hK]
    simp only [twoKnotParams, twoKnotData, zero_ne_one, if_false, Val.exp_fin,
      Transc.exp_real, Real.exp_zero, Val.fin_mul_fin]
    rw [predictB_euler_real _ _ _ _ _ _ _ _ _ (by norm_num) (by norm_num) (by norm_num)]
    have e : (0 + (1 - 1 - 0.5 * (1 * 1) - 1 / 1 * 1) * 1 : ℝ) = -1.5 := by norm_num
    rw [Real.log_one, e]
  · intro heq
    have := Real.exp_injective heq
    have h1 : Real.exp 1 = 1 := by linarith
    have h2 : (1 : ℝ) + 1 ≤ Real.exp 1 := Real.add_one_le_exp 1
    linarith

end IntervalConvention

section EulerFlag

variable {α : Type} [LinearOrderedField α] [FloorRing α] [Transc α]

theorem predictB_euler_flag (B0 Binf Binf' F r K dt sdb2 : Val α) (l l' e : Int) (he : e ≠ 0) :
    predictB B0 Binf F r K dt sdb2 l e = predictB B0 Binf' F r K dt sdb2 l' e := by
  simp [predictB, he]

theorem predictC_euler_flag (F K r B0 Binf Binf' dt sdb2 : Val α) (l l' e : Int) (he : e ≠ 0) :
    predictC F K r B0 Binf dt sdb2 l e = predictC F K r B0 Binf' dt sdb2 l' e := by
  simp [predictC, he]

theorem rd_same_length {β : Type} (v w : List β) (hlen : v.length = w.length) (i : Int) (x : β)
    (h : rd v i = .ok x) : ∃ y, rd w i = .ok y := by
  obtain ⟨h0, hx⟩ := (rd_ok_iff _ _ _).1 h
  have hlt := getElem?_some_lt _ _ _ hx
  exact rd_total w i h0 (by omega)

theorem binfLoop_flag (F rvec : List (Val α)) (K sdb2 : Val α) (l l' : Int) (ns : Nat)
    (Binf : List (Val α)) (h : binfLoop F rvec K sdb2 l ns = .ok Binf) :
    ∃ Binf', binfLoop F rvec K sdb2 l' ns = .ok Binf' ∧ Binf'.length = Binf.length := by
  obtain ⟨hlen, hget⟩ := binfLoop_get _ _ _ _ _ _ _ h
  obtain ⟨Binf', h'⟩ : ∃ Binf', binfLoop F rvec K sdb2 l' ns = .ok Binf' := by
    unfold binfLoop
    apply fillLoop_total
    intro j hj
    obtain ⟨f, rv, hf, hrv, -⟩ := hget j hj
    have hf' := (rd_natCast _ _ _).2 hf
    have hrv' := (rd_natCast _ _ _).2 hrv
    exact ⟨_, by simp only [zero_add, bind, Except.bind, pure, Except.pure, hf', hrv']; rfl⟩
  exact ⟨Binf', h', by rw [(binfLoop_get _ _ _ _ _ _ _ h').1, hlen]⟩

theorem biomassStep_flag (dt logB : List α) (B Binf Binf' F rvec : List (Val α))
    (K sdb sdb2 : Val α) (l l' e : Int) (he : e ≠ 0) (hlen : Binf.length = Binf'.length)
    (i : Int) (o : Val α × Val α)
    (h : biomassStep dt logB B Binf F rvec K sdb sdb2 l e i = .ok o) :
    biomassStep dt logB B Binf' F rvec K sdb sdb2 l' e i = .ok o := by
  obtain ⟨b, binf, f, rv, t, lb, hb, hbinf, hf, hrv, ht, hlb, ho1, ho2⟩ :=
    biomassStep_ok _ _ _ _ _ _ _ _ _ _ _ _ _ h
  obtain ⟨binf', hbinf'⟩ := rd_same_length _ _ hlen _ _ hbinf
  unfold biomassStep
  simp only [bind, Except.bind, pure, Except.pure, hb, hbinf', hf, hrv, ht, hlb]
  rw [predictB_euler_flag b binf' binf f rv K (fin t) sdb2 l' l e he, ← ho1]
  rw [ho1] at ho2
  rw [← ho1] at ho2
  rw [← ho2]

theorem biomassLoop_flag (dt logB : List α) (B Binf Binf' F rvec : List (Val α))
    (K sdb sdb2 : Val α) (l l' e : Int) (he : e ≠ 0) (hlen : Binf.length = Binf'.length)
    (ns : Nat) (ans : Val α) (sB : Val α × List (Val α))
    (h : biomassLoop dt logB B Binf F rvec K sdb sdb2 l e ns ans = .ok sB) :
    biomassLoop dt logB B Binf' F rvec K sdb sdb2 l' e ns ans = .ok sB := by
  rw [biomassLoop_eq] at h ⊢
  cases hfill : fillLoop (biomassStep dt logB B Binf F rvec K sdb sdb2 l e) (ns - 1) 0 with
  | error e => rw [hfill] at h; cases h
  | ok os =>
    rw [hfill] at h
    have hlen2 := fillLoop_ok_length _ _ _ hfill
    have h' : fillLoop (biomassStep dt logB B Binf' F rvec K sdb sdb2 l' e) (ns - 1) 0
        = .ok os :=
      fillLoop_of_get _ _ _ hlen2 (fun k hk =>
        biomassStep_flag _ _ _ _ _ _ _ _ _ _ _ _ _ he hlen _ _
          (fillLoop_ok_get _ _ _ hfill k hk))
    rw [h']
    exact h

theorem catchPredLoop_flag (dt : List α) (B Binf Binf' F rvec : List (Val α)) (K sdb2 : Val α)
    (l l' e : Int) (he : e ≠ 0) (hlen : Binf.length = Binf'.length) (ns : Nat)
    (Cps : List (Val α)) (h : catchPredLoop dt B Binf F rvec K sdb2 l e ns = .ok Cps) :
    catchPredLoop dt B Binf' F rvec K sdb2 l' e ns = .ok Cps := by
  obtain ⟨hl, hget⟩ := catchPredLoop_get _ _ _ _ _ _ _ _ _ _ _ h
  unfold catchPredLoop
  refine fillLoop_of_get _ _ _ hl (fun k hk => ?_)
  obtain ⟨f, rv, b, binf, t, hf, hrv, hb, hbinf, ht, hc⟩ := hget k (by omega)
  have hf' := (rd_natCast _ _ _).2 hf
  have hrv' := (rd_natCast _ _ _).2 hrv
  have hb' := (rd_natCast _ _ _).2 hb
  have ht' := (rd_natCast _ _ _).2 ht
  obtain ⟨binf', hbinf'⟩ := rd_same_length _ _ hlen _ _ ((rd_natCast _ _ _).2 hbinf)
  simp only [zero_add, bind, Except.bind, pure, Except.pure, hf', hrv', hb', hbinf', ht']
  rw [List.getElem?_eq_getElem hk] at hc
  simp only [Option.some.injEq] at hc
  rw [hc, predictC_euler_flag f K rv b binf' binf (fin t) sdb2 l' l e he]

/-- C14 (amended): with `euler` set, `predictB` and `predictC` do not depend on the
`lamperti` flag (nor on `Binf`), for all arguments.  Consequently an evaluation with `euler`
set returns with either value of the `lamperti` flag or with neither, and the returned
negative log-likelihood, `rvec`, `Bpred`, `Cpredsub`, `P`, `Cpred`, `logCpred`, `logIpred`
and the forecasts `Fp`, `Bp`, `Cp`, `logIp` are the same.  (`Binf`, `Fmsy`, `MSY`, `Binfp`,
`Cinfp` and `Bpmsy` are computed from the flag as given.) -/
theorem euler_overrides_lamperti_in_predictions (d : Data α) (p : Params α) (rep : Report α)
    (l' : Int) (he : d.euler ≠ 0) (h : objective_function d p = .ok rep) :
    (∀ (B0 Binf F r K dt sdb2 : Val α) (e : Int), e ≠ 0 →
      predictB B0 Binf F r K dt sdb2 0 e = predictB B0 Binf F r K dt sdb2 1 e ∧
      predictC F K r B0 Binf dt sdb2 0 e = predictC F K r B0 Binf dt sdb2 1 e) ∧
    ∃ rep', objective_function { d with lamperti := l' } p = .ok rep' ∧
      rep'.ans = rep.ans ∧ rep'.rvec = rep.rvec ∧ rep'.Bpred = rep.Bpred ∧
      rep'.Cpredsub = rep.Cpredsub ∧ rep'.P = rep.P ∧ rep'.Cpred = rep.Cpred ∧
      rep'.logCpred = rep.logCpred ∧ rep'.logIpred = rep.logIpred ∧
      rep'.logFp = rep.logFp ∧ rep'.Fp = rep.Fp ∧ rep'.Bp = rep.Bp ∧ rep'.Cp = rep.Cp ∧
      rep'.logIp = rep.logIp := by
  refine ⟨fun B0 Binf F r K dt sdb2 e he' =>
    ⟨predictB_euler_flag _ _ _ _ _ _ _ _ _ _ _ he',
     predictC_euler_flag _ _ _ _ _ _ _ _ _ _ _ he'⟩, ?_⟩
  obtain ⟨rvec, ansF, Binf, sB, Cps, P, sC, sI, l1, l2, rvl, Bl, hst, hrep, hfc⟩ :=
    objective_inv2 d p rep h
  obtain ⟨hns, h1, h2, h3, h4, h5, h6, h7, h8, h9, h10, h11, h12⟩ := hst
  obtain ⟨Binf', h3', hlen⟩ := binfLoop_flag _ _ _ _ _ l' _ _ h3
  have h4' := biomassLoop_flag _ _ _ _ Binf' _ _ _ _ _ _ l' _ he hlen.symm _ _ _ h4
  have h5' := catchPredLoop_flag _ _ _ Binf' _ _ _ _ _ l' _ he hlen.symm _ _ h5
  have hst' : StagesOk { d with lamperti := l' } p rvec ansF Binf' sB Cps P sC sI l1 l2 rvl Bl :=
    ⟨hns, h1, h2, h3', h4', h5', h6, h7, h8, h9, h10, h11, h12⟩
  obtain ⟨rep', h', hrep', hfc'⟩ := objective_intro2 { d with lamperti := l' } p hst'
  obtain ⟨ra, -, -, rr, -, rb, rc, rd1, rd2, rd3, -⟩ := hrep
  obtain ⟨ra', -, -, rr', -, rb', rc', rd1', rd2', rd3', -⟩ := hrep'
  obtain ⟨fP, f1, f2, f3, f4, f5, f6, -⟩ := hfc
  obtain ⟨fP', f1', f2', f3', f4', f5', f6', -⟩ := hfc'
  have eFp : rep'.Fp = rep.Fp := by rw [f2', f2, f1', f1]
  have eBp : rep'.Bp = rep.Bp := by
    rw [f4', f4, eFp]
    exact predictB_euler_flag _ _ _ _ _ _ _ _ _ _ _ he
  have eCp : rep'.Cp = rep.Cp := by
    rw [f5', f5, eFp, eBp]
    exact predictC_euler_flag _ _ _ _ _ _ _ _ _ _ _ he
  refine ⟨rep', h', by rw [ra', ra], by rw [rr', rr], by rw [rb', rb], by rw [rc', rc],
    by rw [fP', fP], by rw [rd1', rd1], by rw [rd2', rd2], by rw [rd3', rd3],
    by rw [f1', f1], eFp, eBp, eCp, by rw [f6', f6, eBp]⟩

end EulerFlag

section CatchPositivity

theorem log_argument_gt_one (K r B0 dt Binf rate : ℝ) (hK : 0 < K) (hr : 0 < r) (hB0 : 0 < B0)
    (hdt : 0 < dt) (hrate : rate ≠ 0) (hBeq : Binf = K * rate / r) :
    Binf ≠ 0 ∧ 1 < 1 - B0 / Binf * (1 - Real.exp (rate * dt)) := by
  have hneg : B0 / Binf * (1 - Real.exp (rate * dt)) < 0 := by
    rcases lt_or_gt_of_ne hrate with hlt | hgt
    · have hBn : Binf < 0 := by
        rw [hBeq]
        exact div_neg_of_neg_of_pos (mul_neg_of_pos_of_neg hK hlt) hr
      have hE : Real.exp (rate * dt) < 1 := by
        rw [Real.exp_lt_one_iff]
        exact mul_neg_of_neg_of_pos hlt hdt
      exact mul_neg_of_neg_of_pos (div_neg_of_pos_of_neg hB0 hBn) (by linarith)
    · have hBp : 0 < Binf := by
        rw [hBeq]
        exact div_pos (mul_pos hK hgt) hr
      have hE : 1 < Real.exp (rate * dt) := by
        rw [Real.one_lt_exp_iff]
        exact mul_pos hgt hdt
      exact mul_neg_of_pos_of_neg (div_pos hB0 hBp) (by linarith)
  refine ⟨?_, by linarith⟩
  rw [hBeq]
  exact div_ne_zero (mul_ne_zero (ne_of_gt hK) hrate) (ne_of_gt hr)

theorem predictC_analytic_pos (K r F B0 dt sdb2 Binf : ℝ) (lamperti : Int)
    (hK : 0 < K) (hr : 0 < r) (hF : 0 < F) (hB0 : 0 < B0) (hdt : 0 < dt)
    (hrate : (if lamperti ≠ 0 then r - F - 0.5 * sdb2 else r - F) ≠ 0)
    (hBinf : calculateBinf (fin K) (fin F) (fin r) (fin sdb2) lamperti = fin Binf) :
    1 < 1 - B0 / Binf
        * (1 - Real.exp ((if lamperti ≠ 0 then r - F - 0.5 * sdb2 else r - F) * dt)) ∧
    ∃ c, predictC (fin F) (fin K) (fin r) (fin B0) (fin Binf) (fin dt) (fin sdb2) lamperti 0
        = fin c ∧ 0 < c := by
  have hBeq := calculateBinf_eq_rate K F r sdb2 Binf lamperti (ne_of_gt hr) hBinf
  obtain ⟨hBne, harg⟩ := log_argument_gt_one K r B0 dt Binf _ hK hr hB0 hdt hrate hBeq
  exact ⟨harg, _, predictC_analytic_real F K r B0 Binf dt sdb2 lamperti (ne_of_gt hr) hBne
    (by linarith), mul_pos (mul_pos (div_pos hK hr) hF) (Real.log_pos harg)⟩

theorem predictC_euler_pos (K r F B0 dt sdb2 : ℝ) (Binf : Val ℝ) (lamperti euler : Int)
    (he : euler ≠ 0) (hF : 0 < F) (hB0 : 0 < B0) (hdt : 0 < dt) :
    ∃ c, predictC (fin F) (fin K) (fin r) (fin B0) Binf (fin dt) (fin sdb2) lamperti euler
        = fin c ∧ 0 < c :=
  ⟨F * B0 * dt, by simp [predictC, he], mul_pos (mul_pos hF hB0) hdt⟩

theorem vsum_pos (ts : List (Val ℝ)) (hne : ts ≠ [])
    (h : ∀ x ∈ ts, ∃ c : ℝ, x = fin c ∧ 0 < c) : ∃ c : ℝ, vsum ts = fin c ∧ 0 < c := by
  induction ts with
  | nil => exact absurd rfl hne
  | cons x xs ih =>
    obtain ⟨c, hc, hpos⟩ := h x (List.mem_cons_self _ _)
    by_cases hxs : xs = []
    · subst hxs
      exact ⟨c, by simp [vsum, hc], hpos⟩
    · obtain ⟨c', hc', hpos'⟩ := ih hxs (fun y hy => h y (List.mem_cons_of_mem _ hy))
      exact ⟨c + c', by simp [vsum, hc, hc'], add_pos hpos hpos'⟩

theorem map_exp_get (v : List ℝ) (k : Nat) (x : Val ℝ)
    (h : (v.map (fun x => exp (fin x)))[k]? = some x) :
    ∃ l, v[k]? = some l ∧ x = fin (Real.exp l) := by
  rw [List.getElem?_map] at h
  cases hv : v[k]? with
  | none => rw [hv] at h; cases h
  | some l =>
    rw [hv] at h
    simp only [Option.map_some', Option.some.injEq] at h
    exact ⟨l, rfl, by rw [← h]; rfl⟩

/-- Each assigned element of `Cpredsub` is finite and positive when every interval length
is positive and, under the analytical scheme, no knot has a zero rate. -/
theorem catchPred_pos (d : Data ℝ) (p : Params ℝ) (rvec Binf Cps : List (Val ℝ))
    (h1 : rvecLoop d.isum (exp (fin p.loggamma)) (exp (fin p.logr)) p.logF.length = .ok rvec)
    (h3 : binfLoop (p.logF.map (fun x => exp (fin x))) rvec (exp (fin p.logK))
      (exp (fin p.logsdb) * exp (fin p.logsdb)) d.lamperti p.logF.length = .ok Binf)
    (h5 : catchPredLoop d.dt (p.logB.map (fun x => exp (fin x))) Binf
      (p.logF.map (fun x => exp (fin x))) rvec (exp (fin p.logK))
      (exp (fin p.logsdb) * exp (fin p.logsdb)) d.lamperti d.euler p.logF.length = .ok Cps)
    (hdt : ∀ t ∈ d.dt, 0 < t)
    (hrate : d.euler = 0 → ∀ (k : Nat) (rv lf : ℝ), rvec[k]? = some (fin rv) → p.logF[k]? = some lf →
      (if d.lamperti ≠ 0 then rv - Real.exp lf - 0.5 * (Real.exp p.logsdb * Real.exp p.logsdb)
        else rv - Real.exp lf) ≠ 0) :
    ∀ (k : Nat) (x : Val ℝ), Cps[k]? = some x → ∃ c : ℝ, x = fin c ∧ 0 < c := by
  intro k x hx
  obtain ⟨hlen, hget⟩ := catchPredLoop_get _ _ _ _ _ _ _ _ _ _ _ h5
  have hk : k < p.logF.length - 1 := by
    have := getElem?_some_lt _ _ _ hx
    omega
  obtain ⟨f, rv, b, binf, t, hf, hrv, hb, hbinf, ht, hc⟩ := hget k hk
  rw [hx] at hc
  simp only [Option.some.injEq] at hc
  obtain ⟨lf, hlf, rfl⟩ := map_exp_get _ _ _ hf
  obtain ⟨lb, hlb, rfl⟩ := map_exp_get _ _ _ hb
  obtain ⟨-, hrget⟩ := rvecLoop_get _ _ _ _ _ h1
  obtain ⟨s, -, hrs⟩ := hrget k (by omega)
  rw [hrv] at hrs
  simp only [Option.some.injEq] at hrs
  obtain ⟨rvr, hrvr, hrpos⟩ : ∃ rvr : ℝ, rv = fin rvr ∧ 0 < rvr := by
    by_cases hs : s = 1
    · exact ⟨Real.exp p.loggamma * Real.exp p.logr, by rw [hrs, if_pos hs]; rfl,
        mul_pos (Real.exp_pos _) (Real.exp_pos _)⟩
    · exact ⟨Real.exp p.logr, by rw [hrs, if_neg hs]; rfl, Real.exp_pos _⟩
  subst hrvr
  obtain ⟨-, hbget⟩ := binfLoop_get _ _ _ _ _ _ _ h3
  obtain ⟨f', rv', hf', hrv', hbk⟩ := hbget k (by omega)
  rw [hf] at hf'
  rw [hrv] at hrv'
  simp only [Option.some.injEq] at hf' hrv'
  subst hf' hrv'
  rw [hbinf] at hbk
  simp only [Option.some.injEq] at hbk
  have htpos : 0 < t := hdt t (List.getElem?_mem ht)
  have hKe : exp (fin p.logK) = fin (Real.exp p.logK) := rfl
  have hse : exp (fin p.logsdb) * exp (fin p.logsdb)
      = fin (Real.exp p.logsdb * Real.exp p.logsdb) := rfl
  rw [hKe, hse] at hc hbk
  by_cases he : d.euler = 0
  · have hbr := calculateBinf_real (Real.exp p.logK) (Real.exp lf) rvr
      (Real.exp p.logsdb * Real.exp p.logsdb) d.lamperti (ne_of_gt hrpos)
    rw [hbk] at hc
    obtain ⟨-, c, hcv, hcpos⟩ := predictC_analytic_pos (Real.exp p.logK) rvr (Real.exp lf)
      (Real.exp lb) t (Real.exp p.logsdb * Real.exp p.logsdb) _ d.lamperti (Real.exp_pos _)
      hrpos (Real.exp_pos _) (Real.exp_pos _) htpos (hrate he k rvr lf hrv hlf) hbr
    rw [hbr, he] at hc
    exact ⟨c, by rw [hc, hcv], hcpos⟩
  · obtain ⟨c, hcv, hcpos⟩ := predictC_euler_pos (Real.exp p.logK) rvr (Real.exp lf)
      (Real.exp lb) t (Real.exp p.logsdb * Real.exp p.logsdb) binf d.lamperti d.euler he
      (Real.exp_pos _) (Real.exp_pos _) htpos
    exact ⟨c, by rw [hc, hcv], hcpos⟩

theorem cells_some_get (Cps : List (Val ℝ)) (m : Nat) (x : Val ℝ)
    (h : (Cps.map some ++ [none])[m]? = some (some x)) : Cps[m]? = some x := by
  have hm := cells_some_lt Cps m x h
  rw [List.getElem?_append_left (by simpa using hm), List.getElem?_map,
    List.getElem?_eq_getElem hm] at h
  simp only [Option.map_some', Option.some.injEq] at h
  rw [List.getElem?_eq_getElem hm, h]

/-- In exact arithmetic the logarithm of the analytical `predictC` stays inside its domain
when `Binf` is the matching equilibrium: for `K, r, F, B0, dt > 0`, `sdb2 ≥ 0`, either
`lamperti` flag, a non-zero rate and `Binf = calculateBinf(K, F, r, sdb2, lamperti)`, the
argument `1 - (B0/Binf)*(1 - exp(rate*dt))` exceeds `1` and `predictC(..., euler = 0)` is
finite and positive.  Hence in an evaluation that returns, with positive interval lengths and
(under the analytical scheme) no knot of zero rate, every `Cpred[i]` with `nc[i] ≥ 1` is
finite and positive and `logCpred[i]` is its logarithm.  This is a statement about real
numbers: it says nothing on rounded arithmetic, where `exp(rate*dt)` can evaluate to `1`. -/
theorem predictC_log_needs_no_guard :
    (∀ (K r F B0 dt sdb2 Binf : ℝ) (lamperti : Int),
      0 < K → 0 < r → 0 < F → 0 < B0 → 0 < dt → 0 ≤ sdb2 →
      (if lamperti ≠ 0 then r - F - 0.5 * sdb2 else r - F) ≠ 0 →
      calculateBinf (fin K) (fin F) (fin r) (fin sdb2) lamperti = fin Binf →
      1 < 1 - B0 / Binf
          * (1 - Real.exp ((if lamperti ≠ 0 then r - F - 0.5 * sdb2 else r - F) * dt)) ∧
      ∃ c, predictC (fin F) (fin K) (fin r) (fin B0) (fin Binf) (fin dt) (fin sdb2) lamperti 0
          = fin c ∧ 0 < c) ∧
    (∀ (d : Data ℝ) (p : Params ℝ) (rep : Report ℝ), objective_function d p = .ok rep →
      (∀ t ∈ d.dt, 0 < t) →
      (d.euler = 0 → ∀ (k : Nat) (rv lf : ℝ), rep.rvec[k]? = some (fin rv) →
        p.logF[k]? = some lf →
        (if d.lamperti ≠ 0
          then rv - Real.exp lf - 0.5 * (Real.exp p.logsdb * Real.exp p.logsdb)
          else rv - Real.exp lf) ≠ 0) →
      ∀ (i : Nat) (n : ℝ), i < d.Cobs.length → d.nc[i]? = some n → 1 ≤ n →
        ∃ c : ℝ, rep.Cpred[i]? = some (fin c) ∧ 0 < c ∧
          rep.logCpred[i]? = some (fin (Real.log c))) := by
  constructor
  · intro K r F B0 dt sdb2 Binf lamperti hK hr hF hB0 hdt _ hrate hBinf
    exact predictC_analytic_pos K r F B0 dt sdb2 Binf lamperti hK hr hF hB0 hdt hrate hBinf
  intro d p rep h hdt hrate i n hi hnc hn
  obtain ⟨rvec, ansF, Binf, sB, Cps, P, sC, sI, l1, l2, rvl, Bl, hst, hrep, -⟩ :=
    objective_inv2 d p rep h
  obtain ⟨-, h1, -, h3, -, h5, -, h7, -⟩ := hst
  obtain ⟨-, -, -, hrvec, -, -, -, hCpred, hlogCpred, -⟩ := hrep
  have hpos := catchPred_pos d p rvec Binf Cps h1 h3 h5 hdt (by rw [← hrvec]; exact hrate)
  rw [catchLoop_eq] at h7
  cases hfill : fillLoop (catchStep d.Cobs d.ic d.nc (Cps.map some ++ [none])
      (fin p.beta * exp (fin p.logsdf))) d.Cobs.length 0 with
  | error e => rw [hfill] at h7; cases h7
  | ok os =>
    rw [hfill] at h7
    simp only [Except.ok.injEq] at h7
    have hlen := fillLoop_ok_length _ _ _ hfill
    have hi' : i < os.length := by omega
    have hstep := fillLoop_ok_get _ _ _ hfill i hi'
    simp only [zero_add] at hstep
    obtain ⟨n', co, hn', hsum, -, -⟩ := catchStep_ok _ _ _ _ _ _ _ hstep
    have hnr : rd d.nc (i : Int) = .ok n := (rd_natCast _ _ _).2 hnc
    rw [hnr] at hn'
    simp only [Except.ok.injEq] at hn'
    subst hn'
    rw [catchSum_eq] at hsum
    cases hin : fillLoop (fun j => do
            let icv ← rd d.ic (i : Int)
            rdCell (Cps.map some ++ [none]) (Integer (icv - 1) + j)) (Int.toNat ⌈n⌉) 0 with
    | error e => rw [hin] at hsum; cases hsum
    | ok ts =>
      rw [hin] at hsum
      simp only [Except.ok.injEq] at hsum
      have hts := fillLoop_ok_length _ _ _ hin
      have hceil : 1 ≤ ⌈n⌉ := Int.le_ceil_iff.2 (by push_cast; linarith)
      have hne : ts ≠ [] := by
        intro hnil
        rw [hnil] at hts
        simp only [List.length_nil] at hts
        omega
      have hall : ∀ x ∈ ts, ∃ c : ℝ, x = fin c ∧ 0 < c := by
        intro x hx
        obtain ⟨j, hj, rfl⟩ := List.getElem_of_mem hx
        have hg := fillLoop_ok_get _ _ _ hin j hj
        simp only [zero_add, bind, Except.bind] at hg
        split at hg; · cases hg
        rename_i icv hicv
        have hcell := ((rdCell_ok_iff _ _ _).1 hg).2
        exact hpos _ _ (cells_some_get _ _ _ hcell)
      obtain ⟨c, hc, hcpos⟩ := vsum_pos ts hne hall
      refine ⟨c, ?_, hcpos, ?_⟩
      · rw [hCpred, ← h7]
        simp only [List.getElem?_map, List.getElem?_eq_getElem hi', Option.map_some', ← hsum, hc]
      · rw [hlogCpred, ← h7]
        simp only [List.getElem?_map, List.getElem?_eq_getElem hi', Option.map_some', ← hsum, hc,
          Val.log_fin, hcpos, if_true, Transc.log_real]

end CatchPositivity

section ForecastReal

theorem forecast_reads {α : Type} [LinearOrderedField α] [FloorRing α] [Transc α]
    (d : Data α) (p : Params α) {rvec : List (Val α)} {ansF : Val α}
    {Binf : List (Val α)} {sB : Val α × List (Val α)} {Cps P : List (Val α)}
    {sC : Val α × List (Val α) × List (Val α)} {sI : Val α × List (Option (Val α))}
    {l1 l2 : α} {rvl Bl : Val α}
    (h : StagesOk d p rvec ansF Binf sB Cps P sC sI l1 l2 rvl Bl) :
    (∃ s, d.isum[p.logF.length - 1]? = some s ∧ rvec[p.logF.length - 1]? = some rvl ∧
      rvl = (if s = 1 then exp (fin p.loggamma) * exp (fin p.logr) else exp (fin p.logr))) ∧
    (∃ lb, p.logB[p.logF.length - 1]? = some lb ∧ Bl = exp (fin lb)) ∧
    p.logF[p.logF.length - 1]? = some l1 ∧
    p.logF[((p.logF.length : Int) - d.delay).toNat]? = some l2 := by
  obtain ⟨hns, h1, -, -, -, -, -, -, -, h9, h10, h11, h12⟩ := h
  have e1 : ((p.logF.length : Int) - 1).toNat = p.logF.length - 1 := by omega
  have h11' := ((rd_ok_iff _ _ _).1 h11).2
  have h12' := ((rd_ok_iff _ _ _).1 h12).2
  have h9' := ((rd_ok_iff _ _ _).1 h9).2
  have h10' := ((rd_ok_iff _ _ _).1 h10).2
  rw [e1] at h11' h12' h9'
  obtain ⟨-, hget⟩ := rvecLoop_get _ _ _ _ _ h1
  obtain ⟨s, hs, hrs⟩ := hget (p.logF.length - 1) (by omega)
  rw [h11'] at hrs
  simp only [Option.some.injEq] at hrs
  refine ⟨⟨s, hs, h11', hrs⟩, ?_, h9', h10'⟩
  rw [List.getElem?_map] at h12'
  cases hv : p.logB[p.logF.length - 1]? with
  | none => rw [hv] at h12'; cases h12'
  | some lb =>
    rw [hv] at h12'
    simp only [Option.map_some', Option.some.injEq] at h12'
    exact ⟨lb, rfl, h12'.symm⟩

theorem predictC_at_equilibrium (F K r dt sdb2 Binf : ℝ) (lamperti euler : Int)
    (hr : r ≠ 0) (hne : Binf ≠ 0)
    (hBinf : calculateBinf (fin K) (fin F) (fin r) (fin sdb2) lamperti = fin Binf) :
    predictC (fin F) (fin K) (fin r) (fin Binf) (fin Binf) (fin dt) (fin sdb2) lamperti euler
      = fin (F * Binf * dt) := by
  by_cases he : euler = 0
  · subst he
    have hBeq := calculateBinf_eq_rate K F r sdb2 Binf lamperti hr hBinf
    have harg : 1 - Binf / Binf
        * (1 - Real.exp ((if lamperti ≠ 0 then r - F - 0.5 * sdb2 else r - F) * dt))
        = Real.exp ((if lamperti ≠ 0 then r - F - 0.5 * sdb2 else r - F) * dt) := by
      rw [div_self hne]; ring
    rw [predictC_analytic_real F K r Binf Binf dt sdb2 lamperti hr hne
      (by rw [harg]; exact Real.exp_pos _), harg, Real.log_exp]
    congr 1
    generalize (if lamperti ≠ 0 then r - F - 0.5 * sdb2 else r - F) = rate at hBeq
    rw [hBeq]
    field_simp
    ring
  · simp [predictC, he]

/-- C19: the equilibrium reference catch has the same closed form in both schemes.  For
`r ≠ 0` and `Binf = calculateBinf(K, F, r, sdb2, lamperti) ≠ 0`,
`predictC(F, K, r, Binf, Binf, dt, sdb2, lamperti, euler) = F * Binf * dt` for every
combination of the flags; hence in an evaluation that returns with `Binfp ≠ 0`,
where `rvec[ns-1] ≠ 0` and `Binfp = calculateBinf(K, Fp, rvec[ns-1], sdb2, lamperti)`,
the evaluator's `Cinfp` equals `Fp * Binfp * dtpred`. -/
theorem equilibrium_catch_closed_form :
    (∀ (F K r dt sdb2 Binf : ℝ) (lamperti euler : Int), r ≠ 0 → Binf ≠ 0 →
      calculateBinf (fin K) (fin F) (fin r) (fin sdb2) lamperti = fin Binf →
      predictC (fin F) (fin K) (fin r) (fin Binf) (fin Binf) (fin dt) (fin sdb2) lamperti euler
        = fin (F * Binf * dt)) ∧
    (∀ (d : Data ℝ) (p : Params ℝ) (rep : Report ℝ), objective_function d p = .ok rep →
      rep.Binfp ≠ fin 0 →
      ∃ rvl, rep.rvec[p.logF.length - 1]? = some rvl ∧ rvl ≠ fin 0 ∧
        rep.Binfp = calculateBinf rep.K rep.Fp rvl
          (exp (fin p.logsdb) * exp (fin p.logsdb)) d.lamperti ∧
        rep.Cinfp = predictC rep.Fp rep.K rvl rep.Binfp rep.Binfp (fin d.dtpred)
          (exp (fin p.logsdb) * exp (fin p.logsdb)) d.lamperti d.euler ∧
        rep.Cinfp = rep.Fp * rep.Binfp * fin d.dtpred) := by
  refine ⟨fun F K r dt sdb2 Binf lamperti euler hr hne hBinf =>
    predictC_at_equilibrium F K r dt sdb2 Binf lamperti euler hr hne hBinf, ?_⟩
  intro d p rep h hB
  obtain ⟨rvec, ansF, Binf, sB, Cps, P, sC, sI, l1, l2, rvl, Bl, hst, hrep, hfc⟩ :=
    objective_inv2 d p rep h
  obtain ⟨⟨s, -, hrvl, hrs⟩, -, -, -⟩ := forecast_reads d p hst
  obtain ⟨-, -, hK, hrvec, -⟩ := hrep
  obtain ⟨-, f1, f2, f3, -, -, -, f7, -⟩ := hfc
  obtain ⟨rv, hrv, hrpos⟩ : ∃ rv : ℝ, rvl = fin rv ∧ 0 < rv := by
    by_cases hs : s = 1
    · exact ⟨Real.exp p.loggamma * Real.exp p.logr, by rw [hrs, if_pos hs]; rfl,
        mul_pos (Real.exp_pos _) (Real.exp_pos _)⟩
    · exact ⟨Real.exp p.logr, by rw [hrs, if_neg hs]; rfl, Real.exp_pos _⟩
  have hFp : rep.Fp = fin (Real.exp (p.phi1 * l1 + p.phi2 * l2)) := by
    rw [f2, f1]; rfl
  have hKe : exp (fin p.logK) = fin (Real.exp p.logK) := rfl
  have hse : exp (fin p.logsdb) * exp (fin p.logsdb)
      = fin (Real.exp p.logsdb * Real.exp p.logsdb) := rfl
  obtain ⟨bp, hbp, hBp⟩ : ∃ bp : ℝ,
      calculateBinf (fin (Real.exp p.logK)) (fin (Real.exp (p.phi1 * l1 + p.phi2 * l2)))
        (fin rv) (fin (Real.exp p.logsdb * Real.exp p.logsdb)) d.lamperti = fin bp ∧
      rep.Binfp = fin bp :=
    ⟨_, calculateBinf_real _ _ _ _ _ (ne_of_gt hrpos), by
      rw [f3, hFp, hKe, hse, hrv]
      exact calculateBinf_real _ _ _ _ _ (ne_of_gt hrpos)⟩
  have hne : bp ≠ 0 := by
    intro h0
    apply hB
    rw [hBp, h0]
  refine ⟨rvl, by rw [hrvec]; exact hrvl,
    by rw [hrv]; intro h0; cases h0; exact lt_irrefl _ hrpos,
    by rw [hK]; exact f3, by rw [hK]; exact f7, ?_⟩
  rw [f7, hBp, hFp, hKe, hse, hrv]
  rw [predictC_at_equilibrium _ _ _ _ _ _ _ _ (ne_of_gt hrpos) hne hbp]
  rfl

/-- C20: the equilibrium biomass at `Fmsy` is `Bmsy`: for `r ≠ 0` and either `lamperti` flag,
`calculateBinf(K, Fmsy, r, sdb2, lamperti) = K/2 = Bmsy` with the evaluator's `Fmsy`.  Hence
in an evaluation that returns and whose last knot is not a summer knot (`isum[ns-1] ≠ 1`),
`Binfpmsy = Bmsy`, and with `euler = 0` and `B[ns-1] = K/2` the forecast `Bpmsy` is `K/2`,
whatever `dtpred` is. -/
theorem equilibrium_at_Fmsy_is_Bmsy :
    (∀ (K r sdb2 : ℝ) (lamperti : Int), r ≠ 0 →
      (referencePoints (fin r) (fin K) (fin sdb2) lamperti).1 = fin (K / 2) ∧
      calculateBinf (fin K) (referencePoints (fin r) (fin K) (fin sdb2) lamperti).2.1 (fin r)
        (fin sdb2) lamperti = fin (K / 2)) ∧
    (∀ (d : Data ℝ) (p : Params ℝ) (rep : Report ℝ), objective_function d p = .ok rep →
      (∀ s, d.isum[p.logF.length - 1]? = some s → s ≠ 1) →
      rep.Bmsy = fin (Real.exp p.logK / 2) ∧ rep.Binfpmsy = rep.Bmsy ∧
      (d.euler = 0 → ∀ lb, p.logB[p.logF.length - 1]? = some lb →
        Real.exp lb = Real.exp p.logK / 2 → rep.Bpmsy = fin (Real.exp p.logK / 2))) := by
  have hfun : ∀ (K r sdb2 : ℝ) (lamperti : Int), r ≠ 0 →
      (referencePoints (fin r) (fin K) (fin sdb2) lamperti).1 = fin (K / 2) ∧
      calculateBinf (fin K) (referencePoints (fin r) (fin K) (fin sdb2) lamperti).2.1 (fin r)
        (fin sdb2) lamperti = fin (K / 2) := by
    intro K r sdb2 lamperti hr
    rw [referencePoints_real]
    refine ⟨rfl, ?_⟩
    rw [calculateBinf_real _ _ _ _ _ hr]
    congr 1
    by_cases hl : lamperti = 0
    · simp [hl]; field_simp; ring
    · simp [hl]; field_simp; ring
  refine ⟨hfun, ?_⟩
  intro d p rep h hsum
  obtain ⟨rvec, ansF, Binf, sB, Cps, P, sC, sI, l1, l2, rvl, Bl, hst, hrep, hfc⟩ :=
    objective_inv2 d p rep h
  obtain ⟨⟨s, hs, -, hrs⟩, ⟨lb, hlb, hBl⟩, -, -⟩ := forecast_reads d p hst
  obtain ⟨-, -, -, -, -, -, -, -, -, -, hBmsy, hFmsy, -⟩ := hrep
  obtain ⟨-, -, -, -, -, -, -, -, f8, f9, -⟩ := hfc
  rw [if_neg (hsum s hs)] at hrs
  have hre : exp (fin p.logr) = fin (Real.exp p.logr) := rfl
  have hKe : exp (fin p.logK) = fin (Real.exp p.logK) := rfl
  have hse : exp (fin p.logsdb) * exp (fin p.logsdb)
      = fin (Real.exp p.logsdb * Real.exp p.logsdb) := rfl
  rw [hre, hKe, hse] at hBmsy hFmsy
  rw [hKe, hse, hrs, hre] at f8 f9
  obtain ⟨e1, e2⟩ := hfun (Real.exp p.logK) (Real.exp p.logr)
    (Real.exp p.logsdb * Real.exp p.logsdb) d.lamperti (ne_of_gt (Real.exp_pos _))
  have hB1 : rep.Bmsy = fin (Real.exp p.logK / 2) := by rw [hBmsy, e1]
  have hB2 : rep.Binfpmsy = fin (Real.exp p.logK / 2) := by rw [f8, hFmsy, e2]
  refine ⟨hB1, by rw [hB2, hB1], ?_⟩
  intro he lb' hlb' hhalf
  rw [hlb] at hlb'
  simp only [Option.some.injEq] at hlb'
  subst hlb'
  have hBl' : Bl = fin (Real.exp p.logK / 2) := by
    rw [hBl, ← hhalf]; rfl
  have hK2 : Real.exp p.logK / 2 ≠ 0 := by
    have := Real.exp_pos p.logK
    positivity
  obtain ⟨fm, hfm⟩ : ∃ fm : ℝ, rep.Fmsy = fin fm := by
    rw [hFmsy, referencePoints_real]
    exact ⟨_, rfl⟩
  rw [f9, hB2, hBl', hfm, he]
  rw [predictB_analytic_real _ _ _ _ _ _ _ _ hK2 hK2 (by
    rw [sub_self, zero_mul, add_zero]
    exact one_div_ne_zero hK2)]
  congr 1
  rw [sub_self, zero_mul, add_zero, one_div_one_div]

end ForecastReal

section ExampleValues

theorem example_readsInRange : ReadsInRange (exampleData ℝ) (exampleParams ℝ) := by
  obtain ⟨rep, h⟩ := example_ok ℝ
  exact readsInRange_of_ok _ _ rep h

theorem example_flags_ok (l e : Int) :
    ∃ rep, objective_function { exampleData ℝ with lamperti := l, euler := e }
      (exampleParams ℝ) = .ok rep :=
  ok_of_readsInRange _ _ example_readsInRange

theorem exp_neg_one_le_half : Real.exp (-1) ≤ 1 / 2 := by
  rw [Real.exp_neg, one_div]
  exact inv_anti₀ (by norm_num) (by linarith [Real.add_one_le_exp (1 : ℝ)])

theorem example_rate_pos :
    0 < 1 - Real.exp (-1) - 0.5 * (Real.exp (-1) * Real.exp (-1)) := by
  have h1 := exp_neg_one_le_half
  have h0 := Real.exp_pos (-1)
  nlinarith

/-- The values the evaluation of the example input holds, for either scheme and either
`lamperti` flag: `r = 1`, `K = exp 1`, `sdb2 = exp(-1)²`, `F = Fp = exp(-1)`, `rvec = 1`. -/
theorem example_values (l e : Int) (rep : Report ℝ)
    (h : objective_function { exampleData ℝ with lamperti := l, euler := e }
      (exampleParams ℝ) = .ok rep) :
    rep.Fmsy = (referencePoints (fin 1) (fin (Real.exp 1))
      (fin (Real.exp (-1) * Real.exp (-1))) l).2.1 ∧
    rep.MSY = (referencePoints (fin 1) (fin (Real.exp 1))
      (fin (Real.exp (-1) * Real.exp (-1))) l).2.2 ∧
    rep.Binf[0]? = some (calculateBinf (fin (Real.exp 1)) (fin (Real.exp (-1))) (fin 1)
      (fin (Real.exp (-1) * Real.exp (-1))) l) ∧
    rep.Fp = fin (Real.exp (-1)) ∧
    rep.Binfp = calculateBinf (fin (Real.exp 1)) (fin (Real.exp (-1))) (fin 1)
      (fin (Real.exp (-1) * Real.exp (-1))) l ∧
    rep.Cinfp = predictC (fin (Real.exp (-1))) (fin (Real.exp 1)) (fin 1) rep.Binfp rep.Binfp
      (fin 1) (fin (Real.exp (-1) * Real.exp (-1))) l e ∧
    rep.Bpmsy = predictB (fin 1) rep.Binfpmsy rep.Fmsy (fin 1) (fin (Real.exp 1)) (fin 1)
      (fin (Real.exp (-1) * Real.exp (-1))) l e ∧
    (∀ (k : Nat) (rv : ℝ), rep.rvec[k]? = some (fin rv) → rv = 1) := by
  obtain ⟨rvec, ansF, Binf, sB, Cps, P, sC, sI, l1, l2, rvl, Bl, hst, hrep, hfc⟩ :=
    objective_inv2 _ _ rep h
  obtain ⟨⟨s, hs, -, hrs⟩, ⟨lb, hlb, hBl⟩, hl1, hl2⟩ := forecast_reads _ _ hst
  obtain ⟨-, h1, -, h3, -⟩ := hst
  obtain ⟨-, -, -, hrvec, hBinf, -, -, -, -, -, -, hFmsy, hMSY⟩ := hrep
  obtain ⟨-, f1, f2, f3, -, -, -, f7, -, f9, -⟩ := hfc
  simp only [exampleData, exampleParams, List.length_cons, List.length_nil, zero_add,
    Nat.reduceAdd, Nat.add_one_sub_one, List.getElem?_cons_succ, List.getElem?_cons_zero,
    Option.some.injEq, Nat.cast_ofNat, Int.reduceSub, Int.toNat_ofNat] at hs hlb hl1 hl2
  subst hs hlb hl1
  have hl2' : l2 = -1 := by
    have : ((3 : Int) - 1).toNat = 2 := by decide
    simpa [this] using hl2.symm
  subst hl2'
  have hrvl : rvl = fin 1 := by
    rw [hrs]
    simp [exampleParams]
  have hBl' : Bl = fin 1 := by rw [hBl]; simp
  have hFp : rep.Fp = fin (Real.exp (-1)) := by
    rw [f2, f1]
    simp [predictlogF, exampleParams]
  have hK : exp (fin (exampleParams ℝ).logK) = fin (Real.exp 1) := by simp [exampleParams]
  have hr : exp (fin (exampleParams ℝ).logr) = fin 1 := by simp [exampleParams]
  have hsd : exp (fin (exampleParams ℝ).logsdb) * exp (fin (exampleParams ℝ).logsdb)
      = fin (Real.exp (-1) * Real.exp (-1)) := by simp [exampleParams]
  have hBinfp : rep.Binfp = calculateBinf (fin (Real.exp 1)) (fin (Real.exp (-1))) (fin 1)
      (fin (Real.exp (-1) * Real.exp (-1))) l := by
    rw [f3, hFp, hK, hsd, hrvl]
  obtain ⟨-, hrget⟩ := rvecLoop_get _ _ _ _ _ h1
  obtain ⟨-, hbget⟩ := binfLoop_get _ _ _ _ _ _ _ h3
  have hrv1 : ∀ (k : Nat) (rv : ℝ), rvec[k]? = some (fin rv) → rv = 1 := by
    intro k rv hk
    have hklt := getElem?_some_lt _ _ _ hk
    rw [(rvecLoop_get _ _ _ _ _ h1).1] at hklt
    obtain ⟨s, -, hsk⟩ := hrget k hklt
    rw [hk] at hsk
    simp only [Option.some.injEq] at hsk
    by_cases hs1 : s = 1
    · rw [if_pos hs1] at hsk
      simp [exampleParams] at hsk
      exact hsk
    · rw [if_neg hs1] at hsk
      simp [exampleParams] at hsk
      exact hsk
  obtain ⟨f, rv, hf, hrv, hb0⟩ := hbget 0 (by simp [exampleParams])
  simp only [exampleParams, List.map_cons, List.getElem?_cons_zero, Option.some.injEq] at hf
  subst hf
  obtain ⟨s0, hs0, hr0⟩ := hrget 0 (by simp [exampleParams])
  simp only [exampleData, List.getElem?_cons_zero, Option.some.injEq] at hs0
  subst hs0
  rw [hr0] at hrv
  simp only [Option.some.injEq] at hrv
  have hrv' : rv = fin 1 := by
    rw [← hrv]; simp [exampleParams]
  refine ⟨by rw [hFmsy, hK, hr, hsd], by rw [hMSY, hK, hr, hsd], ?_, hFp, hBinfp, ?_, ?_,
    by rw [hrvec]; exact hrv1⟩
  · rw [hBinf, hb0, hrv', hK, hsd]
    simp
  · rw [f7, hFp, hK, hsd, hrvl]
    simp [exampleData]
  · rw [f9, hK, hsd, hrvl, hBl']
    simp [exampleData]

/-- C14 as amended, on the example input evaluated with the Euler scheme: with `lamperti`
cleared the evaluation returns the same negative log-likelihood, biomass and catch
predictions and forecasts `Bp`, `Cp` as with `lamperti` set. -/
theorem euler_overrides_lamperti_in_predictions_witness :
    ∃ rep rep',
      objective_function { exampleData ℝ with lamperti := 1, euler := 1 } (exampleParams ℝ)
        = .ok rep ∧
      objective_function { exampleData ℝ with lamperti := 0, euler := 1 } (exampleParams ℝ)
        = .ok rep' ∧
      rep'.ans = rep.ans ∧ rep'.Bpred = rep.Bpred ∧ rep'.Cpred = rep.Cpred ∧
      rep'.Bp = rep.Bp ∧ rep'.Cp = rep.Cp := by
  obtain ⟨rep, h⟩ := example_flags_ok 1 1
  obtain ⟨rep', h', ha, -, hb, -, -, hc, -, -, -, -, hbp, hcp, -⟩ :=
    (euler_overrides_lamperti_in_predictions
      { exampleData ℝ with lamperti := 1, euler := 1 } (exampleParams ℝ) rep 0
      (by decide) h).2
  exact ⟨rep, rep', h, h', ha, hb, hc, hbp, hcp⟩

/-- C14 as stated fails: on the example input evaluated with the Euler scheme, `Fmsy`, `MSY`,
`Binf`, and the forecasts `Binfp`, `Cinfp` and `Bpmsy` differ between `lamperti = 0` and
`lamperti = 1` (`sdb2 = exp(-1)² > 0`). -/
theorem lamperti_flag_matters_under_euler :
    ∃ rep0 rep1,
      objective_function { exampleData ℝ with lamperti := 0, euler := 1 } (exampleParams ℝ)
        = .ok rep0 ∧
      objective_function { exampleData ℝ with lamperti := 1, euler := 1 } (exampleParams ℝ)
        = .ok rep1 ∧
      rep0.Fmsy ≠ rep1.Fmsy ∧ rep0.MSY ≠ rep1.MSY ∧ rep0.Binf ≠ rep1.Binf ∧
      rep0.Binfp ≠ rep1.Binfp ∧ rep0.Cinfp ≠ rep1.Cinfp ∧ rep0.Bpmsy ≠ rep1.Bpmsy := by
  obtain ⟨rep0, h0⟩ := example_flags_ok 0 1
  obtain ⟨rep1, h1⟩ := example_flags_ok 1 1
  obtain ⟨a1, a2, a3, a4, a5, a6, a7, -⟩ := example_values 0 1 rep0 h0
  obtain ⟨b1, b2, b3, b4, b5, b6, b7, -⟩ := example_values 1 1 rep1 h1
  have hs : 0 < Real.exp (-1) * Real.exp (-1) := mul_pos (Real.exp_pos _) (Real.exp_pos _)
  have he : 0 < Real.exp 1 := Real.exp_pos _
  have hx : 0 < Real.exp (-1) := Real.exp_pos _
  rw [referencePoints_real] at a1 a2 b1 b2
  rw [calculateBinf_real _ _ _ _ _ one_ne_zero] at a3 a5 b3 b5
  simp only [ne_eq, not_true_eq_false, if_false, one_ne_zero, not_false_eq_true, if_true,
    div_one] at a1 a2 a3 a5 b1 b2 b3 b5
  have hFm : rep0.Fmsy ≠ rep1.Fmsy := by
    rw [a1, b1]
    intro h
    injection h with h
    linarith
  have hBp : rep0.Binfp ≠ rep1.Binfp := by
    rw [a5, b5]
    intro h
    injection h with h
    nlinarith
  refine ⟨rep0, rep1, h0, h1, hFm, ?_, ?_, hBp, ?_, ?_⟩
  · rw [a2, b2]
    intro h
    injection h with h
    nlinarith
  · intro h
    have : rep0.Binf[0]? = rep1.Binf[0]? := by rw [h]
    rw [a3, b3] at this
    simp only [Option.some.injEq] at this
    injection this with this
    nlinarith
  · rw [a6, b6, a5, b5]
    simp only [predictC, one_ne_zero, ne_eq, not_false_eq_true, if_true, Val.fin_mul_fin]
    intro h
    injection h with h
    have hp : 0 < Real.exp (-1) * Real.exp 1 * (Real.exp (-1) * Real.exp (-1)) := by positivity
    have hz : Real.exp (-1) * Real.exp 1 * (Real.exp (-1) * Real.exp (-1)) = 0 := by
      linear_combination 2 * h
    linarith
  · rw [a7, b7, a1, b1]
    rw [predictB_euler_real _ _ _ _ _ _ _ _ _ one_ne_zero one_pos (ne_of_gt he),
      predictB_euler_real _ _ _ _ _ _ _ _ _ one_ne_zero one_pos (ne_of_gt he)]
    intro h
    injection h with h
    have := Real.exp_injective h
    linarith

/-- The exact-arithmetic positivity of `Cpred` on the example input (analytical scheme,
`lamperti` set, `dt = [1, 1]`, rate `1 - exp(-1) - 0.5*exp(-1)² > 0` at every knot):
`Cpred[0]`, with `nc[0] = 2`, is finite and positive; and the function-level statement at
`K = 1000`, `r = 0.2`, `F = 0.1`, `B0 = 100`, `dt = 1`, `sdb2 = 0`, `Binf = 500`. -/
theorem predictC_log_needs_no_guard_witness :
    (1 < 1 - (100 : ℝ) / 500 * (1 - Real.exp ((0.2 - 0.1) * 1))) ∧
    ∃ rep c, objective_function (exampleData ℝ) (exampleParams ℝ) = .ok rep ∧
      rep.Cpred[0]? = some (fin c) ∧ 0 < c ∧ rep.logCpred[0]? = some (fin (Real.log c)) := by
  constructor
  · have := (predictC_log_needs_no_guard.1 1000 0.2 0.1 100 1 0 500 0 (by norm_num)
      (by norm_num) (by norm_num) (by norm_num) (by norm_num) (le_refl 0) (by norm_num)
      (by rw [calculateBinf_real _ _ _ _ _ (by norm_num)]; norm_num)).1
    simpa using this
  · obtain ⟨rep, h⟩ := example_ok ℝ
    have hv := (example_values 1 0 rep h).2.2.2.2.2.2.2
    obtain ⟨c, h1, h2, h3⟩ := predictC_log_needs_no_guard.2 (exampleData ℝ) (exampleParams ℝ)
      rep h (by intro t ht; simp [exampleData] at ht; rw [ht]; exact one_pos)
      (by
        intro _ k rv lf hrv hlf
        have hrv1 := hv k rv hrv
        have hlf1 : lf = -1 := by
          have hk := getElem?_some_lt _ _ _ hlf
          simp only [exampleParams, List.length_cons, List.length_nil] at hk
          have : k = 0 ∨ k = 1 ∨ k = 2 := by omega
          rcases this with rfl | rfl | rfl <;> simpa [exampleParams] using hlf.symm
        subst hrv1 hlf1
        simp only [exampleData, exampleParams, ne_eq, one_ne_zero, not_false_eq_true, if_true]
        exact ne_of_gt example_rate_pos)
      0 2 (by simp [exampleData]) (by simp [exampleData]) (by norm_num)
    exact ⟨rep, c, h, h1, h2, h3⟩

/-- C19 on the example input (analytical scheme, `lamperti` set, `dtpred = 1`), where
`Binfp = exp 1 * (1 - exp(-1) - 0.5*exp(-1)²) ≠ 0`. -/
theorem equilibrium_catch_closed_form_witness :
    ∃ rep, objective_function (exampleData ℝ) (exampleParams ℝ) = .ok rep ∧
      rep.Binfp ≠ fin 0 ∧ rep.Cinfp = rep.Fp * rep.Binfp * fin 1 := by
  obtain ⟨rep, h⟩ := example_ok ℝ
  obtain ⟨-, -, -, -, hB, -⟩ := example_values 1 0 rep h
  have hne : rep.Binfp ≠ fin 0 := by
    rw [hB, calculateBinf_real _ _ _ _ _ one_ne_zero]
    simp only [ne_eq, one_ne_zero, not_false_eq_true, if_true, div_one]
    intro h0
    injection h0 with h0
    have := example_rate_pos
    have he : 0 < Real.exp 1 := Real.exp_pos _
    rcases mul_eq_zero.1 h0 with h1 | h1
    · linarith
    · linarith
  obtain ⟨rvl, -, -, -, -, hC⟩ :=
    equilibrium_catch_closed_form.2 (exampleData ℝ) (exampleParams ℝ) rep h hne
  exact ⟨rep, h, hne, hC⟩

/-- C20 on the example input with `logK = log 2`, so that `K/2 = 1 = B[ns-1]`: the last
knot is not a summer knot, `Binfpmsy = Bmsy`, and `Bpmsy = K/2`. -/
theorem equilibrium_at_Fmsy_is_Bmsy_witness :
    ∃ rep, objective_function (exampleData ℝ) { exampleParams ℝ with logK := Real.log 2 }
        = .ok rep ∧
      rep.Bmsy = fin (Real.exp (Real.log 2) / 2) ∧ rep.Binfpmsy = rep.Bmsy ∧
      rep.Bpmsy = fin (Real.exp (Real.log 2) / 2) := by
  obtain ⟨rep, h⟩ : ∃ rep, objective_function (exampleData ℝ)
      { exampleParams ℝ with logK := Real.log 2 } = .ok rep :=
    ok_of_readsInRange _ _ example_readsInRange
  obtain ⟨h1, h2, h3⟩ := equilibrium_at_Fmsy_is_Bmsy.2 (exampleData ℝ)
    { exampleParams ℝ with logK := Real.log 2 } rep h
    (by
      intro s hs
      simp [exampleData, exampleParams] at hs
      rw [← hs]
      exact zero_ne_one)
  refine ⟨rep, h, h1, h2, h3 rfl 0 (by simp [exampleParams]) ?_⟩
  simp only [Real.exp_zero]
  rw [Real.exp_log (by norm_num)]
  norm_num

end ExampleValues

section ExtLemmas

variable {α : Type}

@[simp] theorem XVal.add_fin_fin [Add α] (x y : α) :
    (XVal.fin x + XVal.fin y : XVal α) = XVal.fin (x + y) := rfl

@[simp] theorem XVal.sub_fin_fin [Sub α] (x y : α) :
    (XVal.fin x - XVal.fin y : XVal α) = XVal.fin (x - y) := rfl

@[simp] theorem XVal.neg_of_fin [Neg α] (x : α) : (-(XVal.fin x) : XVal α) = XVal.fin (-x) := rfl

@[simp] theorem XVal.ofNat_fin (n : Nat) [OfNat α n] :
    (OfNat.ofNat n : XVal α) = XVal.fin (OfNat.ofNat n) := rfl

@[simp] theorem XVal.ofScientific_fin [OfScientific α] (m : Nat) (s : Bool) (e : Nat) :
    (OfScientific.ofScientific m s e : XVal α) = XVal.fin (OfScientific.ofScientific m s e) :=
  rfl

end ExtLemmas

section ExtReal

@[simp] theorem XVal.mul_fin_fin (x y : ℝ) :
    (XVal.fin x * XVal.fin y : XVal ℝ) = XVal.fin (x * y) := rfl

@[simp] theorem XVal.exp_of_fin (x : ℝ) : XVal.exp (XVal.fin x) = XVal.fin (Real.exp x) := rfl

theorem XVal.one_div_fin (y : ℝ) :
    ((1 : XVal ℝ) / XVal.fin y) = if y = 0 then XVal.pinf else XVal.fin (1 / y) := by
  show XVal.div (XVal.fin 1) (XVal.fin y) = _
  by_cases hy : y = 0
  · simp [XVal.div, XVal.signedInf, hy]
  · simp [XVal.div, hy]

theorem XVal.one_div_pinf : ((1 : XVal ℝ) / XVal.pinf) = XVal.fin 0 := rfl

theorem XVal.one_div_nan : ((1 : XVal ℝ) / XVal.nan) = XVal.nan := rfl

/-- The analytical branch of `Ext.predictB` at finite parameters. -/
theorem Ext.predictB_analytic (X : XVal ℝ) (Binf F r K t sdb2 : ℝ) (lamperti : Int) :
    Ext.predictB X (XVal.fin Binf) (XVal.fin F) (XVal.fin r) (XVal.fin K) (XVal.fin t)
        (XVal.fin sdb2) lamperti 0
      = 1 / (1 / XVal.fin Binf + (1 / X - 1 / XVal.fin Binf)
          * XVal.fin (Real.exp (-(if lamperti ≠ 0 then r - F - 0.5 * sdb2 else r - F) * t))) := by
  by_cases hl : lamperti = 0 <;> simp [Ext.predictB, hl]

theorem XVal.pinf_mul_pos (e : ℝ) (he : 0 < e) :
    (XVal.pinf * XVal.fin e : XVal ℝ) = XVal.pinf := by
  show XVal.mul XVal.pinf (XVal.fin e) = _
  simp [XVal.mul, XVal.signedInf, he]

theorem XVal.ninf_mul_pos (e : ℝ) (he : 0 < e) :
    (XVal.ninf * XVal.fin e : XVal ℝ) = XVal.ninf := by
  show XVal.mul XVal.ninf (XVal.fin e) = _
  simp [XVal.mul, XVal.signedInf, he, not_lt.2 he.le]

/-- With `Binf = 0` the analytical prediction is NaN (`inf - inf`), whatever `B0` is. -/
theorem Ext.predictB_at_Binf_zero (X : XVal ℝ) (F r K t sdb2 : ℝ) (lamperti : Int) :
    Ext.predictB X (XVal.fin 0) (XVal.fin F) (XVal.fin r) (XVal.fin K) (XVal.fin t)
      (XVal.fin sdb2) lamperti 0 = XVal.nan := by
  rw [Ext.predictB_analytic, XVal.one_div_fin, if_pos rfl]
  have he := Real.exp_pos (-(if lamperti ≠ 0 then r - F - 0.5 * sdb2 else r - F) * t)
  have hs : ∀ Y : XVal ℝ, Y = XVal.ninf ∨ Y = XVal.nan →
      (1 : XVal ℝ) / (XVal.pinf + Y * XVal.fin (Real.exp
        (-(if lamperti ≠ 0 then r - F - 0.5 * sdb2 else r - F) * t))) = XVal.nan := by
    intro Y hY
    rcases hY with rfl | rfl
    · rw [XVal.ninf_mul_pos _ he]; rfl
    · rfl
  apply hs
  cases X with
  | fin b =>
    rw [XVal.one_div_fin]
    by_cases hb : b = 0
    · rw [if_pos hb]; exact Or.inr rfl
    · rw [if_neg hb]; exact Or.inl rfl
  | pinf => exact Or.inl rfl
  | ninf => exact Or.inl rfl
  | nan => exact Or.inr rfl

/-- From `B0 = 0` the analytical prediction is `0` (`1/inf`). -/
theorem Ext.predictB_at_zero (Binf F r K t sdb2 : ℝ) (lamperti : Int) (hBinf : Binf ≠ 0) :
    Ext.predictB (XVal.fin 0) (XVal.fin Binf) (XVal.fin F) (XVal.fin r) (XVal.fin K)
      (XVal.fin t) (XVal.fin sdb2) lamperti 0 = XVal.fin 0 := by
  rw [Ext.predictB_analytic, XVal.one_div_fin, if_neg hBinf, XVal.one_div_fin, if_pos rfl]
  have he := Real.exp_pos (-(if lamperti ≠ 0 then r - F - 0.5 * sdb2 else r - F) * t)
  have h1 : (XVal.pinf - XVal.fin (1 / Binf) : XVal ℝ) = XVal.pinf := rfl
  rw [h1, XVal.pinf_mul_pos _ he]
  rfl

/-- From a finite non-zero `B0`: the reciprocal of the denominator, `+inf` at a pole. -/
theorem Ext.predictB_at_fin (b Binf F r K t sdb2 : ℝ) (lamperti : Int) (hb : b ≠ 0)
    (hBinf : Binf ≠ 0) :
    Ext.predictB (XVal.fin b) (XVal.fin Binf) (XVal.fin F) (XVal.fin r) (XVal.fin K)
        (XVal.fin t) (XVal.fin sdb2) lamperti 0
      = if 1 / Binf + (1 / b - 1 / Binf)
            * Real.exp (-(if lamperti ≠ 0 then r - F - 0.5 * sdb2 else r - F) * t) = 0
        then XVal.pinf
        else XVal.fin (1 / (1 / Binf + (1 / b - 1 / Binf)
            * Real.exp (-(if lamperti ≠ 0 then r - F - 0.5 * sdb2 else r - F) * t))) := by
  rw [Ext.predictB_analytic, XVal.one_div_fin, if_neg hBinf, XVal.one_div_fin, if_neg hb,
    XVal.sub_fin_fin, XVal.mul_fin_fin, XVal.add_fin_fin, XVal.one_div_fin]

/-- From `B0 = +inf`, the result of a step that met a pole: its reciprocal is `0`. -/
theorem Ext.predictB_at_pinf (Binf F r K t sdb2 : ℝ) (lamperti : Int) (hBinf : Binf ≠ 0) :
    Ext.predictB XVal.pinf (XVal.fin Binf) (XVal.fin F) (XVal.fin r) (XVal.fin K)
        (XVal.fin t) (XVal.fin sdb2) lamperti 0
      = if 1 / Binf + (0 - 1 / Binf)
            * Real.exp (-(if lamperti ≠ 0 then r - F - 0.5 * sdb2 else r - F) * t) = 0
        then XVal.pinf
        else XVal.fin (1 / (1 / Binf + (0 - 1 / Binf)
            * Real.exp (-(if lamperti ≠ 0 then r - F - 0.5 * sdb2 else r - F) * t))) := by
  rw [Ext.predictB_analytic, XVal.one_div_fin, if_neg hBinf, XVal.one_div_pinf,
    XVal.sub_fin_fin, XVal.mul_fin_fin, XVal.add_fin_fin, XVal.one_div_fin]

/-- C18: time-step composition of the analytical scheme, for every `B0`, `Binf`, `F`, `r`,
`K`, `sdb2`, `lamperti`, `dt1` and `dt2`: the prediction over `dt1` fed back in for `dt2` is
the prediction over `dt1 + dt2`.  Read over scalars with infinities, as the source computes:
when the first step divides by zero its result is `+inf`, whose reciprocal in the second
step is `0`; with `B0 = 0` both sides are `0`, with `Binf = 0` both are NaN. -/
theorem predictB_analytic_composition (B0 Binf F r K sdb2 dt1 dt2 : ℝ) (lamperti : Int) :
    Ext.predictB
        (Ext.predictB (XVal.fin B0) (XVal.fin Binf) (XVal.fin F) (XVal.fin r) (XVal.fin K)
          (XVal.fin dt1) (XVal.fin sdb2) lamperti 0)
        (XVal.fin Binf) (XVal.fin F) (XVal.fin r) (XVal.fin K) (XVal.fin dt2) (XVal.fin sdb2)
        lamperti 0
      = Ext.predictB (XVal.fin B0) (XVal.fin Binf) (XVal.fin F) (XVal.fin r) (XVal.fin K)
          (XVal.fin (dt1 + dt2)) (XVal.fin sdb2) lamperti 0 := by
  by_cases hBinf : Binf = 0
  · subst hBinf
    rw [Ext.predictB_at_Binf_zero, Ext.predictB_at_Binf_zero]
  by_cases hB0 : B0 = 0
  · subst hB0
    rw [Ext.predictB_at_zero _ _ _ _ _ _ _ hBinf, Ext.predictB_at_zero _ _ _ _ _ _ _ hBinf,
      Ext.predictB_at_zero _ _ _ _ _ _ _ hBinf]
  rw [Ext.predictB_at_fin B0 _ _ _ _ dt1 _ _ hB0 hBinf,
    Ext.predictB_at_fin B0 _ _ _ _ (dt1 + dt2) _ _ hB0 hBinf]
  have hpole := Ext.predictB_at_pinf Binf F r K dt2 sdb2 lamperti hBinf
  have hstep := fun (b : ℝ) (hb : b ≠ 0) =>
    Ext.predictB_at_fin b Binf F r K dt2 sdb2 lamperti hb hBinf
  generalize (if lamperti ≠ 0 then r - F - 0.5 * sdb2 else r - F) = rate at hpole hstep ⊢
  have hexp : Real.exp (-rate * (dt1 + dt2))
      = Real.exp (-rate * dt1) * Real.exp (-rate * dt2) := by
    rw [mul_add, Real.exp_add]
  by_cases hD : 1 / Binf + (1 / B0 - 1 / Binf) * Real.exp (-rate * dt1) = 0
  · rw [if_pos hD, hpole]
    have hden : 1 / Binf + (0 - 1 / Binf) * Real.exp (-rate * dt2)
        = 1 / Binf + (1 / B0 - 1 / Binf) * Real.exp (-rate * (dt1 + dt2)) := by
      rw [hexp]
      have : (1 / B0 - 1 / Binf) * Real.exp (-rate * dt1) = - (1 / Binf) := by linarith
      linear_combination (-Real.exp (-rate * dt2)) * this
    rw [hden]
  · rw [if_neg hD, hstep _ (one_div_ne_zero hD)]
    have hden : 1 / Binf + (1 / (1 / (1 / Binf + (1 / B0 - 1 / Binf) * Real.exp (-rate * dt1)))
          - 1 / Binf) * Real.exp (-rate * dt2)
        = 1 / Binf + (1 / B0 - 1 / Binf) * Real.exp (-rate * (dt1 + dt2)) := by
      rw [one_div_one_div, hexp]; ring
    rw [hden]

theorem predictB_analytic_cases (b Binf F r K t sdb2 : ℝ) (lamperti : Int) (hb : b ≠ 0)
    (hBinf : Binf ≠ 0) :
    predictB (fin b) (fin Binf) (fin F) (fin r) (fin K) (fin t) (fin sdb2) lamperti 0
      = if 1 / Binf + (1 / b - 1 / Binf)
            * Real.exp (-(if lamperti ≠ 0 then r - F - 0.5 * sdb2 else r - F) * t) = 0
        then nan
        else fin (1 / (1 / Binf + (1 / b - 1 / Binf)
            * Real.exp (-(if lamperti ≠ 0 then r - F - 0.5 * sdb2 else r - F) * t))) := by
  by_cases hl : lamperti = 0 <;> simp [predictB, hl, hb, hBinf]

theorem XVal.log_pos_fin (x : ℝ) (hx : 0 < x) :
    XVal.log (XVal.fin x) = XVal.fin (Real.log x) := by
  show (if 0 < x then XVal.fin (Transc.log x) else if x < 0 then XVal.nan else XVal.ninf) = _
  rw [if_pos hx]; rfl

theorem XVal.fin_div_fin_ne (x y : ℝ) (hy : y ≠ 0) :
    (XVal.fin x / XVal.fin y : XVal ℝ) = XVal.fin (x / y) := by
  show XVal.div (XVal.fin x) (XVal.fin y) = _
  simp [XVal.div, hy]

/-- Where the embedding over `Val` yields a finite prediction, the one over `XVal` yields the
same number: the two readings of `predictB` differ only where an intermediate result is
infinite. -/
theorem predictB_ext_refines (B0 Binf F r K t sdb2 x : ℝ) (lamperti euler : Int)
    (h : predictB (fin B0) (fin Binf) (fin F) (fin r) (fin K) (fin t) (fin sdb2)
      lamperti euler = fin x) :
    Ext.predictB (XVal.fin B0) (XVal.fin Binf) (XVal.fin F) (XVal.fin r) (XVal.fin K)
      (XVal.fin t) (XVal.fin sdb2) lamperti euler = XVal.fin x := by
  by_cases he : euler = 0
  · subst he
    by_cases hB0 : B0 = 0
    · subst hB0
      exfalso
      by_cases hl : lamperti = 0 <;> simp [predictB, hl] at h
    by_cases hBinf : Binf = 0
    · subst hBinf
      exfalso
      by_cases hl : lamperti = 0 <;> simp [predictB, hl] at h
    rw [Ext.predictB_at_fin _ _ _ _ _ _ _ _ hB0 hBinf]
    rw [predictB_analytic_cases _ _ _ _ _ _ _ _ hB0 hBinf] at h
    by_cases hD : 1 / Binf + (1 / B0 - 1 / Binf)
        * Real.exp (-(if lamperti ≠ 0 then r - F - 0.5 * sdb2 else r - F) * t) = 0
    · rw [if_pos hD] at h
      cases h
    · rw [if_neg hD] at h ⊢
      injection h with h
      rw [h]
  · by_cases hB0 : 0 < B0
    · by_cases hK : K = 0
      · subst hK
        exfalso
        simp [predictB, he] at h
      · have h1 : predictB (fin B0) (fin Binf) (fin F) (fin r) (fin K) (fin t) (fin sdb2)
            lamperti euler
            = fin (Real.exp (Real.log B0 + (r - F - 0.5 * sdb2 - r / K * B0) * t)) := by
          simp [predictB, he, hB0, hK]
        rw [h1] at h
        injection h with h
        rw [← h]
        simp only [Ext.predictB, he, ne_eq, not_false_eq_true, if_true, one_ne_zero,
          XVal.ofScientific_fin, XVal.mul_fin_fin, XVal.sub_fin_fin,
          XVal.log_pos_fin _ hB0, XVal.fin_div_fin_ne _ _ hK, XVal.add_fin_fin, XVal.exp_of_fin]
    · exfalso
      simp [predictB, he, hB0] at h

/-- C18 at a pole: `B0 = 1`, `Binf = -1`, `F = 0`, `r = 1`, `dt1 = log 2`, `dt2 = 1`.  The
first step divides by `-1 + 2*exp(-log 2) = 0` and yields `+inf`; the second step, from
`+inf`, and the single step over `log 2 + 1` both yield `1/(exp(-1) - 1)`. -/
theorem predictB_analytic_composition_witness :
    Ext.predictB (XVal.fin (1 : ℝ)) (XVal.fin (-1)) (XVal.fin 0) (XVal.fin 1) (XVal.fin 1)
      (XVal.fin (Real.log 2)) (XVal.fin 0) 0 0 = XVal.pinf ∧
    Ext.predictB XVal.pinf (XVal.fin (-1 : ℝ)) (XVal.fin 0) (XVal.fin 1) (XVal.fin 1)
      (XVal.fin 1) (XVal.fin 0) 0 0
      = Ext.predictB (XVal.fin (1 : ℝ)) (XVal.fin (-1)) (XVal.fin 0) (XVal.fin 1) (XVal.fin 1)
          (XVal.fin (Real.log 2 + 1)) (XVal.fin 0) 0 0 ∧
    Ext.predictB XVal.pinf (XVal.fin (-1 : ℝ)) (XVal.fin 0) (XVal.fin 1) (XVal.fin 1)
      (XVal.fin 1) (XVal.fin 0) 0 0 = XVal.fin (1 / (Real.exp (-1) - 1)) := by
  have h2 : Real.exp (-Real.log 2) = 1 / 2 := by
    rw [Real.exp_neg, Real.exp_log (by norm_num)]; norm_num
  have hfirst : Ext.predictB (XVal.fin (1 : ℝ)) (XVal.fin (-1)) (XVal.fin 0) (XVal.fin 1)
      (XVal.fin 1) (XVal.fin (Real.log 2)) (XVal.fin 0) 0 0 = XVal.pinf := by
    rw [Ext.predictB_at_fin _ _ _ _ _ _ _ _ one_ne_zero (by norm_num)]
    have hD : 1 / (-1 : ℝ) + (1 / 1 - 1 / (-1))
        * Real.exp (-(if (0 : Int) ≠ 0 then (1 : ℝ) - 0 - 0.5 * 0 else 1 - 0) * Real.log 2)
        = 0 := by
      simp only [ne_eq, not_true_eq_false, if_false, sub_zero, neg_mul, one_mul, h2]
      norm_num
    rw [if_pos hD]
  have hcomp := predictB_analytic_composition 1 (-1) 0 1 1 0 (Real.log 2) 1 0
  rw [hfirst] at hcomp
  refine ⟨hfirst, hcomp, ?_⟩
  rw [Ext.predictB_at_pinf _ _ _ _ _ _ _ (by norm_num)]
  have hlt : Real.exp (-1) < 1 := by rw [Real.exp_lt_one_iff]; norm_num
  have hD : 1 / (-1 : ℝ) + (0 - 1 / (-1))
      * Real.exp (-(if (0 : Int) ≠ 0 then (1 : ℝ) - 0 - 0.5 * 0 else 1 - 0) * 1)
      = Real.exp (-1) - 1 := by
    simp only [ne_eq, not_true_eq_false, if_false, sub_zero, neg_mul, one_mul, mul_one]
    ring
  rw [hD, if_neg (by linarith)]

end ExtReal

end Spict
